import Mathlib

/-!
# CapturyLiveLink: a shallow embedding of `CapturyLiveLinkSource`

The development embeds `Source/CapturyLiveLink/Private/CapturyLiveLinkSource.cpp`.

* Scalars (`float`) are elements of an arbitrary linearly ordered field `α`,
  so every arithmetic step is exact; `sqrt`, `sin` and `cos` come from an
  `Arith α` record.
* The object state of a `CapturyLiveLinkSource` is the record `Source α`.  The
  (recursive) mutex `mutx` is the hold-depth counter `mutxDepth`; every call
  made on `liveLinkClient` is appended to the log `engine` together with the
  hold depth at the moment of the call.
* `TArray` / `TMap` / `TSet` / `TCircularQueue` are lists; indexing a `TArray`
  out of range is the explicit outcome `Stop.outOfRange`.
* Logging, wall-clock time and frame meta data are not modelled.
-/

namespace CapturyLiveLink

/-! ## Engine containers -/

/-- Indexing of a `TArray` by a C `int`: defined only for `0 ≤ idx < Num()`. -/
def TArray.get {β : Type} (xs : List β) (idx : Int) : Option β :=
  if 0 ≤ idx then xs[idx.toNat]? else none

/-- A `TCircularQueue<int>`: the ids it holds, oldest first, and the number of
ids it can hold (fixed by the constructor argument; the class itself is engine
code, so the bound is kept as a field). -/
structure TCircularQueue where
  capacity : Nat
  items : List Int
deriving DecidableEq, Repr

/-- The call `Enqueue(x)`: appends at the tail when there is room, otherwise does nothing
(the source ignores the returned flag everywhere). -/
def TCircularQueue.Enqueue (q : TCircularQueue) (x : Int) : TCircularQueue :=
  if q.items.length < q.capacity then { q with items := q.items ++ [x] } else q

/-- The queue after a `while (q.Dequeue(id))` loop has run to completion. -/
def TCircularQueue.drained (q : TCircularQueue) : TCircularQueue :=
  { q with items := [] }

/-- The call `TMap::Find`. -/
def TMap.Find {K V : Type} [DecidableEq K] (m : List (K × V)) (k : K) : Option V :=
  match m with
  | [] => none
  | (k', v) :: rest => if k' = k then some v else TMap.Find rest k

/-- The call `TMap::Contains`. -/
def TMap.Contains {K V : Type} [DecidableEq K] (m : List (K × V)) (k : K) : Bool :=
  (TMap.Find m k).isSome

/-- The call `TMap::Remove` (followed by `Compact`, which does not change the content). -/
def TMap.Remove {K V : Type} [DecidableEq K] (m : List (K × V)) (k : K) : List (K × V) :=
  m.filter (fun e => decide (e.1 ≠ k))

/-- The call `TMap::Add`: the pair replaces any pair stored under the same key. -/
def TMap.Add {K V : Type} [DecidableEq K] (m : List (K × V)) (k : K) (v : V) : List (K × V) :=
  TMap.Remove m k ++ [(k, v)]

/-- The call `TMap::FindOrAdd(k, v)`: keeps a value already stored under `k`. -/
def TMap.FindOrAdd {K V : Type} [DecidableEq K] (m : List (K × V)) (k : K) (v : V) :
    List (K × V) :=
  if TMap.Contains m k then m else m ++ [(k, v)]

/-- The number of pairs a map stores under a key. -/
def TMap.count {K V : Type} [DecidableEq K] (m : List (K × V)) (k : K) : Nat :=
  (m.filter (fun e => decide (e.1 = k))).length

/-- The call `TSet::Add`: a set holds a value at most once. -/
def TSet.Add (xs : List Int) (x : Int) : List Int :=
  if x ∈ xs then xs else xs ++ [x]

/-- The call `TSet::Remove`. -/
def TSet.Remove (xs : List Int) (x : Int) : List Int :=
  xs.filter (fun y => decide (y ≠ x))

/-! ## Scalars, vectors, quaternions (engine math, `FVector`, `FQuat`, `FTransform`) -/

/-- The three library functions the source calls on floats. -/
structure Arith (α : Type) where
  sqrt : α → α
  sin : α → α
  cos : α → α

structure FVector (α : Type) where
  X : α
  Y : α
  Z : α
deriving DecidableEq, Repr

structure FQuat (α : Type) where
  X : α
  Y : α
  Z : α
  W : α
deriving DecidableEq, Repr

structure FTransform (α : Type) where
  Rotation : FQuat α
  Translation : FVector α
  Scale3D : FVector α
deriving DecidableEq, Repr

section Math

variable {α : Type} [LinearOrderedField α]

/-- The constant `#define DEG2RADf 0.0174532925199432958f`. -/
def DEG2RADf : α := 174532925199432958 / 10000000000000000000

/-- The constant `#define scaleToUnreal 0.1f` (the engine works in centimetres). -/
def scaleToUnreal : α := 1 / 10

/-- The constant `FVector::ZeroVector`. -/
def FVector.ZeroVector : FVector α := ⟨0, 0, 0⟩

/-- The constant `FVector::OneVector`. -/
def FVector.OneVector : FVector α := ⟨1, 1, 1⟩

/-- The constructor `FVector(float)`: all three components equal. -/
def FVector.splat (f : α) : FVector α := ⟨f, f, f⟩

/-- The cross product of two vectors. -/
def FVector.cross (a b : FVector α) : FVector α :=
  ⟨a.Y * b.Z - a.Z * b.Y, a.Z * b.X - a.X * b.Z, a.X * b.Y - a.Y * b.X⟩

/-- The constructor `FQuat(Axis, AngleRad)`: `(sin(a/2)·Axis, cos(a/2))`. -/
def FQuat.axisAngle (A : Arith α) (axis : FVector α) (angleRad : α) : FQuat α :=
  let half := (1 / 2) * angleRad
  let s := A.sin half
  let c := A.cos half
  ⟨s * axis.X, s * axis.Y, s * axis.Z, c⟩

/-- The product `FQuat::operator*` (Hamilton product). -/
def FQuat.mul (p q : FQuat α) : FQuat α :=
  ⟨p.W * q.X + p.X * q.W + p.Y * q.Z - p.Z * q.Y,
   p.W * q.Y - p.X * q.Z + p.Y * q.W + p.Z * q.X,
   p.W * q.Z + p.X * q.Y - p.Y * q.X + p.Z * q.W,
   p.W * q.W - p.X * q.X - p.Y * q.Y - p.Z * q.Z⟩

/-- The call `FQuat::Inverse()`: the conjugate. -/
def FQuat.Inverse (q : FQuat α) : FQuat α := ⟨-q.X, -q.Y, -q.Z, q.W⟩

/-- The product `FQuat::operator*(FVector)`, i.e. `RotateVector`: `v + W·t + q×t` with
`t = 2·(q×v)`. -/
def FQuat.rotateVector (q : FQuat α) (v : FVector α) : FVector α :=
  let qv : FVector α := ⟨q.X, q.Y, q.Z⟩
  let c := FVector.cross qv v
  let t : FVector α := ⟨2 * c.X, 2 * c.Y, 2 * c.Z⟩
  let u := FVector.cross qv t
  ⟨v.X + q.W * t.X + u.X, v.Y + q.W * t.Y + u.Y, v.Z + q.W * t.Z + u.Z⟩

/-- The quaternion `FQuat(0.0f, 0.0f, 0.0f, 1.0f)`. -/
def FQuat.Identity : FQuat α := ⟨0, 0, 0, 1⟩

/-- The default-constructed `FTransform`. -/
def FTransform.Identity : FTransform α :=
  ⟨FQuat.Identity, FVector.ZeroVector, FVector.OneVector⟩

end Math

/-! ## Capture SDK records (`RemoteCaptury.h`) -/

structure CapturyJoint (α : Type) where
  name : String
  parent : Int
  offset : FVector α
  orientation : FVector α
  scale : FVector α
deriving DecidableEq, Repr

structure CapturyBlendShape where
  name : String
deriving DecidableEq, Repr

/-- A `CapturyActor`; `numJoints`, `numBlendShapes` and `numMetaData` are the
lengths of the three arrays. -/
structure CapturyActor (α : Type) where
  name : String
  id : Int
  joints : List (CapturyJoint α)
  blendShapes : List CapturyBlendShape
  metaData : List (String × String)
deriving DecidableEq, Repr

def CapturyActor.numJoints {α : Type} (actor : CapturyActor α) : Nat := actor.joints.length

def CapturyActor.numBlendShapes {α : Type} (actor : CapturyActor α) : Nat :=
  actor.blendShapes.length

structure CapturyTransform (α : Type) where
  translation : FVector α
  rotation : FVector α
deriving DecidableEq, Repr

/-- A `CapturyPose`; `numTransforms` and `numBlendShapes` are the lengths of the two arrays. -/
structure CapturyPose (α : Type) where
  timestamp : Nat
  transforms : List (CapturyTransform α)
  blendShapeActivations : List α
deriving DecidableEq, Repr

def CapturyPose.numTransforms {α : Type} (pose : CapturyPose α) : Nat := pose.transforms.length

def CapturyPose.numBlendShapes {α : Type} (pose : CapturyPose α) : Nat :=
  pose.blendShapeActivations.length

structure CapturyARTag (α : Type) where
  id : Int
  transform : CapturyTransform α
deriving DecidableEq, Repr

/-- The enum `CapturyActorStatus`, the `mode` of an actor-changed notification. -/
inductive CapturyActorStatus where
  | ACTOR_SCALING
  | ACTOR_TRACKING
  | ACTOR_STOPPED
  | ACTOR_DELETED
  | ACTOR_UNKNOWN
deriving DecidableEq, Repr

/-- The capture session as the source sees it: `Captury_getActor` and `Captury_getActors`. -/
structure RemoteCaptury (α : Type) where
  getActor : Int → Option (CapturyActor α)
  getActors : List (CapturyActor α)

/-! ## Engine-facing records -/

structure FLiveLinkSubjectKey where
  Source : Nat
  SubjectName : String
deriving DecidableEq, Repr

inductive LiveLinkRole where
  | Animation
  | Transform
deriving DecidableEq, Repr

/-- Static data handed to `PushSubjectStaticData_AnyThread`. -/
inductive FLiveLinkStaticData where
  | skeleton (boneNames : List String) (boneParents : List Int) (propertyNames : List String)
  | transform (bIsScaleSupported : Bool)
deriving DecidableEq, Repr

/-- The `FLiveLinkAnimationFrameData` built by `newPose`. -/
structure FLiveLinkAnimationFrameData (α : Type) where
  Transforms : List (FTransform α)
  PropertyValues : List α
deriving DecidableEq, Repr

/-- The `FLiveLinkTransformFrameData` built by `newPose` and `arTagDetected`. -/
structure FLiveLinkTransformFrameData (α : Type) where
  Transform : FTransform α
  PropertyValues : List α
deriving DecidableEq, Repr

inductive FLiveLinkFrameData (α : Type) where
  | animation (data : FLiveLinkAnimationFrameData α)
  | transform (data : FLiveLinkTransformFrameData α)
deriving DecidableEq, Repr

/-- A call made on `liveLinkClient`. -/
inductive EngineCall (α : Type) where
  | PushSubjectStaticData (key : FLiveLinkSubjectKey) (role : LiveLinkRole)
      (data : FLiveLinkStaticData)
  | RemoveSubject (key : FLiveLinkSubjectKey)
  | PushSubjectFrameData (key : FLiveLinkSubjectKey) (frame : FLiveLinkFrameData α)
deriving DecidableEq, Repr

/-- A logged engine call with the mutex hold depth at the time of the call. -/
structure EngineEvent (α : Type) where
  heldDepth : Nat
  call : EngineCall α
deriving DecidableEq, Repr

/-! ## The source object -/

/-- The members of `CapturyLiveLinkSource` that the modelled methods read or write.
`liveLinkClient` records whether the pointer is non-null; `once` is the function-local
static counter of `newPose`. -/
structure Source (α : Type) where
  ipAddress : String
  enabled : Bool
  connected : Bool
  liveLinkClient : Bool
  sourceGuid : Nat
  haveActors : List (Int × FLiveLinkSubjectKey)
  queuedActorIds : TCircularQueue
  queuedActorIdsToRemove : TCircularQueue
  queuedARTags : TCircularQueue
  namePrefix : String
  sourceIndex : Int
  mutxDepth : Nat
  once : Nat
  engine : List (EngineEvent α)
deriving DecidableEq, Repr

/-- The process-wide statics `sourceCount` and `ipAddressCounts`. -/
structure Globals where
  sourceCount : Int
  ipAddressCounts : List (String × List Int)
deriving DecidableEq, Repr

/-- The statics before any session exists. -/
def Globals.initial : Globals := ⟨0, []⟩

section Lifecycle

variable {α : Type}

/-- The call `mutx.Lock()`, also the constructor of an `FScopeLock`. -/
def Source.lock (s : Source α) : Source α := { s with mutxDepth := s.mutxDepth + 1 }

/-- The call `mutx.Unlock()`, also the destructor of an `FScopeLock`. -/
def Source.unlock (s : Source α) : Source α := { s with mutxDepth := s.mutxDepth - 1 }

/-- A call on `liveLinkClient`, logged with the current hold depth. -/
def Source.call (s : Source α) (c : EngineCall α) : Source α :=
  { s with engine := s.engine ++ [⟨s.mutxDepth, c⟩] }

/-- The members no loop body of `Update` writes: the client pointer, the guid, the name
prefix, the hold depth between two statements, and the AR-tag queue. -/
def Source.fixedPart (s : Source α) : Bool × Nat × String × Nat × TCircularQueue :=
  (s.liveLinkClient, s.sourceGuid, s.namePrefix, s.mutxDepth, s.queuedARTags)

/-- The loop `while (indexes.Contains(sourceIndex)) ++sourceIndex;`, at most `fuel` increments. -/
def firstFreeIndex (indexes : List Int) : Nat → Int → Int
  | 0, sourceIndex => sourceIndex
  | fuel + 1, sourceIndex =>
    if sourceIndex ∈ indexes then firstFreeIndex indexes fuel (sourceIndex + 1) else sourceIndex

/-- The constructor `CapturyLiveLinkSource(ip, ...)`, up to the point where the capture
session is created.  `capacity` is the number of ids a `TCircularQueue<int>(10)` holds. -/
def Source.construct (capacity : Nat) (g : Globals) (ip : String) : Globals × Source α :=
  let sourceCount := g.sourceCount + 1
  let picked : Int × List (String × List Int) :=
    match TMap.Find g.ipAddressCounts ip with
    | some indexes =>
      let sourceIndex := firstFreeIndex indexes (indexes.length + 1) 1
      (sourceIndex, TMap.Add g.ipAddressCounts ip (TSet.Add indexes sourceIndex))
    | none => (1, TMap.Add g.ipAddressCounts ip [1])
  let sourceIndex := picked.1
  let namePrefix : String :=
    if sourceCount > 1 then
      if sourceIndex = 1 then ip ++ ":"
      else ip ++ "\x7b" ++ toString sourceIndex ++ "\x7d:"
    else ""
  (⟨sourceCount, picked.2⟩,
   { ipAddress := ip, enabled := true, connected := false, liveLinkClient := false,
     sourceGuid := 0, haveActors := [],
     queuedActorIds := ⟨capacity, []⟩, queuedActorIdsToRemove := ⟨capacity, []⟩,
     queuedARTags := ⟨capacity, []⟩,
     namePrefix := namePrefix, sourceIndex := sourceIndex, mutxDepth := 0, once := 0,
     engine := [] })

/-- The method `ReceiveClient` without its call to `addSubjects`. -/
def Source.setClient (s : Source α) (InSourceGuid : Nat) : Source α :=
  { s with sourceGuid := InSourceGuid, liveLinkClient := true }

/-- The method `CapturyLiveLinkSource::actorChanged`. -/
def actorChanged (s : Source α) (actorId : Int) (mode : CapturyActorStatus) : Source α :=
  let s := s.lock
  if TMap.Contains s.haveActors actorId then
    if mode = .ACTOR_STOPPED ∨ mode = .ACTOR_DELETED then
      ({ s with queuedActorIdsToRemove := s.queuedActorIdsToRemove.Enqueue actorId }).unlock
    else
      s.unlock
  else
    let s := s.unlock
    if mode = .ACTOR_STOPPED ∨ mode = .ACTOR_DELETED then s
    else
      let s := s.lock
      let s := { s with queuedActorIds := s.queuedActorIds.Enqueue actorId }
      s.unlock

/-- The method `setupPropStaticData`. -/
def setupPropStaticData : FLiveLinkStaticData := .transform false

/-- The test `strcmp(actor->joints[0].name, "Hips") == 0`. -/
def CapturyActor.rootIsHips (actor : CapturyActor α) : Bool :=
  match actor.joints with
  | [] => false
  | j :: _ => j.name == "Hips"

/-- The call `name.ReplaceInline(TEXT("."), TEXT("_"))`: every dot becomes an underscore. -/
def replaceDots (name : String) : String :=
  ⟨name.data.map (fun c => if c = '.' then '_' else c)⟩

/-- The method `setupSkeletonDefinition`. -/
def setupSkeletonDefinition (actor : CapturyActor α) : FLiveLinkStaticData :=
  let hips := actor.rootIsHips
  let jointOffset : Int := if hips then 1 else 0
  let jointNames := (if hips then ["Root"] else []) ++
    actor.joints.map (fun j => replaceDots j.name)
  let parents := (if hips then [(-1 : Int)] else []) ++
    actor.joints.map (fun j => j.parent + jointOffset)
  let blendShapeNames := actor.blendShapes.map (fun b => replaceDots b.name)
  .skeleton jointNames parents blendShapeNames

/-- The method `CapturyLiveLinkSource::addSubject`. -/
def addSubject (s : Source α) (actor : CapturyActor α) : Source α :=
  if (TMap.Find s.haveActors actor.id).isSome then s
  else if s.liveLinkClient = false then s
  else
    let subjectKey : FLiveLinkSubjectKey := ⟨s.sourceGuid, s.namePrefix ++ actor.name⟩
    let s :=
      if actor.numJoints > 1 then
        s.call (.PushSubjectStaticData subjectKey .Animation (setupSkeletonDefinition actor))
      else
        s.call (.PushSubjectStaticData subjectKey .Transform setupPropStaticData)
    { s with haveActors := TMap.FindOrAdd s.haveActors actor.id subjectKey }

/-- The method `addSubjects`. -/
def addSubjects (rc : RemoteCaptury α) (s : Source α) : Source α :=
  let s := s.lock
  let s := rc.getActors.foldl addSubject s
  s.unlock

/-- One pass of the body of `while (queuedActorIdsToRemove.Dequeue(actorId))` in `Update`. -/
def Update.removeStep (s : Source α) (actorId : Int) : Source α :=
  let s := s.lock
  match TMap.Find s.haveActors actorId with
  | none => s.unlock
  | some subjectKey =>
    let s := s.call (.RemoveSubject subjectKey)
    let s := { s with haveActors := TMap.Remove s.haveActors actorId }
    s.unlock

/-- One pass of the body of `while (queuedActorIds.Dequeue(actorId))` in `Update`; the second
component is the local array `requeue`. -/
def Update.addStep (rc : RemoteCaptury α) (acc : Source α × List Int) (actorId : Int) :
    Source α × List Int :=
  match rc.getActor actorId with
  | some actor => (addSubject acc.1 actor, acc.2)
  | none => (acc.1, acc.2 ++ [actorId])

/-- One pass of the body of `for (int id : requeue)` in `Update`. -/
def Update.requeueStep (s : Source α) (id : Int) : Source α :=
  { s with queuedActorIds := s.queuedActorIds.Enqueue id }

/-- One pass of the body of `while (queuedARTags.Dequeue(id))` in `Update`. -/
def Update.arTagStep (s : Source α) (id : Int) : Source α :=
  let subjectKey : FLiveLinkSubjectKey :=
    ⟨s.sourceGuid, s.namePrefix ++ "ARTag " ++ toString id⟩
  let s := s.call (.PushSubjectStaticData subjectKey .Transform setupPropStaticData)
  let s := s.lock
  let s := { s with haveActors := TMap.Add s.haveActors id subjectKey }
  s.unlock

/-- The loop `while (queuedActorIdsToRemove.Dequeue(actorId))` of `Update`.  No loop body of
`Update` enqueues into the queue its loop drains, so each `while (q.Dequeue(id))` visits the
ids present at its start, oldest first, and leaves the queue empty. -/
def Update.removePhase (s : Source α) : Source α :=
  s.queuedActorIdsToRemove.items.foldl Update.removeStep
    { s with queuedActorIdsToRemove := s.queuedActorIdsToRemove.drained }

/-- The loop `while (queuedActorIds.Dequeue(actorId))` of `Update`, with the local array
`requeue` it fills. -/
def Update.addLoop (rc : RemoteCaptury α) (s : Source α) : Source α × List Int :=
  s.queuedActorIds.items.foldl (Update.addStep rc)
    ({ s with queuedActorIds := s.queuedActorIds.drained }, [])

/-- The add loop of `Update` followed by `for (int id : requeue)`. -/
def Update.addPhase (rc : RemoteCaptury α) (s : Source α) : Source α :=
  (Update.addLoop rc s).2.foldl Update.requeueStep (Update.addLoop rc s).1

/-- The loop `while (queuedARTags.Dequeue(id))` of `Update`. -/
def Update.arTagPhase (s : Source α) : Source α :=
  s.queuedARTags.items.foldl Update.arTagStep
    { s with queuedARTags := s.queuedARTags.drained }

/-- The method `CapturyLiveLinkSource::Update`.  With a null client it returns right after
`mutx.Lock()`. -/
def Update (rc : RemoteCaptury α) (s : Source α) : Source α :=
  let s := s.lock
  if s.liveLinkClient = false then s
  else
    let s := Update.removePhase s
    let s := Update.addPhase rc s
    let s := s.unlock
    Update.arTagPhase s

/-- The method `disable`. -/
def disable (s : Source α) : Source α :=
  let s := s.lock
  let s := { s with haveActors := [], liveLinkClient := false }
  let s := s.unlock
  { s with enabled := false }

/-- The method `RequestSourceShutdown`. -/
def RequestSourceShutdown (s : Source α) : Source α :=
  let s := s.lock
  let s := { s with liveLinkClient := false }
  s.unlock

end Lifecycle

/-! ## The pose transformer -/

/-- Why the joint loop of `newPose` stops early: the guard on the parent index fired (the
method returns without pushing), or an array was indexed out of range. -/
inductive Stop where
  | invalidParent
  | outOfRange
deriving DecidableEq, Repr

/-- Checked `TArray` indexing. -/
def TArray.at {β : Type} (xs : List β) (idx : Int) : Except Stop β :=
  match TArray.get xs idx with
  | some x => .ok x
  | none => .error .outOfRange

/-- The arrays `newPose` grows while it walks the joints, and the two outputs it fills. -/
structure PoseLoop (α : Type) where
  globalOrientations : List (FQuat α)
  globalPoseRotations : List (FQuat α)
  globalScale : List α
  animTransforms : List (FTransform α)
  trafoTransform : FTransform α
deriving DecidableEq, Repr

section Pose

variable {α : Type} [LinearOrderedField α]

/-- The quaternion `FQuat(Z, rz) * FQuat(Y, ry) * FQuat(X, rx)` of a raw Euler rotation in
degrees. -/
def eulerToQuat (A : Arith α) (rotation : FVector α) : FQuat α :=
  let rx := rotation.X * DEG2RADf
  let ry := rotation.Y * DEG2RADf
  let rz := rotation.Z * DEG2RADf
  ((FQuat.axisAngle A ⟨0, 0, 1⟩ rz).mul (FQuat.axisAngle A ⟨0, 1, 0⟩ ry)).mul
    (FQuat.axisAngle A ⟨1, 0, 0⟩ rx)

/-- The bind pose unpacked from `joints[i].orientation`. -/
def bindPoseOf (A : Arith α) (orientation : FVector α) : FQuat α :=
  let w := 1 - orientation.X * orientation.X - orientation.Y * orientation.Y
    - orientation.Z * orientation.Z
  ⟨orientation.X, orientation.Y, orientation.Z, if w ≤ 0 then 0 else A.sqrt w⟩

/-- The rotation `FQuat(FVector(1, 0, 0), 90 * DEG2RADf)`. -/
def layFlat (A : Arith α) : FQuat α := FQuat.axisAngle A ⟨1, 0, 0⟩ (90 * DEG2RADf)

/-- The correction `rot.Y = -rot.Y; rot.W = -rot.W;`. -/
def flipRotation (rot : FQuat α) : FQuat α := { rot with Y := -rot.Y, W := -rot.W }

/-- The correction `trans.Y = -trans.Y;`. -/
def flipTranslation (trans : FVector α) : FVector α := { trans with Y := -trans.Y }

/-- Lines 175-181 of `newPose`: the pose rotation made local to the parent, read from
`globalPoseRotations` after the joint's own rotation has been added to it. -/
def newPose.localRotation (globalPoseRotations : List (FQuat α)) (parent : Int)
    (poseRot : FQuat α) : Except Stop (FQuat α) :=
  if parent ≥ 0 then
    if parent ≥ globalPoseRotations.length then
      .error .invalidParent
    else
      match TArray.at globalPoseRotations parent with
      | .error e => .error e
      | .ok parentRot => .ok (parentRot.Inverse.mul poseRot)
  else .ok poseRot

/-- Lines 191-202 of `newPose`: the logging block, which for the first three poses reads
`globalOrientations[parent]` of every joint but the first. -/
def newPose.logBindPose (once i : Nat) (globalOrientations : List (FQuat α)) (parent : Int) :
    Except Stop Unit :=
  if once < 3 ∧ i ≠ 0 then
    match TArray.at globalOrientations parent with
    | .error e => .error e
    | .ok _ => .ok ()
  else .ok ()

/-- Lines 204-224 of `newPose`: rotation, translation and parent scale of joint `i`, before
the handedness correction. -/
def newPose.place (A : Arith α) (i : Nat) (t : CapturyTransform α) (joint : CapturyJoint α)
    (poseRot bindPose : FQuat α) (globalOrientations : List (FQuat α)) (globalScale : List α) :
    Except Stop (FQuat α × FVector α × α) :=
  if i = 0 then
    let trans0 : FVector α := ⟨t.translation.X * scaleToUnreal,
      t.translation.Y * scaleToUnreal, t.translation.Z * scaleToUnreal⟩
    let rot := ((layFlat A).mul poseRot).mul bindPose
    .ok (rot, (layFlat A).rotateVector trans0, 1)
  else
    match TArray.at globalScale joint.parent with
    | .error e => .error e
    | .ok parentScale =>
      let trans0 : FVector α := ⟨joint.offset.X * scaleToUnreal / parentScale,
        joint.offset.Y * scaleToUnreal / parentScale,
        joint.offset.Z * scaleToUnreal / parentScale⟩
      match TArray.at globalOrientations joint.parent with
      | .error e => .error e
      | .ok parentBind =>
        let relBindPose := parentBind.Inverse.mul bindPose
        match TArray.at globalOrientations i with
        | .error e => .error e
        | .ok own =>
          let rot := ((relBindPose.mul own.Inverse).mul poseRot).mul own
          .ok (rot, parentBind.Inverse.rotateVector trans0, parentScale)

/-- The transform `newPose` computes in pass `i` of its joint loop (lines 164-235), with the
arrays as they stand after the pass. -/
def newPose.joint (A : Arith α) (actor : CapturyActor α) (once : Nat) (i : Nat)
    (t : CapturyTransform α) (st : PoseLoop α) : Except Stop (FTransform α × PoseLoop α) :=
  let poseRot0 := eulerToQuat A t.rotation
  let globalPoseRotations := st.globalPoseRotations ++ [poseRot0]
  match TArray.at actor.joints i with
  | .error e => .error e
  | .ok joint =>
    match newPose.localRotation globalPoseRotations joint.parent poseRot0 with
    | .error e => .error e
    | .ok poseRot =>
      let bindPose := bindPoseOf A joint.orientation
      let globalOrientations := st.globalOrientations ++ [bindPose]
      match newPose.logBindPose once i globalOrientations joint.parent with
      | .error e => .error e
      | .ok _ =>
        match newPose.place A i t joint poseRot bindPose globalOrientations st.globalScale with
        | .error e => .error e
        | .ok placed =>
          let scale := joint.scale.X
          let globalScale := st.globalScale ++ [placed.2.2 * scale]
          let trafo : FTransform α :=
            ⟨flipRotation placed.1, flipTranslation placed.2.1, FVector.splat scale⟩
          .ok (trafo, { st with globalOrientations := globalOrientations,
                                globalPoseRotations := globalPoseRotations,
                                globalScale := globalScale })

/-- One pass of the joint loop: the computed transform goes to the bone array of a skeleton
and into the single transform of a one-joint actor (lines 236-239). -/
def newPose.step (A : Arith α) (actor : CapturyActor α) (once : Nat) (i : Nat)
    (t : CapturyTransform α) (st : PoseLoop α) : Except Stop (PoseLoop α) :=
  match newPose.joint A actor once i t st with
  | .error e => .error e
  | .ok (trafo, st) =>
    if actor.numJoints > 1 then .ok { st with animTransforms := st.animTransforms ++ [trafo] }
    else .ok { st with trafoTransform := trafo }

/-- The loop `for (int i = 0; i < pose->numTransforms; ++i)`, from pass `i` on. -/
def newPose.loop (A : Arith α) (actor : CapturyActor α) (once : Nat) :
    List (CapturyTransform α) → Nat → PoseLoop α → Except Stop (PoseLoop α)
  | [], _, st => .ok st
  | t :: rest, i, st =>
    match newPose.step A actor once i t st with
    | .error e => .error e
    | .ok st => newPose.loop A actor once rest (i + 1) st

/-- The synthetic root `FTransform(FQuat(0, 0, 0, 1), FVector::ZeroVector, FVector::OneVector)`. -/
def rootTransform : FTransform α := ⟨⟨0, 0, 0, 1⟩, FVector.ZeroVector, FVector.OneVector⟩

/-- The outputs and arrays when the joint loop starts (lines 151-159). -/
def newPose.start (actor : CapturyActor α) : PoseLoop α :=
  { globalOrientations := [], globalPoseRotations := [], globalScale := [],
    animTransforms := if actor.numJoints > 1 ∧ actor.rootIsHips = true then [rootTransform] else [],
    trafoTransform := FTransform.Identity }

/-- The joint loop of `newPose` run on a whole pose. -/
def newPose.run (A : Arith α) (actor : CapturyActor α) (once : Nat) (pose : CapturyPose α) :
    Except Stop (PoseLoop α) :=
  newPose.loop A actor once pose.transforms 0 (newPose.start actor)

/-- The property values `newPose` writes into the animation frame (lines 243-248). -/
def newPose.propVals (pose : CapturyPose α) : List α :=
  if pose.numBlendShapes ≠ 0 then pose.blendShapeActivations else []

/-- The method `CapturyLiveLinkSource::newPose`.  The result is `none` when the method
indexes an array out of range. -/
def newPose (A : Arith α) (s : Source α) (actor : CapturyActor α) (pose : CapturyPose α) :
    Option (Source α) :=
  let s := s.lock
  if s.liveLinkClient = false then some s.unlock
  else
    match TMap.Find s.haveActors actor.id with
    | none => some ({ s with queuedActorIds := s.queuedActorIds.Enqueue actor.id }).unlock
    | some subjectKey =>
      let s := s.unlock
      match newPose.run A actor s.once pose with
      | .error .invalidParent => some s
      | .error .outOfRange => none
      | .ok st =>
        let s := { s with once := s.once + 1 }
        if actor.numJoints > 1 then
          some (s.call (.PushSubjectFrameData subjectKey
            (.animation ⟨st.animTransforms, newPose.propVals pose⟩)))
        else
          some (s.call (.PushSubjectFrameData subjectKey (.transform ⟨st.trafoTransform, []⟩)))

/-- One pass of the loop of `arTagDetected`. -/
def arTagDetected.step (A : Arith α) (s : Source α) (tag : CapturyARTag α) : Source α :=
  let s := s.lock
  match TMap.Find s.haveActors tag.id with
  | none =>
    let s := s.unlock
    { s with queuedARTags := s.queuedARTags.Enqueue tag.id }
  | some subjectKey =>
    let s := s.unlock
    let poseRot := eulerToQuat A tag.transform.rotation
    let trans0 : FVector α := ⟨tag.transform.translation.X * scaleToUnreal,
      tag.transform.translation.Y * scaleToUnreal, tag.transform.translation.Z * scaleToUnreal⟩
    let rot := (layFlat A).mul poseRot
    let trans := (layFlat A).rotateVector trans0
    let trafo : FTransform α := ⟨flipRotation rot, flipTranslation trans, FVector.OneVector⟩
    s.call (.PushSubjectFrameData subjectKey (.transform ⟨trafo, []⟩))

/-- The method `CapturyLiveLinkSource::arTagDetected`. -/
def arTagDetected (A : Arith α) (s : Source α) (tags : List (CapturyARTag α)) : Source α :=
  if s.liveLinkClient = false then s else tags.foldl (arTagDetected.step A) s

end Pose

/-! ## Notions used to state the lifecycle properties -/

/-- A lifecycle intent for one actor identifier. -/
inductive Intent where
  | add
  | remove
deriving DecidableEq, Repr

section Intents

variable {α : Type}

/-- Buffering one intent for `id`: an add goes to `queuedActorIds`, a remove to
`queuedActorIdsToRemove`. -/
def enqueueIntent (id : Int) (s : Source α) : Intent → Source α
  | .add => { s with queuedActorIds := s.queuedActorIds.Enqueue id }
  | .remove => { s with queuedActorIdsToRemove := s.queuedActorIdsToRemove.Enqueue id }

/-- Buffering a sequence of intents for `id` in their arrival order. -/
def enqueueIntents (id : Int) (s : Source α) (intents : List Intent) : Source α :=
  intents.foldl (enqueueIntent id) s

/-- Applying one intent to the fact "the identifier is registered": an add inserts it if
absent, a remove deletes it if present. -/
def applyIntent : Bool → Intent → Bool
  | _, .add => true
  | _, .remove => false

/-- Applying intents one at a time, in the order given. -/
def applyIntents (present : Bool) (intents : List Intent) : Bool :=
  intents.foldl applyIntent present

/-- The order in which `Update` serves buffered intents: every remove, then every add. -/
def removesFirst (intents : List Intent) : List Intent :=
  intents.filter (fun i => decide (i = .remove)) ++ intents.filter (fun i => decide (i = .add))

/-- Two states agree on the registry, the three lifecycle queues and the engine log. -/
def Source.sameLifecycle (s t : Source α) : Prop :=
  t.haveActors = s.haveActors ∧ t.queuedActorIds = s.queuedActorIds ∧
  t.queuedActorIdsToRemove = s.queuedActorIdsToRemove ∧ t.queuedARTags = s.queuedARTags ∧
  t.engine = s.engine

/-- The state `t` is `s` with `actor` made Active by one poll: the registry gained exactly
the handle of `actor`, the engine received exactly one registration, for that handle, and
the three queues are drained. -/
def Source.activated (s t : Source α) (actor : CapturyActor α) : Prop :=
  t.haveActors = s.haveActors ++ [(actor.id, ⟨s.sourceGuid, s.namePrefix ++ actor.name⟩)] ∧
  (∃ role data, t.engine = s.engine ++ [⟨s.mutxDepth + 1,
    .PushSubjectStaticData ⟨s.sourceGuid, s.namePrefix ++ actor.name⟩ role data⟩]) ∧
  t.queuedActorIds.items = [] ∧ t.queuedActorIdsToRemove.items = [] ∧
  t.queuedARTags.items = []

/-- The state `r` has the actor `id` of state `s` Active after a poll: the registry holds
the handle of `actor` under `id`, exactly once, no intent for `id` is pending any more, and
the remove and AR-tag queues are drained. -/
def Source.resolvedActive (s r : Source α) (id : Int) (actor : CapturyActor α) : Prop :=
  TMap.Find r.haveActors id = some ⟨s.sourceGuid, s.namePrefix ++ actor.name⟩ ∧
  TMap.count r.haveActors id = 1 ∧
  id ∉ r.queuedActorIds.items ∧ r.queuedActorIdsToRemove.items = [] ∧
  r.queuedARTags.items = []

end Intents

section ZeroPose

variable {α : Type} [LinearOrderedField α]

/-- The bind pose `newPose` unpacks for joint `k` of an actor (the identity past the last
joint). -/
def CapturyActor.bindPose (A : Arith α) (actor : CapturyActor α) (k : Nat) : FQuat α :=
  match actor.joints[k]? with
  | some joint => bindPoseOf A joint.orientation
  | none => FQuat.Identity

/-- The rotation of joint `k` in a pose whose raw rotations are all zero, as the formulas of
`newPose` give it: the root's bind pose laid flat, and for any other joint the bind pose
relative to the parent, multiplied by the inverse of the joint's bind pose and by the bind
pose again; both with the handedness correction. -/
def zeroPoseRotation (A : Arith α) (actor : CapturyActor α) (k : Nat) : FQuat α :=
  match actor.joints[k]? with
  | none => FQuat.Identity
  | some joint =>
    if k = 0 then flipRotation ((layFlat A).mul (bindPoseOf A joint.orientation))
    else
      flipRotation
        ((((actor.bindPose A joint.parent.toNat).Inverse.mul
          (bindPoseOf A joint.orientation)).mul
            (bindPoseOf A joint.orientation).Inverse).mul (bindPoseOf A joint.orientation))

/-- The squared norm of a quaternion. -/
def FQuat.normSq (q : FQuat α) : α := q.X * q.X + q.Y * q.Y + q.Z * q.Z + q.W * q.W

/-- Joint 0 is the only root and every other joint names an earlier joint as its parent. -/
def CapturyActor.wellFormed (actor : CapturyActor α) : Prop :=
  ∀ (i : Nat) (joint : CapturyJoint α), actor.joints[i]? = some joint →
    joint.parent < i ∧ (0 < i → 0 ≤ joint.parent)

/-- The arrays of `newPose` after `i` passes over a pose whose raw rotations are all zero. -/
structure ZeroPoseArrays (A : Arith α) (actor : CapturyActor α) (i : Nat) (st : PoseLoop α) :
    Prop where
  poseRotations : st.globalPoseRotations = List.replicate i FQuat.Identity
  orientations : st.globalOrientations
    = (actor.joints.take i).map (fun j => bindPoseOf A j.orientation)
  scales : st.globalScale.length = i

end ZeroPose

/-! ## Sample inputs -/

/-- A capture arithmetic on the rationals, used only to evaluate the model on sample inputs
whose outcome does not depend on it. -/
def sampleArith : Arith ℚ := ⟨fun x => x, fun x => x, fun x => 1 - x⟩

/-- A joint with zero offset and unit scale. -/
def sampleJoint (name : String) (parent : Int) (orientation : FVector ℚ) : CapturyJoint ℚ :=
  ⟨name, parent, ⟨0, 0, 0⟩, orientation, ⟨1, 1, 1⟩⟩

/-- The two-joint skeleton `[Hips(parent=-1), Spine(parent=0)]`, actor id 7. -/
def sampleActor : CapturyActor ℚ :=
  ⟨"actor", 7, [sampleJoint "Hips" (-1) ⟨0, 0, 0⟩, sampleJoint "Spine" 0 ⟨0, 0, 0⟩], [], []⟩

/-- A session that resolves actor 7 only. -/
def sampleSession : RemoteCaptury ℚ :=
  ⟨fun id => if id = 7 then some sampleActor else none, [sampleActor]⟩

/-- A freshly constructed first session that has received its client; nothing registered. -/
def sampleSource : Source ℚ :=
  ((Source.construct 15 Globals.initial "captury").2 : Source ℚ).setClient 1

/-- The sample source with actor 7 registered (Active). -/
def sampleActive : Source ℚ := addSubject sampleSource sampleActor

/-- The skeleton `[Hips(parent=-1), Spine(parent=1)]`: the second joint is its own parent. -/
def selfParentActor : CapturyActor ℚ :=
  ⟨"actor", 7, [sampleJoint "Hips" (-1) ⟨0, 0, 0⟩, sampleJoint "Spine" 1 ⟨0, 0, 0⟩], [], []⟩

/-- The skeleton `[Hips(parent=0), Spine(parent=0)]`: the first joint is its own parent. -/
def rootSelfParentActor : CapturyActor ℚ :=
  ⟨"actor", 7, [sampleJoint "Hips" 0 ⟨0, 0, 0⟩, sampleJoint "Spine" 0 ⟨0, 0, 0⟩], [], []⟩

/-- A one-joint actor whose only joint names joint 5 as its parent. -/
def strayParentProp : CapturyActor ℚ :=
  ⟨"actor", 7, [sampleJoint "Hips" 5 ⟨0, 0, 0⟩], [], []⟩

/-- A one-joint actor with a root joint. -/
def sampleProp : CapturyActor ℚ :=
  ⟨"actor", 7, [sampleJoint "Hips" (-1) ⟨0, 0, 0⟩], [], []⟩

/-- The skeleton `[Hips(parent=-1), Spine(parent=0)]` over the reals, with zero packed
bind-pose orientations, zero offsets and unit scales. -/
def scenarioActor : CapturyActor ℝ :=
  ⟨"actor", 7, [⟨"Hips", -1, ⟨0, 0, 0⟩, ⟨0, 0, 0⟩, ⟨1, 1, 1⟩⟩,
    ⟨"Spine", 0, ⟨0, 0, 0⟩, ⟨0, 0, 0⟩, ⟨1, 1, 1⟩⟩], [], []⟩

/-- A pose of two transforms over the reals, all raw rotations and translations zero. -/
def scenarioPose : CapturyPose ℝ :=
  ⟨0, [⟨⟨0, 0, 0⟩, ⟨0, 0, 0⟩⟩, ⟨⟨0, 0, 0⟩, ⟨0, 0, 0⟩⟩], []⟩

/-- A source over the reals with the client present and actor 7 registered. -/
def scenarioSource : Source ℝ :=
  { ipAddress := "captury", enabled := true, connected := true, liveLinkClient := true,
    sourceGuid := 1, haveActors := [(7, ⟨1, "actor"⟩)], queuedActorIds := ⟨15, []⟩,
    queuedActorIdsToRemove := ⟨15, []⟩, queuedARTags := ⟨15, []⟩, namePrefix := "",
    sourceIndex := 1, mutxDepth := 0, once := 0, engine := [] }

/-- A pose of `n` transforms, all with zero rotation and zero translation. -/
def zeroPose (n : Nat) : CapturyPose ℚ :=
  ⟨0, List.replicate n ⟨⟨0, 0, 0⟩, ⟨0, 0, 0⟩⟩, []⟩

/-! ## Notions used to state the frame properties -/

/-- The bone names of skeleton static data (none for a transform subject). -/
def FLiveLinkStaticData.boneNames : FLiveLinkStaticData → List String
  | .skeleton boneNames _ _ => boneNames
  | .transform _ => []

/-- The bone parents of skeleton static data (none for a transform subject). -/
def FLiveLinkStaticData.boneParents : FLiveLinkStaticData → List Int
  | .skeleton _ boneParents _ => boneParents
  | .transform _ => []

/-- The property names (blend-shape channels) of skeleton static data (none for a transform
subject). -/
def FLiveLinkStaticData.propertyNames : FLiveLinkStaticData → List String
  | .skeleton _ _ propertyNames => propertyNames
  | .transform _ => []

/-- A pose of two zero transforms that carries one blend-shape activation. -/
def blendPose : CapturyPose ℚ :=
  ⟨0, List.replicate 2 ⟨⟨0, 0, 0⟩, ⟨0, 0, 0⟩⟩, [1]⟩

section RootTranslation

variable {α : Type} [LinearOrderedField α]

/-- The sum of two vectors. -/
def FVector.add (a b : FVector α) : FVector α := ⟨a.X + b.X, a.Y + b.Y, a.Z + b.Z⟩

/-- A vector scaled by a number. -/
def FVector.smul (c : α) (a : FVector α) : FVector α := ⟨c * a.X, c * a.Y, c * a.Z⟩

/-- The translation `newPose` outputs for the root joint from the raw translation `t`
(lines 207-213 and 233): scaled to engine units, laid flat, Y negated. -/
def rootTranslation (A : Arith α) (t : FVector α) : FVector α :=
  flipTranslation ((layFlat A).rotateVector
    ⟨t.X * scaleToUnreal, t.Y * scaleToUnreal, t.Z * scaleToUnreal⟩)

end RootTranslation

section DrainLoop

variable {α : Type}

end DrainLoop

section CumulativeScale

variable {α : Type} [LinearOrderedField α]

/-- The own scale `joints[k].scale[0]` of joint `k` (1 past the last joint). -/
def CapturyActor.ownScale (actor : CapturyActor α) (k : Nat) : α :=
  match actor.joints[k]? with
  | some joint => joint.scale.X
  | none => 1

/-- The joints on the path from joint `i` up to the root, following the parent indices, at
most `fuel` of them. -/
def CapturyActor.pathToRoot (actor : CapturyActor α) : Nat → Nat → List Nat
  | 0, _ => []
  | fuel + 1, i =>
    match actor.joints[i]? with
    | none => []
    | some joint => if i = 0 then [0] else i :: actor.pathToRoot fuel joint.parent.toNat

/-- The product of the own scales of the joints on the path from the root to joint `i`. -/
def CapturyActor.cumulativeScale (actor : CapturyActor α) (i : Nat) : α :=
  ((actor.pathToRoot (i + 1) i).map actor.ownScale).prod

/-- The arrays of `newPose` after `i` passes over a well-formed skeleton, for any pose. -/
structure SkeletonArrays (A : Arith α) (actor : CapturyActor α) (i : Nat) (st : PoseLoop α) :
    Prop where
  poseRotations : st.globalPoseRotations.length = i
  orientations : st.globalOrientations
    = (actor.joints.take i).map (fun j => bindPoseOf A j.orientation)
  scales : st.globalScale = (List.range i).map actor.cumulativeScale

end CumulativeScale

/-- The skeleton `[Hips(-1), Spine(0), Head(1)]` with own scales 2, 3 and 5 and offsets
`(0,0,0)`, `(0,10,0)`, `(0,20,0)`. -/
def scaledActor : CapturyActor ℚ :=
  ⟨"actor", 7, [⟨"Hips", -1, ⟨0, 0, 0⟩, ⟨0, 0, 0⟩, ⟨2, 2, 2⟩⟩,
    ⟨"Spine", 0, ⟨0, 10, 0⟩, ⟨0, 0, 0⟩, ⟨3, 3, 3⟩⟩,
    ⟨"Head", 1, ⟨0, 20, 0⟩, ⟨0, 0, 0⟩, ⟨5, 5, 5⟩⟩], [], []⟩

section Bookkeeping

variable {α : Type} [LinearOrderedField α]

/-- The method `setIPAddress`: `ipAddress = ip;` followed by the reconnect of the capture
session to the new host. -/
def Source.setIPAddress (s : Source α) (ip : String) : Source α := { s with ipAddress := ip }

/-- The destructor `~CapturyLiveLinkSource()`:
`--sourceCount; ipAddressCounts[ipAddress.ToString()].Remove(sourceIndex);`.  The result is
`none` when `operator[]` is applied to a host the map has no entry for. -/
def Source.destruct (g : Globals) (s : Source α) : Option Globals :=
  match TMap.Find g.ipAddressCounts s.ipAddress with
  | none => none
  | some indexes =>
    some ⟨g.sourceCount - 1,
      TMap.Add g.ipAddressCounts s.ipAddress (TSet.Remove indexes s.sourceIndex)⟩

/-- Whether `ipAddressCounts` holds the index in the set it records for the host. -/
def Globals.records (g : Globals) (ip : String) (sourceIndex : Int) : Bool :=
  match TMap.Find g.ipAddressCounts ip with
  | some indexes => decide (sourceIndex ∈ indexes)
  | none => false

/-- The bookkeeping invariant over the statics and the live sessions: the index of every
live session is in the set recorded for the session's current host, and two live sessions
on the same host have different indexes. -/
def bookkeepingInvariant (g : Globals) (live : List (Source α)) : Prop :=
  (∀ s ∈ live, g.records s.ipAddress s.sourceIndex = true) ∧
  live.Pairwise (fun a b => a.ipAddress = b.ipAddress → a.sourceIndex ≠ b.sourceIndex)

instance bookkeepingInvariant.decidable (g : Globals) (live : List (Source α)) :
    Decidable (bookkeepingInvariant g live) := by
  unfold bookkeepingInvariant
  infer_instance

end Bookkeeping

/-- The first session of a process, on host `10.0.0.1`, with the statics after its
construction. -/
def firstSession : Globals × Source ℚ := Source.construct 15 Globals.initial "10.0.0.1"

/-- The second session, on host `10.0.0.2`, with the statics after its construction. -/
def secondSession : Globals × Source ℚ := Source.construct 15 firstSession.1 "10.0.0.2"

/-- The sample source with actor 7 registered and, buffered before the poll, a remove for
actor 7, an add for actor 7 and AR tag 3. -/
def pollingSource : Source ℚ :=
  { enqueueIntents 7 sampleActive [.remove, .add] with
    queuedARTags := sampleActive.queuedARTags.Enqueue 3 }

/-- A second two-joint skeleton, actor id 8. -/
def otherActor : CapturyActor ℚ :=
  ⟨"other", 8, [sampleJoint "Hips" (-1) ⟨0, 0, 0⟩, sampleJoint "Spine" 0 ⟨0, 0, 0⟩], [], []⟩

/-- A session that resolves actors 7 and 8. -/
def twoActorSession : RemoteCaptury ℚ :=
  ⟨fun id => if id = 7 then some sampleActor else if id = 8 then some otherActor else none,
    [sampleActor, otherActor]⟩

/-- The sample source with its add queue full: fifteen buffered adds for actor 8. -/
def fullQueueSource : Source ℚ :=
  { sampleSource with queuedActorIds := ⟨15, List.replicate 15 8⟩ }

/-! ## Facts about the containers -/

section Containers

variable {K V : Type} [DecidableEq K]

theorem TMap.Find_Remove_self (m : List (K × V)) (k : K) : TMap.Find (TMap.Remove m k) k = none := by
  induction m with
  | nil => rfl
  | cons e rest ih =>
    obtain ⟨k', v⟩ := e
    by_cases h : k' = k
    · simpa [TMap.Remove, List.filter_cons, h] using ih
    · have : TMap.Remove ((k', v) :: rest) k = (k', v) :: TMap.Remove rest k := by
        simp [TMap.Remove, List.filter_cons, h]
      rw [this]
      simp [TMap.Find, h, ih]

theorem TMap.Find_Remove_ne (m : List (K × V)) {k j : K} (h : j ≠ k) :
    TMap.Find (TMap.Remove m k) j = TMap.Find m j := by
  induction m with
  | nil => rfl
  | cons e rest ih =>
    obtain ⟨k', v⟩ := e
    by_cases hk : k' = k
    · subst hk
      have hne : ¬ k' = j := fun e => h e.symm
      have : TMap.Remove ((k', v) :: rest) k' = TMap.Remove rest k' := by
        simp [TMap.Remove, List.filter_cons]
      rw [this, ih]
      simp [TMap.Find, hne]
    · have : TMap.Remove ((k', v) :: rest) k = (k', v) :: TMap.Remove rest k := by
        simp [TMap.Remove, List.filter_cons, hk]
      rw [this]
      simp [TMap.Find, ih]

theorem TMap.Remove_of_Find_none (m : List (K × V)) (k : K) (h : TMap.Find m k = none) :
    TMap.Remove m k = m := by
  induction m with
  | nil => rfl
  | cons e rest ih =>
    obtain ⟨k', v⟩ := e
    by_cases hk : k' = k
    · simp [TMap.Find, hk] at h
    · simp only [TMap.Find, hk, if_false] at h
      have hrest := ih h
      have hcons : TMap.Remove ((k', v) :: rest) k = (k', v) :: TMap.Remove rest k := by
        simp [TMap.Remove, List.filter_cons, hk]
      rw [hcons, hrest]

theorem TMap.Find_append_single (m : List (K × V)) (k j : K) (v : V) :
    TMap.Find (m ++ [(k, v)]) j =
      (match TMap.Find m j with
       | some x => some x
       | none => if k = j then some v else none) := by
  induction m with
  | nil => simp [TMap.Find]
  | cons e rest ih =>
    obtain ⟨k', v'⟩ := e
    by_cases hk : k' = j
    · simp [TMap.Find, hk]
    · simp [TMap.Find, hk, ih]

theorem TMap.Contains_Remove (m : List (K × V)) (k j : K) :
    TMap.Contains (TMap.Remove m k) j = (decide (j ≠ k) && TMap.Contains m j) := by
  by_cases h : j = k
  · subst h
    simp [TMap.Contains, TMap.Find_Remove_self]
  · simp [TMap.Contains, TMap.Find_Remove_ne m h, h]

theorem TMap.Contains_append_single (m : List (K × V)) (k j : K) (v : V) :
    TMap.Contains (m ++ [(k, v)]) j = (TMap.Contains m j || decide (k = j)) := by
  simp only [TMap.Contains, TMap.Find_append_single]
  cases TMap.Find m j with
  | some x => simp
  | none => by_cases h : k = j <;> simp [h]

theorem TMap.Contains_Add (m : List (K × V)) (k j : K) (v : V) :
    TMap.Contains (TMap.Add m k v) j = (TMap.Contains m j || decide (k = j)) := by
  simp only [TMap.Add, TMap.Contains_append_single, TMap.Contains_Remove]
  by_cases h : k = j
  · simp [h]
  · have : j ≠ k := fun e => h e.symm
    simp [h, this]

theorem TMap.Contains_FindOrAdd (m : List (K × V)) (k j : K) (v : V) :
    TMap.Contains (TMap.FindOrAdd m k v) j = (TMap.Contains m j || decide (k = j)) := by
  unfold TMap.FindOrAdd
  by_cases hc : TMap.Contains m k = true
  · simp only [hc, if_true]
    by_cases h : k = j
    · subst h; simp [hc]
    · simp [h]
  · simp only [hc]
    simp [TMap.Contains_append_single]

end Containers

/-! ## The poll step, loop by loop -/

section UpdateFacts

variable {α : Type}

theorem Source.unlock_lock (s : Source α) : s.lock.unlock = s := by
  cases s
  simp [Source.lock, Source.unlock]

theorem Update.removeStep_absent (s : Source α) (x : Int) (h : TMap.Find s.haveActors x = none) :
    Update.removeStep s x = s := by
  unfold Update.removeStep
  have : TMap.Find s.lock.haveActors x = none := h
  simp only [this]
  exact Source.unlock_lock s

theorem Update.removeStep_present (s : Source α) (x : Int) (k : FLiveLinkSubjectKey)
    (h : TMap.Find s.haveActors x = some k) :
    Update.removeStep s x =
      { s with haveActors := TMap.Remove s.haveActors x,
               engine := s.engine ++ [⟨s.mutxDepth + 1, .RemoveSubject k⟩] } := by
  unfold Update.removeStep
  have : TMap.Find s.lock.haveActors x = some k := h
  simp only [this]
  cases s
  simp [Source.lock, Source.unlock, Source.call]

theorem Update.removeStep_fixed (s : Source α) (x : Int) :
    (Update.removeStep s x).fixedPart = s.fixedPart ∧
    (Update.removeStep s x).queuedActorIds = s.queuedActorIds := by
  cases h : TMap.Find s.haveActors x with
  | none => rw [Update.removeStep_absent s x h]; exact ⟨rfl, rfl⟩
  | some k => rw [Update.removeStep_present s x k h]; exact ⟨rfl, rfl⟩

theorem Update.removeStep_haveActors (s : Source α) (x : Int) :
    (Update.removeStep s x).haveActors = TMap.Remove s.haveActors x := by
  cases h : TMap.Find s.haveActors x with
  | none => rw [Update.removeStep_absent s x h, TMap.Remove_of_Find_none _ _ h]
  | some k => rw [Update.removeStep_present s x k h]

theorem Update.removeStep_engine (s : Source α) (x : Int) :
    ∃ L, (Update.removeStep s x).engine = s.engine ++ L ∧
      ∀ e ∈ L, e.heldDepth = s.mutxDepth + 1 ∧ ∃ k, e.call = .RemoveSubject k := by
  cases h : TMap.Find s.haveActors x with
  | none => rw [Update.removeStep_absent s x h]; exact ⟨[], by simp⟩
  | some k =>
    rw [Update.removeStep_present s x k h]
    refine ⟨[⟨s.mutxDepth + 1, .RemoveSubject k⟩], rfl, ?_⟩
    intro e he
    simp only [List.mem_singleton] at he
    subst he
    exact ⟨rfl, k, rfl⟩

theorem Update.removeLoop_fixed (xs : List Int) (s : Source α) :
    (xs.foldl Update.removeStep s).fixedPart = s.fixedPart ∧
    (xs.foldl Update.removeStep s).queuedActorIds = s.queuedActorIds := by
  induction xs generalizing s with
  | nil => exact ⟨rfl, rfl⟩
  | cons x rest ih =>
    have h1 := Update.removeStep_fixed s x
    have h2 := ih (Update.removeStep s x)
    simp only [List.foldl_cons]
    exact ⟨h2.1.trans h1.1, h2.2.trans h1.2⟩

theorem Update.removeLoop_Contains (xs : List Int) (s : Source α) (j : Int) :
    TMap.Contains (xs.foldl Update.removeStep s).haveActors j = true ↔
      j ∉ xs ∧ TMap.Contains s.haveActors j = true := by
  induction xs generalizing s with
  | nil => simp
  | cons x rest ih =>
    simp only [List.foldl_cons, ih, Update.removeStep_haveActors, TMap.Contains_Remove,
      List.mem_cons, not_or]
    simp only [Bool.and_eq_true, decide_eq_true_eq]
    tauto

theorem Update.removeLoop_engine (xs : List Int) (s : Source α) :
    ∃ L, (xs.foldl Update.removeStep s).engine = s.engine ++ L ∧
      ∀ e ∈ L, e.heldDepth = s.mutxDepth + 1 ∧ ∃ k, e.call = .RemoveSubject k := by
  induction xs generalizing s with
  | nil => exact ⟨[], by simp⟩
  | cons x rest ih =>
    obtain ⟨L1, h1, g1⟩ := Update.removeStep_engine s x
    obtain ⟨L2, h2, g2⟩ := ih (Update.removeStep s x)
    have hd : (Update.removeStep s x).mutxDepth = s.mutxDepth := by
      have := (Update.removeStep_fixed s x).1
      simp only [Source.fixedPart, Prod.mk.injEq] at this
      exact this.2.2.2.1
    refine ⟨L1 ++ L2, by simp [List.foldl_cons, h2, h1], ?_⟩
    intro e he
    rcases List.mem_append.mp he with h | h
    · exact g1 e h
    · rw [← hd]; exact g2 e h

/-- The registration call `addSubject` makes for an actor it does not know yet. -/
theorem addSubject_new (s : Source α) (actor : CapturyActor α)
    (hc : s.liveLinkClient = true) (h : TMap.Find s.haveActors actor.id = none) :
    addSubject s actor =
      { s with
        haveActors := s.haveActors ++ [(actor.id, ⟨s.sourceGuid, s.namePrefix ++ actor.name⟩)],
        engine := s.engine ++ [⟨s.mutxDepth,
          if actor.numJoints > 1 then
            .PushSubjectStaticData ⟨s.sourceGuid, s.namePrefix ++ actor.name⟩ .Animation
              (setupSkeletonDefinition actor)
          else
            .PushSubjectStaticData ⟨s.sourceGuid, s.namePrefix ++ actor.name⟩ .Transform
              setupPropStaticData⟩] } := by
  unfold addSubject
  by_cases hj : actor.numJoints > 1
  · simp [hj, hc, Source.call, TMap.FindOrAdd, TMap.Contains, h]
  · simp [hj, hc, Source.call, TMap.FindOrAdd, TMap.Contains, h]

theorem addSubject_known (s : Source α) (actor : CapturyActor α) (k : FLiveLinkSubjectKey)
    (h : TMap.Find s.haveActors actor.id = some k) : addSubject s actor = s := by
  unfold addSubject
  simp [h]

theorem addSubject_fixed (s : Source α) (actor : CapturyActor α) :
    (addSubject s actor).fixedPart = s.fixedPart ∧
    (addSubject s actor).queuedActorIds = s.queuedActorIds := by
  unfold addSubject
  split
  · exact ⟨rfl, rfl⟩
  · split
    · exact ⟨rfl, rfl⟩
    · split <;> exact ⟨rfl, rfl⟩

theorem addSubject_Contains (s : Source α) (actor : CapturyActor α) (j : Int)
    (hc : s.liveLinkClient = true) :
    TMap.Contains (addSubject s actor).haveActors j = true ↔
      TMap.Contains s.haveActors j = true ∨ actor.id = j := by
  cases h : TMap.Find s.haveActors actor.id with
  | some k =>
    rw [addSubject_known s actor k h]
    constructor
    · exact Or.inl
    · rintro (h1 | h1)
      · exact h1
      · subst h1; simp [TMap.Contains, h]
  | none =>
    rw [addSubject_new s actor hc h]
    simp [TMap.Contains_append_single]

theorem addSubject_engine (s : Source α) (actor : CapturyActor α) :
    ∃ L, (addSubject s actor).engine = s.engine ++ L ∧
      ∀ e ∈ L, e.heldDepth = s.mutxDepth ∧ ∃ k r d, e.call = .PushSubjectStaticData k r d := by
  unfold addSubject
  split
  · exact ⟨[], by simp⟩
  · split
    · exact ⟨[], by simp⟩
    · split
      · refine ⟨[⟨s.mutxDepth, _⟩], rfl, ?_⟩
        intro e he
        simp only [List.mem_singleton] at he
        subst he
        exact ⟨rfl, _, _, _, rfl⟩
      · refine ⟨[⟨s.mutxDepth, _⟩], rfl, ?_⟩
        intro e he
        simp only [List.mem_singleton] at he
        subst he
        exact ⟨rfl, _, _, _, rfl⟩

theorem Update.addStep_fixed (rc : RemoteCaptury α) (acc : Source α × List Int) (x : Int) :
    (Update.addStep rc acc x).1.fixedPart = acc.1.fixedPart ∧
    (Update.addStep rc acc x).1.queuedActorIds = acc.1.queuedActorIds := by
  unfold Update.addStep
  cases rc.getActor x with
  | none => exact ⟨rfl, rfl⟩
  | some a => exact addSubject_fixed acc.1 a

theorem Update.addLoop_fixed (rc : RemoteCaptury α) (xs : List Int) (acc : Source α × List Int) :
    (xs.foldl (Update.addStep rc) acc).1.fixedPart = acc.1.fixedPart ∧
    (xs.foldl (Update.addStep rc) acc).1.queuedActorIds = acc.1.queuedActorIds := by
  induction xs generalizing acc with
  | nil => exact ⟨rfl, rfl⟩
  | cons x rest ih =>
    have h1 := Update.addStep_fixed rc acc x
    have h2 := ih (Update.addStep rc acc x)
    simp only [List.foldl_cons]
    exact ⟨h2.1.trans h1.1, h2.2.trans h1.2⟩

theorem Source.client_of_fixed {s t : Source α} (h : t.fixedPart = s.fixedPart) :
    t.liveLinkClient = s.liveLinkClient ∧ t.mutxDepth = s.mutxDepth ∧
      t.queuedARTags = s.queuedARTags ∧ t.sourceGuid = s.sourceGuid ∧
      t.namePrefix = s.namePrefix := by
  simp only [Source.fixedPart, Prod.mk.injEq] at h
  exact ⟨h.1, h.2.2.2.1, h.2.2.2.2, h.2.1, h.2.2.1⟩

theorem Update.addLoop_Contains (rc : RemoteCaptury α)
    (hrc : ∀ x a, rc.getActor x = some a → a.id = x) (xs : List Int)
    (acc : Source α × List Int) (hc : acc.1.liveLinkClient = true) (j : Int) :
    TMap.Contains (xs.foldl (Update.addStep rc) acc).1.haveActors j = true ↔
      TMap.Contains acc.1.haveActors j = true ∨ (j ∈ xs ∧ (rc.getActor j).isSome = true) := by
  induction xs generalizing acc with
  | nil => simp
  | cons x rest ih =>
    have hc2 : (Update.addStep rc acc x).1.liveLinkClient = true := by
      rw [(Source.client_of_fixed (Update.addStep_fixed rc acc x).1).1]; exact hc
    simp only [List.foldl_cons, ih _ hc2, List.mem_cons]
    have hstep : TMap.Contains (Update.addStep rc acc x).1.haveActors j = true ↔
        TMap.Contains acc.1.haveActors j = true ∨ (j = x ∧ (rc.getActor j).isSome = true) := by
      unfold Update.addStep
      cases hg : rc.getActor x with
      | none =>
        constructor
        · exact Or.inl
        · rintro (h | ⟨rfl, h2⟩)
          · exact h
          · simp [hg] at h2
      | some a =>
        have hid := hrc x a hg
        simp only [addSubject_Contains acc.1 a j hc, hid]
        constructor
        · rintro (h | h)
          · exact Or.inl h
          · subst h; exact Or.inr ⟨rfl, by simp [hg]⟩
        · rintro (h | ⟨h, _⟩)
          · exact Or.inl h
          · exact Or.inr h.symm
    rw [hstep]
    tauto

theorem Update.addLoop_engine (rc : RemoteCaptury α) (xs : List Int)
    (acc : Source α × List Int) :
    ∃ L, (xs.foldl (Update.addStep rc) acc).1.engine = acc.1.engine ++ L ∧
      ∀ e ∈ L, e.heldDepth = acc.1.mutxDepth ∧
        ∃ k r d, e.call = .PushSubjectStaticData k r d := by
  induction xs generalizing acc with
  | nil => exact ⟨[], by simp⟩
  | cons x rest ih =>
    have hstep : ∃ L, (Update.addStep rc acc x).1.engine = acc.1.engine ++ L ∧
        ∀ e ∈ L, e.heldDepth = acc.1.mutxDepth ∧
          ∃ k r d, e.call = .PushSubjectStaticData k r d := by
      unfold Update.addStep
      cases rc.getActor x with
      | none => exact ⟨[], by simp⟩
      | some a => exact addSubject_engine acc.1 a
    obtain ⟨L1, h1, g1⟩ := hstep
    obtain ⟨L2, h2, g2⟩ := ih (Update.addStep rc acc x)
    have hd := (Source.client_of_fixed (Update.addStep_fixed rc acc x).1).2.1
    refine ⟨L1 ++ L2, by simp [List.foldl_cons, h2, h1], ?_⟩
    intro e he
    rcases List.mem_append.mp he with h | h
    · exact g1 e h
    · rw [← hd]; exact g2 e h

theorem Update.requeueLoop_fixed (xs : List Int) (s : Source α) :
    (xs.foldl Update.requeueStep s).fixedPart = s.fixedPart ∧
    (xs.foldl Update.requeueStep s).haveActors = s.haveActors ∧
    (xs.foldl Update.requeueStep s).engine = s.engine := by
  induction xs generalizing s with
  | nil => exact ⟨rfl, rfl, rfl⟩
  | cons x rest ih =>
    have h2 := ih (Update.requeueStep s x)
    simp only [List.foldl_cons]
    exact ⟨h2.1, h2.2.1, h2.2.2⟩

theorem Update.arTagStep_eq (s : Source α) (id : Int) :
    Update.arTagStep s id =
      { s with
        haveActors := TMap.Add s.haveActors id
          ⟨s.sourceGuid, s.namePrefix ++ "ARTag " ++ toString id⟩,
        engine := s.engine ++ [⟨s.mutxDepth, .PushSubjectStaticData
          ⟨s.sourceGuid, s.namePrefix ++ "ARTag " ++ toString id⟩ .Transform
          setupPropStaticData⟩] } := by
  cases s
  simp [Update.arTagStep, Source.lock, Source.unlock, Source.call]

theorem Update.arTagLoop_fixed (xs : List Int) (s : Source α) :
    (xs.foldl Update.arTagStep s).fixedPart = s.fixedPart := by
  induction xs generalizing s with
  | nil => rfl
  | cons x rest ih =>
    simp only [List.foldl_cons]
    rw [ih (Update.arTagStep s x), Update.arTagStep_eq]
    rfl

theorem Update.arTagLoop_Contains (xs : List Int) (s : Source α) (j : Int) :
    TMap.Contains (xs.foldl Update.arTagStep s).haveActors j = true ↔
      TMap.Contains s.haveActors j = true ∨ j ∈ xs := by
  induction xs generalizing s with
  | nil => simp
  | cons x rest ih =>
    simp only [List.foldl_cons, ih, Update.arTagStep_eq, TMap.Contains_Add, List.mem_cons]
    simp only [Bool.or_eq_true, decide_eq_true_eq]
    constructor
    · rintro ((h | h) | h)
      · exact Or.inl h
      · exact Or.inr (Or.inl h.symm)
      · exact Or.inr (Or.inr h)
    · rintro (h | h | h)
      · exact Or.inl (Or.inl h)
      · exact Or.inl (Or.inr h.symm)
      · exact Or.inr h

theorem Update.arTagLoop_engine (xs : List Int) (s : Source α) :
    ∃ L, (xs.foldl Update.arTagStep s).engine = s.engine ++ L ∧ L.length = xs.length ∧
      ∀ e ∈ L, e.heldDepth = s.mutxDepth ∧
        ∃ k, e.call = .PushSubjectStaticData k .Transform setupPropStaticData := by
  induction xs generalizing s with
  | nil => exact ⟨[], by simp⟩
  | cons x rest ih =>
    obtain ⟨L2, h2, hl, g2⟩ := ih (Update.arTagStep s x)
    have hE : (Update.arTagStep s x).engine = s.engine ++ [(⟨s.mutxDepth,
        .PushSubjectStaticData ⟨s.sourceGuid, s.namePrefix ++ "ARTag " ++ toString x⟩
          .Transform setupPropStaticData⟩ : EngineEvent α)] := by
      rw [Update.arTagStep_eq]
    have hD : (Update.arTagStep s x).mutxDepth = s.mutxDepth := by
      rw [Update.arTagStep_eq]
    refine ⟨(⟨s.mutxDepth, .PushSubjectStaticData
      ⟨s.sourceGuid, s.namePrefix ++ "ARTag " ++ toString x⟩ .Transform
      setupPropStaticData⟩ : EngineEvent α) :: L2, ?_, by simp [hl], ?_⟩
    · simp only [List.foldl_cons]
      rw [h2, hE]
      simp
    · intro e he
      rcases List.mem_cons.mp he with h | h
      · subst h; exact ⟨rfl, _, rfl⟩
      · rw [← hD]; exact g2 e h

end UpdateFacts

section UpdateWhole

variable {α : Type}

theorem Update.removePhase_fixed (s : Source α) :
    (Update.removePhase s).fixedPart = s.fixedPart ∧
    (Update.removePhase s).queuedActorIds = s.queuedActorIds :=
  Update.removeLoop_fixed _ _

theorem Update.removePhase_Contains (s : Source α) (j : Int) :
    TMap.Contains (Update.removePhase s).haveActors j = true ↔
      j ∉ s.queuedActorIdsToRemove.items ∧ TMap.Contains s.haveActors j = true :=
  Update.removeLoop_Contains _ _ j

theorem Update.removePhase_engine (s : Source α) :
    ∃ L, (Update.removePhase s).engine = s.engine ++ L ∧
      ∀ e ∈ L, e.heldDepth = s.mutxDepth + 1 ∧ ∃ k, e.call = .RemoveSubject k :=
  Update.removeLoop_engine _ _

theorem Update.addPhase_fixed (rc : RemoteCaptury α) (s : Source α) :
    (Update.addPhase rc s).fixedPart = s.fixedPart := by
  unfold Update.addPhase
  rw [(Update.requeueLoop_fixed _ _).1]
  exact (Update.addLoop_fixed rc _ _).1

theorem Update.addPhase_Contains (rc : RemoteCaptury α)
    (hrc : ∀ x a, rc.getActor x = some a → a.id = x) (s : Source α)
    (hc : s.liveLinkClient = true) (j : Int) :
    TMap.Contains (Update.addPhase rc s).haveActors j = true ↔
      TMap.Contains s.haveActors j = true ∨
        (j ∈ s.queuedActorIds.items ∧ (rc.getActor j).isSome = true) := by
  unfold Update.addPhase
  rw [(Update.requeueLoop_fixed _ _).2.1]
  exact Update.addLoop_Contains rc hrc _ _ hc j

theorem Update.addPhase_engine (rc : RemoteCaptury α) (s : Source α) :
    ∃ L, (Update.addPhase rc s).engine = s.engine ++ L ∧
      ∀ e ∈ L, e.heldDepth = s.mutxDepth ∧ ∃ k r d, e.call = .PushSubjectStaticData k r d := by
  unfold Update.addPhase
  rw [(Update.requeueLoop_fixed _ _).2.2]
  exact Update.addLoop_engine rc _ _

theorem Update.arTagPhase_Contains (s : Source α) (j : Int) :
    TMap.Contains (Update.arTagPhase s).haveActors j = true ↔
      TMap.Contains s.haveActors j = true ∨ j ∈ s.queuedARTags.items :=
  Update.arTagLoop_Contains _ _ j

theorem Update.arTagPhase_engine (s : Source α) :
    ∃ L, (Update.arTagPhase s).engine = s.engine ++ L ∧
      L.length = s.queuedARTags.items.length ∧
      ∀ e ∈ L, e.heldDepth = s.mutxDepth ∧
        ∃ k, e.call = .PushSubjectStaticData k .Transform setupPropStaticData :=
  Update.arTagLoop_engine _ _

/-- The poll step with the client present. -/
theorem Update_present (rc : RemoteCaptury α) (s : Source α) (hc : s.liveLinkClient = true) :
    Update rc s =
      Update.arTagPhase (Update.addPhase rc (Update.removePhase s.lock)).unlock := by
  have hl : s.lock.liveLinkClient = true := hc
  unfold Update
  simp only [hl, Bool.true_eq_false, if_false]

/-- Which identifiers the registry holds after a poll. -/
theorem Update_Contains (rc : RemoteCaptury α)
    (hrc : ∀ x a, rc.getActor x = some a → a.id = x) (s : Source α)
    (hc : s.liveLinkClient = true) (j : Int) :
    TMap.Contains (Update rc s).haveActors j = true ↔
      (j ∉ s.queuedActorIdsToRemove.items ∧ TMap.Contains s.haveActors j = true) ∨
      (j ∈ s.queuedActorIds.items ∧ (rc.getActor j).isSome = true) ∨
      j ∈ s.queuedARTags.items := by
  rw [Update_present rc s hc, Update.arTagPhase_Contains]
  have h1 := Update.removePhase_fixed s.lock
  have hc1 : (Update.removePhase s.lock).liveLinkClient = true := by
    rw [(Source.client_of_fixed h1.1).1]; exact hc
  have h2 := Update.addPhase_fixed rc (Update.removePhase s.lock)
  have htags : (Update.addPhase rc (Update.removePhase s.lock)).unlock.queuedARTags
      = s.queuedARTags := by
    show (Update.addPhase rc (Update.removePhase s.lock)).queuedARTags = _
    rw [(Source.client_of_fixed h2).2.2.1, (Source.client_of_fixed h1.1).2.2.1]
    rfl
  have hreg : (Update.addPhase rc (Update.removePhase s.lock)).unlock.haveActors
      = (Update.addPhase rc (Update.removePhase s.lock)).haveActors := rfl
  rw [htags, hreg, Update.addPhase_Contains rc hrc _ hc1, Update.removePhase_Contains, h1.2]
  show _ ↔ (j ∉ s.queuedActorIdsToRemove.items ∧ TMap.Contains s.haveActors j = true) ∨
      (j ∈ s.queuedActorIds.items ∧ (rc.getActor j).isSome = true) ∨
      j ∈ s.queuedARTags.items
  have e1 : s.lock.queuedActorIdsToRemove = s.queuedActorIdsToRemove := rfl
  have e2 : s.lock.haveActors = s.haveActors := rfl
  have e3 : s.lock.queuedActorIds = s.queuedActorIds := rfl
  rw [e1, e2, e3]
  tauto

end UpdateWhole

/-! ## Session naming and the order in which intents are served -/

section NamingAndOrder

variable {α : Type}

/-- C6, as stated, fails: an add followed by a remove for an unregistered, resolvable
actor leaves it registered after the poll, while applying the two intents in arrival order
leaves it unregistered. -/
theorem Update_not_in_arrival_order :
    sampleSource.liveLinkClient = true ∧ sampleSession.getActor 7 = some sampleActor ∧
    TMap.Contains
      (Update sampleSession (enqueueIntents 7 sampleSource [.add, .remove])).haveActors 7
        = true ∧
    applyIntents (TMap.Contains sampleSource.haveActors 7) [.add, .remove] = false := by
  decide

theorem enqueueIntents_fixed (id : Int) (intents : List Intent) (s : Source α) :
    (enqueueIntents id s intents).haveActors = s.haveActors ∧
    (enqueueIntents id s intents).liveLinkClient = s.liveLinkClient ∧
    (enqueueIntents id s intents).queuedARTags = s.queuedARTags := by
  induction intents generalizing s with
  | nil => exact ⟨rfl, rfl, rfl⟩
  | cons x rest ih =>
    have h := ih (enqueueIntent id s x)
    cases x <;> exact h

theorem TCircularQueue.Enqueue_items (q : TCircularQueue) (x : Int)
    (h : q.items.length < q.capacity) :
    (q.Enqueue x).items = q.items ++ [x] ∧ (q.Enqueue x).capacity = q.capacity := by
  simp [TCircularQueue.Enqueue, h]

theorem enqueueIntents_queues (id : Int) (intents : List Intent) (s : Source α)
    (hadd : s.queuedActorIds.items.length + intents.count .add ≤ s.queuedActorIds.capacity)
    (hrem : s.queuedActorIdsToRemove.items.length + intents.count .remove
      ≤ s.queuedActorIdsToRemove.capacity) :
    (enqueueIntents id s intents).queuedActorIds.items
      = s.queuedActorIds.items ++ List.replicate (intents.count .add) id ∧
    (enqueueIntents id s intents).queuedActorIdsToRemove.items
      = s.queuedActorIdsToRemove.items ++ List.replicate (intents.count .remove) id := by
  induction intents generalizing s with
  | nil => simp [enqueueIntents]
  | cons x rest ih =>
    cases x with
    | add =>
      have hlt : s.queuedActorIds.items.length < s.queuedActorIds.capacity := by
        simp only [List.count_cons_self] at hadd; omega
      have hq := TCircularQueue.Enqueue_items s.queuedActorIds id hlt
      have h := ih (enqueueIntent id s .add)
        (by simp only [enqueueIntent, hq.1, hq.2, List.length_append, List.length_singleton]
            simp only [List.count_cons_self] at hadd; omega)
        (by simpa [enqueueIntent] using hrem)
      refine ⟨?_, ?_⟩
      · show (enqueueIntents id (enqueueIntent id s .add) rest).queuedActorIds.items = _
        rw [h.1]
        simp [enqueueIntent, hq.1, List.replicate_succ]
      · show (enqueueIntents id (enqueueIntent id s .add) rest).queuedActorIdsToRemove.items = _
        rw [h.2]
        simp [enqueueIntent]
    | remove =>
      have hlt : s.queuedActorIdsToRemove.items.length < s.queuedActorIdsToRemove.capacity := by
        simp only [List.count_cons_self] at hrem; omega
      have hq := TCircularQueue.Enqueue_items s.queuedActorIdsToRemove id hlt
      have h := ih (enqueueIntent id s .remove)
        (by simpa [enqueueIntent] using hadd)
        (by simp only [enqueueIntent, hq.1, hq.2, List.length_append, List.length_singleton]
            simp only [List.count_cons_self] at hrem; omega)
      refine ⟨?_, ?_⟩
      · show (enqueueIntents id (enqueueIntent id s .remove) rest).queuedActorIds.items = _
        rw [h.1]
        simp [enqueueIntent]
      · show (enqueueIntents id (enqueueIntent id s .remove) rest).queuedActorIdsToRemove.items
          = _
        rw [h.2]
        simp [enqueueIntent, hq.1, List.replicate_succ]

theorem applyIntents_removes (intents : List Intent) (p : Bool) :
    (intents.filter (fun i => decide (i = .remove))).foldl applyIntent p
      = if intents.count .remove = 0 then p else false := by
  induction intents generalizing p with
  | nil => simp
  | cons x rest ih =>
    cases x with
    | add => simpa using ih p
    | remove =>
      have : (List.filter (fun i => decide (i = Intent.remove)) (Intent.remove :: rest))
          = Intent.remove :: List.filter (fun i => decide (i = Intent.remove)) rest := by
        simp
      rw [this, List.foldl_cons, ih]
      simp [applyIntent]

theorem applyIntents_adds (intents : List Intent) (p : Bool) :
    (intents.filter (fun i => decide (i = .add))).foldl applyIntent p
      = if intents.count .add = 0 then p else true := by
  induction intents generalizing p with
  | nil => simp
  | cons x rest ih =>
    cases x with
    | remove => simpa using ih p
    | add =>
      have : (List.filter (fun i => decide (i = Intent.add)) (Intent.add :: rest))
          = Intent.add :: List.filter (fun i => decide (i = Intent.add)) rest := by
        simp
      rw [this, List.foldl_cons, ih]
      simp [applyIntent]

/-- C6 (amended): with the client present and the actor resolvable, the identifier is
registered after `Update` exactly when applying every buffered remove intent first and
every buffered add intent afterwards leaves it registered; the arrival order between the
two queues plays no part. -/
theorem Update_serves_removes_then_adds (rc : RemoteCaptury α)
    (hrc : ∀ x a, rc.getActor x = some a → a.id = x) (s : Source α) (id : Int)
    (intents : List Intent) (hc : s.liveLinkClient = true)
    (hres : (rc.getActor id).isSome = true)
    (hq1 : id ∉ s.queuedActorIds.items) (hq2 : id ∉ s.queuedActorIdsToRemove.items)
    (hq3 : id ∉ s.queuedARTags.items)
    (hadd : s.queuedActorIds.items.length + intents.count .add ≤ s.queuedActorIds.capacity)
    (hrem : s.queuedActorIdsToRemove.items.length + intents.count .remove
      ≤ s.queuedActorIdsToRemove.capacity) :
    TMap.Contains (Update rc (enqueueIntents id s intents)).haveActors id
      = applyIntents (TMap.Contains s.haveActors id) (removesFirst intents) := by
  have hf := enqueueIntents_fixed id intents s
  have hq := enqueueIntents_queues id intents s hadd hrem
  have hc2 : (enqueueIntents id s intents).liveLinkClient = true := by rw [hf.2.1]; exact hc
  have hiff := Update_Contains rc hrc (enqueueIntents id s intents) hc2 id
  rw [hq.1, hq.2, hf.1, hf.2.2] at hiff
  have hrhs : applyIntents (TMap.Contains s.haveActors id) (removesFirst intents)
      = if intents.count .add = 0 then
          (if intents.count .remove = 0 then TMap.Contains s.haveActors id else false)
        else true := by
    unfold applyIntents removesFirst
    rw [List.foldl_append, applyIntents_removes, applyIntents_adds]
  rw [hrhs]
  rw [Bool.eq_iff_iff, hiff]
  simp only [List.mem_append, List.mem_replicate, hq1, hq2, hq3, hres, false_or, or_false,
    ne_eq, and_true, not_and, not_true_eq_false]
  by_cases ha : intents.count .add = 0 <;> by_cases hr : intents.count .remove = 0 <;>
    simp [ha, hr]

/-- Witness for `Update_serves_removes_then_adds`: the sample source and the intents
add, remove, add for actor 7. -/
theorem Update_serves_removes_then_adds_witness :
    TMap.Contains
      (Update sampleSession (enqueueIntents 7 sampleSource [.add, .remove, .add])).haveActors 7
      = applyIntents (TMap.Contains sampleSource.haveActors 7)
          (removesFirst [.add, .remove, .add]) :=
  Update_serves_removes_then_adds sampleSession
    (by intro x a h
        simp only [sampleSession] at h
        split at h
        · cases h; subst_vars; rfl
        · cases h)
    sampleSource 7 [.add, .remove, .add] (by decide) (by decide) (by decide) (by decide)
    (by decide) (by decide) (by decide)

end NamingAndOrder

/-! ## Engine calls and the mutex -/

section EngineCalls

variable {α : Type}

/-- C7, as stated, fails: polling with a buffered remove for a registered actor calls
`RemoveSubject_AnyThread` at hold depth 2, and polling with a buffered add calls
`PushSubjectStaticData_AnyThread` at hold depth 1, both from hold depth 0. -/
theorem Update_calls_engine_under_lock :
    (enqueueIntents 7 sampleActive [.remove]).mutxDepth = 0 ∧
    (Update sampleSession (enqueueIntents 7 sampleActive [.remove])).engine
      = sampleActive.engine ++ [⟨2, .RemoveSubject ⟨1, "actor"⟩⟩] ∧
    (enqueueIntents 7 sampleSource [.add]).mutxDepth = 0 ∧
    (Update sampleSession (enqueueIntents 7 sampleSource [.add])).engine
      = [⟨1, .PushSubjectStaticData ⟨1, "actor"⟩ .Animation
          (setupSkeletonDefinition sampleActor)⟩] := by
  decide

/-- C7 (amended): during `Update` entered at hold depth `d` with the client present, the
engine calls are, in this order: the `RemoveSubject_AnyThread` calls, each at depth `d + 2`;
the `PushSubjectStaticData_AnyThread` calls of `addSubject`, each at depth `d + 1`; the
`PushSubjectStaticData_AnyThread` calls for AR tags, one per queued tag, each at depth `d`.
Only the AR-tag registrations are made outside the lock. -/
theorem Update_engine_call_depths (rc : RemoteCaptury α) (s : Source α)
    (hc : s.liveLinkClient = true) :
    ∃ removed added tagged : List (EngineEvent α),
      (Update rc s).engine = s.engine ++ removed ++ added ++ tagged ∧
      (∀ e ∈ removed, e.heldDepth = s.mutxDepth + 2 ∧ ∃ k, e.call = .RemoveSubject k) ∧
      (∀ e ∈ added, e.heldDepth = s.mutxDepth + 1 ∧
        ∃ k r d, e.call = .PushSubjectStaticData k r d) ∧
      (∀ e ∈ tagged, e.heldDepth = s.mutxDepth ∧
        ∃ k, e.call = .PushSubjectStaticData k .Transform setupPropStaticData) ∧
      tagged.length = s.queuedARTags.items.length := by
  have h1 := Update.removePhase_fixed s.lock
  have h2 := Update.addPhase_fixed rc (Update.removePhase s.lock)
  have hd1 : (Update.removePhase s.lock).mutxDepth = s.mutxDepth + 1 :=
    (Source.client_of_fixed h1.1).2.1
  have hd2 : (Update.addPhase rc (Update.removePhase s.lock)).mutxDepth = s.mutxDepth + 1 :=
    ((Source.client_of_fixed h2).2.1).trans hd1
  have ht2 : (Update.addPhase rc (Update.removePhase s.lock)).queuedARTags = s.queuedARTags :=
    ((Source.client_of_fixed h2).2.2.1).trans (Source.client_of_fixed h1.1).2.2.1
  obtain ⟨L1, e1, g1⟩ := Update.removePhase_engine s.lock
  obtain ⟨L2, e2, g2⟩ := Update.addPhase_engine rc (Update.removePhase s.lock)
  obtain ⟨L3, e3, l3, g3⟩ :=
    Update.arTagPhase_engine (Update.addPhase rc (Update.removePhase s.lock)).unlock
  refine ⟨L1, L2, L3, ?_, ?_, ?_, ?_, ?_⟩
  · rw [Update_present rc s hc, e3]
    show (Update.addPhase rc (Update.removePhase s.lock)).engine ++ L3 = _
    rw [e2, e1]
    rfl
  · intro e he
    exact g1 e he
  · intro e he
    have := g2 e he
    rw [hd1] at this
    exact this
  · intro e he
    have := g3 e he
    have hu : (Update.addPhase rc (Update.removePhase s.lock)).unlock.mutxDepth
        = s.mutxDepth := by
      show (Update.addPhase rc (Update.removePhase s.lock)).mutxDepth - 1 = _
      rw [hd2]
      rfl
    rw [hu] at this
    exact this
  · rw [l3]
    show (Update.addPhase rc (Update.removePhase s.lock)).queuedARTags.items.length = _
    rw [ht2]

/-- Witness for `Update_engine_call_depths`: actor 7 registered, with a remove for actor 7,
an add for actor 7 and AR tag 3 buffered.  The poll makes three engine calls from hold depth
0: the removal at depth 2, the registration of the actor at depth 1 and the registration of
the AR tag at depth 0. -/
theorem Update_engine_call_depths_witness :
    pollingSource.liveLinkClient = true ∧ pollingSource.mutxDepth = 0 ∧
    (Update sampleSession pollingSource).engine
      = pollingSource.engine ++
        [⟨2, .RemoveSubject ⟨1, "actor"⟩⟩,
         ⟨1, .PushSubjectStaticData ⟨1, "actor"⟩ .Animation
            (setupSkeletonDefinition sampleActor)⟩,
         ⟨0, .PushSubjectStaticData ⟨1, "ARTag 3"⟩ .Transform setupPropStaticData⟩] ∧
    ∃ removed added tagged : List (EngineEvent ℚ),
      (Update sampleSession pollingSource).engine
        = pollingSource.engine ++ removed ++ added ++ tagged ∧
      (∀ e ∈ removed, e.heldDepth = pollingSource.mutxDepth + 2 ∧
        ∃ k, e.call = .RemoveSubject k) ∧
      (∀ e ∈ added, e.heldDepth = pollingSource.mutxDepth + 1 ∧
        ∃ k r d, e.call = .PushSubjectStaticData k r d) ∧
      (∀ e ∈ tagged, e.heldDepth = pollingSource.mutxDepth ∧
        ∃ k, e.call = .PushSubjectStaticData k .Transform setupPropStaticData) ∧
      tagged.length = pollingSource.queuedARTags.items.length :=
  ⟨by decide, by decide, by decide,
    Update_engine_call_depths sampleSession pollingSource (by decide)⟩

/-- C8, as stated, fails: with a null client, `actorChanged` for an unregistered actor
still enqueues the identifier into `queuedActorIds`. -/
theorem actorChanged_enqueues_without_client :
    (RequestSourceShutdown sampleSource).liveLinkClient = false ∧
    (RequestSourceShutdown sampleSource).queuedActorIds.items = [] ∧
    (actorChanged (RequestSourceShutdown sampleSource) 7 .ACTOR_TRACKING).queuedActorIds.items
      = [7] := by
  decide

end EngineCalls

/-! ## The null client -/

section NullClient

variable {α : Type} [LinearOrderedField α]

/-- C8 (amended): with a null client, `newPose`, `arTagDetected` and `Update` leave the
registry, the three queues and the engine log unchanged; `actorChanged` leaves the registry,
the AR-tag queue and the engine log unchanged, and still buffers the notification: into
`queuedActorIdsToRemove` for a registered actor that stopped or was deleted, into
`queuedActorIds` for an unregistered actor in any other mode. -/
theorem null_client_effects (A : Arith α) (rc : RemoteCaptury α) (s : Source α)
    (hc : s.liveLinkClient = false) :
    (∀ actor pose, newPose A s actor pose = some s) ∧
    (∀ tags, arTagDetected A s tags = s) ∧
    s.sameLifecycle (Update rc s) ∧
    (∀ id mode,
      (actorChanged s id mode).haveActors = s.haveActors ∧
      (actorChanged s id mode).queuedARTags = s.queuedARTags ∧
      (actorChanged s id mode).engine = s.engine ∧
      (actorChanged s id mode).queuedActorIdsToRemove =
        (if TMap.Contains s.haveActors id = true ∧
            (mode = .ACTOR_STOPPED ∨ mode = .ACTOR_DELETED) then
          s.queuedActorIdsToRemove.Enqueue id else s.queuedActorIdsToRemove) ∧
      (actorChanged s id mode).queuedActorIds =
        (if TMap.Contains s.haveActors id = false ∧
            ¬ (mode = .ACTOR_STOPPED ∨ mode = .ACTOR_DELETED) then
          s.queuedActorIds.Enqueue id else s.queuedActorIds)) := by
  have hl : s.lock.liveLinkClient = false := hc
  refine ⟨?_, ?_, ?_, ?_⟩
  · intro actor pose
    unfold newPose
    simp only [hl, if_true, Source.unlock_lock]
  · intro tags
    unfold arTagDetected
    simp only [hc, if_true]
  · unfold Update
    simp only [hl, if_true]
    exact ⟨rfl, rfl, rfl, rfl, rfl⟩
  · intro id mode
    have hk : TMap.Contains s.lock.haveActors id = TMap.Contains s.haveActors id := rfl
    unfold actorChanged
    simp only [hk]
    by_cases h1 : TMap.Contains s.haveActors id = true <;>
      by_cases h2 : (mode = .ACTOR_STOPPED ∨ mode = .ACTOR_DELETED) <;>
      simp [h1, h2, Source.lock, Source.unlock]

/-- Witness for `null_client_effects`: the sample source after `RequestSourceShutdown`. -/
theorem null_client_effects_witness :
    (∀ actor pose, newPose sampleArith (RequestSourceShutdown sampleSource) actor pose
      = some (RequestSourceShutdown sampleSource)) ∧
    (∀ tags, arTagDetected sampleArith (RequestSourceShutdown sampleSource) tags
      = RequestSourceShutdown sampleSource) ∧
    (RequestSourceShutdown sampleSource).sameLifecycle
      (Update sampleSession (RequestSourceShutdown sampleSource)) ∧
    (∀ id mode,
      (actorChanged (RequestSourceShutdown sampleSource) id mode).haveActors
        = (RequestSourceShutdown sampleSource).haveActors ∧
      (actorChanged (RequestSourceShutdown sampleSource) id mode).queuedARTags
        = (RequestSourceShutdown sampleSource).queuedARTags ∧
      (actorChanged (RequestSourceShutdown sampleSource) id mode).engine
        = (RequestSourceShutdown sampleSource).engine ∧
      (actorChanged (RequestSourceShutdown sampleSource) id mode).queuedActorIdsToRemove =
        (if TMap.Contains (RequestSourceShutdown sampleSource).haveActors id = true ∧
            (mode = .ACTOR_STOPPED ∨ mode = .ACTOR_DELETED) then
          (RequestSourceShutdown sampleSource).queuedActorIdsToRemove.Enqueue id
         else (RequestSourceShutdown sampleSource).queuedActorIdsToRemove) ∧
      (actorChanged (RequestSourceShutdown sampleSource) id mode).queuedActorIds =
        (if TMap.Contains (RequestSourceShutdown sampleSource).haveActors id = false ∧
            ¬ (mode = .ACTOR_STOPPED ∨ mode = .ACTOR_DELETED) then
          (RequestSourceShutdown sampleSource).queuedActorIds.Enqueue id
         else (RequestSourceShutdown sampleSource).queuedActorIds)) :=
  null_client_effects sampleArith sampleSession (RequestSourceShutdown sampleSource)
    (by decide)

end NullClient

/-! ## Pending intents for one actor -/

section PendingIntents

variable {α : Type}

theorem Update.removeLoop_absent (id : Int) (n : Nat) (s : Source α)
    (h : TMap.Find s.haveActors id = none) :
    (List.replicate n id).foldl Update.removeStep s = s := by
  induction n with
  | zero => rfl
  | succ n ih =>
    rw [List.replicate_succ, List.foldl_cons, Update.removeStep_absent s id h]
    exact ih

theorem Update.addLoop_known (rc : RemoteCaptury α) (id : Int) (actor : CapturyActor α)
    (hres : rc.getActor id = some actor) (n : Nat) (acc : Source α × List Int)
    (k : FLiveLinkSubjectKey) (h : TMap.Find acc.1.haveActors actor.id = some k) :
    (List.replicate n id).foldl (Update.addStep rc) acc = acc := by
  induction n with
  | zero => rfl
  | succ n ih =>
    have hstep : Update.addStep rc acc id = acc := by
      unfold Update.addStep
      simp only [hres]
      rw [addSubject_known acc.1 actor k h]
    rw [List.replicate_succ, List.foldl_cons, hstep]
    exact ih

theorem Update.removePhase_absent (s : Source α) (id : Int) (r : Nat)
    (habs : TMap.Find s.haveActors id = none)
    (hrem : s.queuedActorIdsToRemove.items = List.replicate r id) :
    Update.removePhase s
      = { s with queuedActorIdsToRemove := s.queuedActorIdsToRemove.drained } := by
  unfold Update.removePhase
  rw [hrem]
  exact Update.removeLoop_absent id r _ habs

theorem Update.addPhase_pending (rc : RemoteCaptury α) (s : Source α) (id : Int)
    (actor : CapturyActor α) (k : Nat)
    (hc : s.liveLinkClient = true) (habs : TMap.Find s.haveActors actor.id = none)
    (hres : rc.getActor id = some actor)
    (hadd : s.queuedActorIds.items = List.replicate (k + 1) id) :
    Update.addPhase rc s
      = addSubject { s with queuedActorIds := s.queuedActorIds.drained } actor := by
  have hnew := addSubject_new { s with queuedActorIds := s.queuedActorIds.drained } actor
    hc habs
  have hA : Update.addLoop rc s
      = (addSubject { s with queuedActorIds := s.queuedActorIds.drained } actor, []) := by
    unfold Update.addLoop
    rw [hadd, List.replicate_succ, List.foldl_cons]
    have hstep : Update.addStep rc
        ({ s with queuedActorIds := s.queuedActorIds.drained }, []) id
        = (addSubject { s with queuedActorIds := s.queuedActorIds.drained } actor, []) := by
      unfold Update.addStep
      simp only [hres]
    rw [hstep]
    refine Update.addLoop_known rc id actor hres k _
      ⟨s.sourceGuid, s.namePrefix ++ actor.name⟩ ?_
    rw [hnew]
    show TMap.Find (s.haveActors ++ [(actor.id, _)]) actor.id = _
    rw [TMap.Find_append_single, habs]
    simp
  unfold Update.addPhase
  rw [hA]
  rfl

/-- A poll of a state whose only pending work is `k + 1` adds and `r` removes for one
unregistered, resolvable actor. -/
theorem Update_pending_add (rc : RemoteCaptury α) (s : Source α) (id : Int)
    (actor : CapturyActor α) (k r : Nat)
    (hc : s.liveLinkClient = true) (habs : TMap.Find s.haveActors id = none)
    (hres : rc.getActor id = some actor) (hid : actor.id = id)
    (hadd : s.queuedActorIds.items = List.replicate (k + 1) id)
    (hrem : s.queuedActorIdsToRemove.items = List.replicate r id)
    (htag : s.queuedARTags.items = []) :
    s.activated (Update rc s) actor := by
  have habs' : TMap.Find s.haveActors actor.id = none := by rw [hid]; exact habs
  have h1 := Update.removePhase_absent s.lock id r habs hrem
  have h2 := Update.addPhase_pending rc
    { s.lock with queuedActorIdsToRemove := s.lock.queuedActorIdsToRemove.drained }
    id actor k hc habs' hres hadd
  have h3 := addSubject_new
    { ({ s.lock with queuedActorIdsToRemove := s.lock.queuedActorIdsToRemove.drained }
        : Source α) with
      queuedActorIds := ({ s.lock with
        queuedActorIdsToRemove := s.lock.queuedActorIdsToRemove.drained }
          : Source α).queuedActorIds.drained }
    actor hc habs'
  rw [Update_present rc s hc, h1, h2, h3]
  unfold Update.arTagPhase
  simp only [List.foldl_nil, Source.unlock, Source.lock, htag, TCircularQueue.drained]
  refine ⟨rfl, ?_, rfl, rfl, rfl⟩
  by_cases hj : actor.numJoints > 1
  · exact ⟨.Animation, setupSkeletonDefinition actor, by simp [hj]⟩
  · exact ⟨.Transform, setupPropStaticData, by simp [hj]⟩

theorem actorChanged_unknown (s : Source α) (id : Int) (mode : CapturyActorStatus)
    (habs : TMap.Find s.haveActors id = none) :
    actorChanged s id mode =
      if mode = .ACTOR_STOPPED ∨ mode = .ACTOR_DELETED then s
      else { s with queuedActorIds := s.queuedActorIds.Enqueue id } := by
  have hk : TMap.Contains s.lock.haveActors id = false := by
    show (TMap.Find s.haveActors id).isSome = false
    rw [habs]; rfl
  unfold actorChanged
  simp only [hk, Bool.false_eq_true, if_false, Source.unlock_lock]
  split
  · rfl
  · rfl

theorem TCircularQueue.Enqueue_twice_empty (q : TCircularQueue) (id : Int)
    (hq : q.items = []) (hcap : 0 < q.capacity) :
    ∃ k, ((q.Enqueue id).Enqueue id).items = List.replicate (k + 1) id := by
  have h1 : (q.Enqueue id).items = [id] ∧ (q.Enqueue id).capacity = q.capacity := by
    simp [TCircularQueue.Enqueue, hq, hcap]
  by_cases h2 : 1 < q.capacity
  · refine ⟨1, ?_⟩
    have : (q.Enqueue id).items.length < (q.Enqueue id).capacity := by
      rw [h1.1, h1.2]; simpa using h2
    rw [(TCircularQueue.Enqueue_items _ id this).1, h1.1]
    rfl
  · refine ⟨0, ?_⟩
    have : ¬ (q.Enqueue id).items.length < (q.Enqueue id).capacity := by
      rw [h1.1, h1.2]; simpa using h2
    have e : (q.Enqueue id).Enqueue id = q.Enqueue id := by
      generalize q.Enqueue id = q1 at this ⊢
      unfold TCircularQueue.Enqueue
      simp only [this, if_false]
    rw [e, h1.1]
    rfl

theorem TCircularQueue.Enqueue_empty (q : TCircularQueue) (id : Int) (hq : q.items = []) :
    ∃ r, (q.Enqueue id).items = List.replicate r id := by
  unfold TCircularQueue.Enqueue
  split
  · exact ⟨1, by simp [hq]⟩
  · exact ⟨0, by simp [hq]⟩

theorem TMap.count_of_Find_none {K V : Type} [DecidableEq K] (m : List (K × V)) (k : K)
    (h : TMap.Find m k = none) : TMap.count m k = 0 := by
  induction m with
  | nil => rfl
  | cons e rest ih =>
    obtain ⟨k', v⟩ := e
    by_cases hk : k' = k
    · simp [TMap.Find, hk] at h
    · simp only [TMap.Find, hk, if_false] at h
      have := ih h
      simp only [TMap.count] at this ⊢
      simp [List.filter_cons, hk, this]

theorem TMap.count_append_single {K V : Type} [DecidableEq K] (m : List (K × V)) (k j : K)
    (v : V) : TMap.count (m ++ [(k, v)]) j = TMap.count m j + (if k = j then 1 else 0) := by
  unfold TMap.count
  by_cases h : k = j <;> simp [List.filter_append, List.filter_cons, h]

theorem TMap.count_Remove_ne {K V : Type} [DecidableEq K] (m : List (K × V)) {k j : K}
    (h : j ≠ k) : TMap.count (TMap.Remove m k) j = TMap.count m j := by
  unfold TMap.count TMap.Remove
  rw [List.filter_filter]
  congr 1
  apply List.filter_congr
  intro e _
  by_cases he : e.1 = j
  · have : e.1 ≠ k := by rw [he]; exact h
    simp [he, this, h]
  · simp [he]

/-- What the registry holds for `id` while `Update` runs: nothing yet, or exactly the handle
`key`, stored once. -/
theorem Update.removeLoop_Find_none (xs : List Int) (s : Source α) (id : Int)
    (h : TMap.Find s.haveActors id = none) :
    TMap.Find (xs.foldl Update.removeStep s).haveActors id = none := by
  induction xs generalizing s with
  | nil => exact h
  | cons x rest ih =>
    simp only [List.foldl_cons]
    apply ih
    rw [Update.removeStep_haveActors]
    by_cases hx : id = x
    · subst hx; exact TMap.Find_Remove_self _ _
    · rw [TMap.Find_Remove_ne _ hx]; exact h

theorem addSubject_other (s : Source α) (actor : CapturyActor α) (id : Int)
    (hne : actor.id ≠ id) :
    TMap.Find (addSubject s actor).haveActors id = TMap.Find s.haveActors id ∧
    TMap.count (addSubject s actor).haveActors id = TMap.count s.haveActors id := by
  cases hf : TMap.Find s.haveActors actor.id with
  | some k => rw [addSubject_known s actor k hf]; exact ⟨rfl, rfl⟩
  | none =>
    by_cases hc : s.liveLinkClient = true
    · rw [addSubject_new s actor hc hf]
      constructor
      · show TMap.Find (s.haveActors ++ [(actor.id, _)]) id = _
        rw [TMap.Find_append_single]
        cases TMap.Find s.haveActors id <;> simp [hne]
      · show TMap.count (s.haveActors ++ [(actor.id, _)]) id = _
        rw [TMap.count_append_single]
        simp [hne]
    · have hc' : s.liveLinkClient = false := by simpa using hc
      unfold addSubject
      simp [hf, hc']

/-- One pass of the add loop keeps the handle of a registered, resolvable actor. -/
theorem Update.addStep_handle_kept (rc : RemoteCaptury α)
    (hrc : ∀ x a, rc.getActor x = some a → a.id = x) (id : Int)
    (key : FLiveLinkSubjectKey) (x : Int) (acc : Source α × List Int)
    (h : TMap.Find acc.1.haveActors id = some key ∧ TMap.count acc.1.haveActors id = 1) :
    TMap.Find (Update.addStep rc acc x).1.haveActors id = some key ∧
      TMap.count (Update.addStep rc acc x).1.haveActors id = 1 := by
  unfold Update.addStep
  cases hg : rc.getActor x with
  | none => exact h
  | some a =>
    have hid := hrc x a hg
    by_cases hx : a.id = id
    · show TMap.Find (addSubject acc.1 a).haveActors id = some key ∧
        TMap.count (addSubject acc.1 a).haveActors id = 1
      rw [addSubject_known acc.1 a key (by rw [hx]; exact h.1)]
      exact h
    · have ho := addSubject_other acc.1 a id hx
      show TMap.Find (addSubject acc.1 a).haveActors id = some key ∧
        TMap.count (addSubject acc.1 a).haveActors id = 1
      rw [ho.1, ho.2]
      exact h

/-- One pass of the add loop on an unregistered, resolvable actor: it registers the actor's
handle, once, when the pass is for that actor, and leaves it unregistered otherwise. -/
theorem Update.addStep_handle_new (rc : RemoteCaptury α)
    (hrc : ∀ x a, rc.getActor x = some a → a.id = x) (id : Int) (actor : CapturyActor α)
    (hres : rc.getActor id = some actor) (x : Int)
    (acc : Source α × List Int) (hc : acc.1.liveLinkClient = true)
    (h : TMap.Find acc.1.haveActors id = none) :
    (TMap.Find (Update.addStep rc acc x).1.haveActors id = none ∧ x ≠ id) ∨
    (TMap.Find (Update.addStep rc acc x).1.haveActors id
        = some ⟨acc.1.sourceGuid, acc.1.namePrefix ++ actor.name⟩ ∧
      TMap.count (Update.addStep rc acc x).1.haveActors id = 1) := by
  unfold Update.addStep
  cases hg : rc.getActor x with
  | none =>
    refine Or.inl ⟨h, ?_⟩
    intro hx
    rw [hx, hres] at hg
    cases hg
  | some a =>
    have hid := hrc x a hg
    by_cases hx : x = id
    · have ha : a = actor := by
        rw [hx, hres] at hg
        exact (Option.some.inj hg).symm
      subst ha
      have h' : TMap.Find acc.1.haveActors a.id = none := by rw [hid, hx]; exact h
      refine Or.inr ?_
      show TMap.Find (addSubject acc.1 a).haveActors id = some _ ∧
        TMap.count (addSubject acc.1 a).haveActors id = 1
      rw [addSubject_new acc.1 a hc h']
      constructor
      · show TMap.Find (acc.1.haveActors ++ [(a.id, _)]) id = _
        rw [TMap.Find_append_single, h]
        simp [hid, hx]
      · show TMap.count (acc.1.haveActors ++ [(a.id, _)]) id = _
        rw [TMap.count_append_single, TMap.count_of_Find_none _ _ h]
        simp [hid, hx]
    · have hne : a.id ≠ id := by rw [hid]; exact hx
      have ho := addSubject_other acc.1 a id hne
      refine Or.inl ⟨?_, hx⟩
      show TMap.Find (addSubject acc.1 a).haveActors id = none
      rw [ho.1]
      exact h

theorem Update.addLoop_handle_kept (rc : RemoteCaptury α)
    (hrc : ∀ x a, rc.getActor x = some a → a.id = x) (id : Int)
    (key : FLiveLinkSubjectKey) (xs : List Int) (acc : Source α × List Int)
    (h : TMap.Find acc.1.haveActors id = some key ∧ TMap.count acc.1.haveActors id = 1) :
    TMap.Find (xs.foldl (Update.addStep rc) acc).1.haveActors id = some key ∧
      TMap.count (xs.foldl (Update.addStep rc) acc).1.haveActors id = 1 := by
  induction xs generalizing acc with
  | nil => exact h
  | cons x rest ih =>
    simp only [List.foldl_cons]
    exact ih _ (Update.addStep_handle_kept rc hrc id key x acc h)

/-- The add loop of `Update` on the registry entry of one unregistered, resolvable actor:
once the loop has met the identifier, the registry holds its handle, exactly once. -/
theorem Update.addLoop_handle (rc : RemoteCaptury α)
    (hrc : ∀ x a, rc.getActor x = some a → a.id = x) (id : Int) (actor : CapturyActor α)
    (hres : rc.getActor id = some actor) (xs : List Int)
    (acc : Source α × List Int) (hc : acc.1.liveLinkClient = true)
    (h : TMap.Find acc.1.haveActors id = none) (hmem : id ∈ xs) :
    TMap.Find (xs.foldl (Update.addStep rc) acc).1.haveActors id
        = some ⟨acc.1.sourceGuid, acc.1.namePrefix ++ actor.name⟩ ∧
      TMap.count (xs.foldl (Update.addStep rc) acc).1.haveActors id = 1 := by
  induction xs generalizing acc with
  | nil => simp at hmem
  | cons x rest ih =>
    have hfix := Source.client_of_fixed (Update.addStep_fixed rc acc x).1
    simp only [List.foldl_cons]
    rcases Update.addStep_handle_new rc hrc id actor hres x acc hc h with hs | hs
    · have hmem' : id ∈ rest := by
        rcases List.mem_cons.mp hmem with e | e
        · exact absurd e.symm hs.2
        · exact e
      have := ih _ (by rw [hfix.1]; exact hc) hs.1 hmem'
      rw [hfix.2.2.2.1, hfix.2.2.2.2] at this
      exact this
    · exact Update.addLoop_handle_kept rc hrc id _ rest _ hs

/-- The ids the add loop of `Update` puts aside for a retry are ids the session did not
resolve. -/
theorem Update.addLoop_requeue (rc : RemoteCaptury α) (xs : List Int)
    (acc : Source α × List Int) :
    ∀ y ∈ (xs.foldl (Update.addStep rc) acc).2, y ∈ acc.2 ∨ rc.getActor y = none := by
  induction xs generalizing acc with
  | nil => intro y hy; exact Or.inl hy
  | cons x rest ih =>
    intro y hy
    simp only [List.foldl_cons] at hy
    rcases ih _ y hy with h | h
    · unfold Update.addStep at h
      cases hg : rc.getActor x with
      | none =>
        rw [hg] at h
        simp only [List.mem_append, List.mem_singleton] at h
        rcases h with h | h
        · exact Or.inl h
        · rw [h]; exact Or.inr hg
      | some a =>
        rw [hg] at h
        exact Or.inl h
    · exact Or.inr h

theorem TCircularQueue.mem_Enqueue (q : TCircularQueue) (x y : Int)
    (h : y ∈ (q.Enqueue x).items) : y ∈ q.items ∨ y = x := by
  unfold TCircularQueue.Enqueue at h
  split at h
  · simpa using h
  · exact Or.inl h

theorem TCircularQueue.mem_Enqueue_of_mem (q : TCircularQueue) (x y : Int)
    (h : y ∈ q.items) : y ∈ (q.Enqueue x).items := by
  unfold TCircularQueue.Enqueue
  split
  · simp [h]
  · exact h

theorem TCircularQueue.mem_Enqueue_self (q : TCircularQueue) (x : Int)
    (h : q.items.length < q.capacity) : x ∈ (q.Enqueue x).items := by
  simp [TCircularQueue.Enqueue, h]

theorem Update.requeueLoop_items (xs : List Int) (s : Source α) :
    (∀ y ∈ (xs.foldl Update.requeueStep s).queuedActorIds.items,
      y ∈ s.queuedActorIds.items ∨ y ∈ xs) ∧
    (xs.foldl Update.requeueStep s).queuedActorIdsToRemove = s.queuedActorIdsToRemove := by
  induction xs generalizing s with
  | nil => exact ⟨fun y hy => Or.inl hy, rfl⟩
  | cons x rest ih =>
    simp only [List.foldl_cons]
    obtain ⟨h1, h2⟩ := ih (Update.requeueStep s x)
    refine ⟨?_, h2⟩
    intro y hy
    rcases h1 y hy with h | h
    · rcases TCircularQueue.mem_Enqueue s.queuedActorIds x y h with h | h
      · exact Or.inl h
      · exact Or.inr (by simp [h])
    · exact Or.inr (by simp [h])

theorem addSubject_removeQueue (s : Source α) (actor : CapturyActor α) :
    (addSubject s actor).queuedActorIdsToRemove = s.queuedActorIdsToRemove := by
  unfold addSubject
  split
  · rfl
  · split
    · rfl
    · split <;> rfl

theorem Update.addLoop_removeQueue (rc : RemoteCaptury α) (xs : List Int)
    (acc : Source α × List Int) :
    (xs.foldl (Update.addStep rc) acc).1.queuedActorIdsToRemove
      = acc.1.queuedActorIdsToRemove := by
  induction xs generalizing acc with
  | nil => rfl
  | cons x rest ih =>
    simp only [List.foldl_cons]
    rw [ih]
    unfold Update.addStep
    cases rc.getActor x with
    | none => rfl
    | some a => exact addSubject_removeQueue acc.1 a

theorem Update.arTagLoop_other (xs : List Int) (s : Source α) (id : Int) (h : id ∉ xs) :
    TMap.Find (xs.foldl Update.arTagStep s).haveActors id = TMap.Find s.haveActors id ∧
    TMap.count (xs.foldl Update.arTagStep s).haveActors id = TMap.count s.haveActors id ∧
    (xs.foldl Update.arTagStep s).queuedActorIds = s.queuedActorIds ∧
    (xs.foldl Update.arTagStep s).queuedActorIdsToRemove = s.queuedActorIdsToRemove := by
  induction xs generalizing s with
  | nil => exact ⟨rfl, rfl, rfl, rfl⟩
  | cons x rest ih =>
    simp only [List.mem_cons, not_or] at h
    simp only [List.foldl_cons]
    obtain ⟨h1, h2, h3, h4⟩ := ih (Update.arTagStep s x) h.2
    rw [h1, h2, h3, h4, Update.arTagStep_eq]
    refine ⟨?_, ?_, rfl, rfl⟩
    · show TMap.Find (TMap.Add s.haveActors x _) id = _
      unfold TMap.Add
      rw [TMap.Find_append_single, TMap.Find_Remove_ne _ h.1]
      have hx : ¬ x = id := fun e => h.1 e.symm
      cases TMap.Find s.haveActors id <;> simp [hx]
    · show TMap.count (TMap.Add s.haveActors x _) id = _
      unfold TMap.Add
      rw [TMap.count_append_single, TMap.count_Remove_ne _ h.1]
      have hx : ¬ x = id := fun e => h.1 e.symm
      simp [hx]

theorem Update.removeLoop_removeQueue (xs : List Int) (s : Source α) :
    (xs.foldl Update.removeStep s).queuedActorIdsToRemove = s.queuedActorIdsToRemove := by
  induction xs generalizing s with
  | nil => rfl
  | cons x rest ih =>
    simp only [List.foldl_cons]
    rw [ih]
    cases h : TMap.Find s.haveActors x with
    | none => rw [Update.removeStep_absent s x h]
    | some k => rw [Update.removeStep_present s x k h]

theorem Update.removePhase_unregistered (s : Source α) (id : Int)
    (h : TMap.Find s.haveActors id = none) :
    TMap.Find (Update.removePhase s).haveActors id = none ∧
    (Update.removePhase s).queuedActorIdsToRemove.items = [] := by
  unfold Update.removePhase
  exact ⟨Update.removeLoop_Find_none _ _ id h, by rw [Update.removeLoop_removeQueue]; rfl⟩

theorem Update.addPhase_handle (rc : RemoteCaptury α)
    (hrc : ∀ x a, rc.getActor x = some a → a.id = x) (s : Source α) (id : Int)
    (actor : CapturyActor α) (hres : rc.getActor id = some actor)
    (hc : s.liveLinkClient = true) (h : TMap.Find s.haveActors id = none)
    (hmem : id ∈ s.queuedActorIds.items) :
    TMap.Find (Update.addPhase rc s).haveActors id
      = some ⟨s.sourceGuid, s.namePrefix ++ actor.name⟩ ∧
    TMap.count (Update.addPhase rc s).haveActors id = 1 ∧
    id ∉ (Update.addPhase rc s).queuedActorIds.items ∧
    (Update.addPhase rc s).queuedActorIdsToRemove = s.queuedActorIdsToRemove := by
  have hh := Update.addLoop_handle rc hrc id actor hres s.queuedActorIds.items
    ({ s with queuedActorIds := s.queuedActorIds.drained }, []) hc h hmem
  have hq := (Update.addLoop_fixed rc s.queuedActorIds.items
    ({ s with queuedActorIds := s.queuedActorIds.drained }, [])).2
  have hr := Update.addLoop_requeue rc s.queuedActorIds.items
    ({ s with queuedActorIds := s.queuedActorIds.drained }, [])
  have hrq := Update.addLoop_removeQueue rc s.queuedActorIds.items
    ({ s with queuedActorIds := s.queuedActorIds.drained }, [])
  have hl := Update.requeueLoop_fixed (Update.addLoop rc s).2 (Update.addLoop rc s).1
  have hi := Update.requeueLoop_items (Update.addLoop rc s).2 (Update.addLoop rc s).1
  unfold Update.addPhase
  refine ⟨?_, ?_, ?_, ?_⟩
  · rw [hl.2.1]; exact hh.1
  · rw [hl.2.1]; exact hh.2
  · intro hin
    rcases hi.1 id hin with h1 | h1
    · have : (Update.addLoop rc s).1.queuedActorIds = s.queuedActorIds.drained := hq
      rw [this] at h1
      simp [TCircularQueue.drained] at h1
    · rcases hr id h1 with h2 | h2
      · simp at h2
      · rw [hres] at h2; cases h2
  · rw [hi.2]; exact hrq

theorem Update.arTagPhase_other (s : Source α) (id : Int) (h : id ∉ s.queuedARTags.items) :
    TMap.Find (Update.arTagPhase s).haveActors id = TMap.Find s.haveActors id ∧
    TMap.count (Update.arTagPhase s).haveActors id = TMap.count s.haveActors id ∧
    (Update.arTagPhase s).queuedActorIds = s.queuedActorIds ∧
    (Update.arTagPhase s).queuedActorIdsToRemove = s.queuedActorIdsToRemove ∧
    (Update.arTagPhase s).queuedARTags.items = [] := by
  unfold Update.arTagPhase
  obtain ⟨h1, h2, h3, h4⟩ := Update.arTagLoop_other s.queuedARTags.items
    { s with queuedARTags := s.queuedARTags.drained } id h
  refine ⟨h1, h2, h3, h4, ?_⟩
  rw [(Source.client_of_fixed (Update.arTagLoop_fixed _ _)).2.2.1]
  rfl

/-- A poll of a state in which an add for an unregistered, resolvable actor is pending and
no AR tag of the same id is: the actor is Active afterwards. -/
theorem Update_resolves_active (rc : RemoteCaptury α)
    (hrc : ∀ x a, rc.getActor x = some a → a.id = x) (s t : Source α) (id : Int)
    (actor : CapturyActor α) (hres : rc.getActor id = some actor)
    (hc : t.liveLinkClient = true) (habs : TMap.Find t.haveActors id = none)
    (hmem : id ∈ t.queuedActorIds.items) (htag : id ∉ t.queuedARTags.items)
    (hg : t.sourceGuid = s.sourceGuid) (hp : t.namePrefix = s.namePrefix) :
    s.resolvedActive (Update rc t) id actor := by
  have h1 := Update.removePhase_unregistered t.lock id habs
  have hf1 := Update.removePhase_fixed t.lock
  have hc1 : (Update.removePhase t.lock).liveLinkClient = true := by
    rw [(Source.client_of_fixed hf1.1).1]; exact hc
  have hmem1 : id ∈ (Update.removePhase t.lock).queuedActorIds.items := by
    rw [hf1.2]; exact hmem
  have h2 := Update.addPhase_handle rc hrc (Update.removePhase t.lock) id actor hres hc1
    h1.1 hmem1
  have hf2 := Update.addPhase_fixed rc (Update.removePhase t.lock)
  have htag2 : id ∉ (Update.addPhase rc (Update.removePhase t.lock)).unlock.queuedARTags.items
      := by
    show id ∉ (Update.addPhase rc (Update.removePhase t.lock)).queuedARTags.items
    rw [(Source.client_of_fixed hf2).2.2.1, (Source.client_of_fixed hf1.1).2.2.1]
    exact htag
  have h3 := Update.arTagPhase_other
    (Update.addPhase rc (Update.removePhase t.lock)).unlock id htag2
  rw [Update_present rc t hc]
  refine ⟨?_, ?_, ?_, ?_, h3.2.2.2.2⟩
  · rw [h3.1]
    show TMap.Find (Update.addPhase rc (Update.removePhase t.lock)).haveActors id = _
    rw [h2.1, (Source.client_of_fixed hf1.1).2.2.2.1, (Source.client_of_fixed hf1.1).2.2.2.2]
    show some (⟨t.sourceGuid, t.namePrefix ++ actor.name⟩ : FLiveLinkSubjectKey) = _
    rw [hg, hp]
  · rw [h3.2.1]
    exact h2.2.1
  · rw [h3.2.2.1]
    exact h2.2.2.1
  · rw [h3.2.2.2.1]
    show (Update.addPhase rc (Update.removePhase t.lock)).queuedActorIdsToRemove.items = []
    rw [h2.2.2.2]
    exact h1.2


/-- C9 (amended): with the client present and a session that resolves each identifier to
the actor of that identifier, an unregistered, resolvable actor for which an add, a remove
and an add were issued before any poll (through `actorChanged`, or directly on the queues,
the add queue having room and no AR tag of the same id being queued) is Active after one
`Update`:
the registry holds its handle, exactly once, and no intent for it is pending; when nothing
else was queued, the registry gained exactly that handle, the engine received exactly one
registration, and all queues are drained. -/
theorem add_remove_add_resolves_active (rc : RemoteCaptury α)
    (hrc : ∀ x a, rc.getActor x = some a → a.id = x) (s : Source α) (id : Int)
    (actor : CapturyActor α) (started stopped restarted : CapturyActorStatus)
    (hc : s.liveLinkClient = true) (habs : TMap.Find s.haveActors id = none)
    (hres : rc.getActor id = some actor)
    (hroom : s.queuedActorIds.items.length < s.queuedActorIds.capacity)
    (htag : id ∉ s.queuedARTags.items)
    (hm1 : ¬ (started = .ACTOR_STOPPED ∨ started = .ACTOR_DELETED))
    (hm2 : stopped = .ACTOR_STOPPED ∨ stopped = .ACTOR_DELETED)
    (hm3 : ¬ (restarted = .ACTOR_STOPPED ∨ restarted = .ACTOR_DELETED)) :
    s.resolvedActive
      (Update rc (actorChanged (actorChanged (actorChanged s id started) id stopped)
        id restarted)) id actor ∧
    s.resolvedActive (Update rc (enqueueIntents id s [.add, .remove, .add])) id actor ∧
    (s.queuedActorIds.items = [] → s.queuedActorIdsToRemove.items = [] →
      s.queuedARTags.items = [] →
      s.activated
        (Update rc (actorChanged (actorChanged (actorChanged s id started) id stopped)
          id restarted)) actor ∧
      s.activated (Update rc (enqueueIntents id s [.add, .remove, .add])) actor) := by
  have hid : actor.id = id := hrc id actor hres
  have e1 : actorChanged s id started
      = { s with queuedActorIds := s.queuedActorIds.Enqueue id } := by
    rw [actorChanged_unknown s id started habs]; simp only [hm1, if_false]
  have e2 : actorChanged { s with queuedActorIds := s.queuedActorIds.Enqueue id } id stopped
      = { s with queuedActorIds := s.queuedActorIds.Enqueue id } := by
    rw [actorChanged_unknown { s with queuedActorIds := s.queuedActorIds.Enqueue id } id
      stopped habs]
    simp only [hm2, if_true]
  have e3 : actorChanged { s with queuedActorIds := s.queuedActorIds.Enqueue id } id
      restarted
      = { s with queuedActorIds := (s.queuedActorIds.Enqueue id).Enqueue id } := by
    rw [actorChanged_unknown { s with queuedActorIds := s.queuedActorIds.Enqueue id } id
      restarted habs]
    simp only [hm3, if_false]
  have hmem : id ∈ ((s.queuedActorIds.Enqueue id).Enqueue id).items :=
    TCircularQueue.mem_Enqueue_of_mem _ _ _ (TCircularQueue.mem_Enqueue_self _ _ hroom)
  rw [e1, e2, e3]
  refine ⟨?_, ?_, ?_⟩
  · exact Update_resolves_active rc hrc s
      { s with queuedActorIds := (s.queuedActorIds.Enqueue id).Enqueue id } id actor hres
      hc habs hmem htag rfl rfl
  · exact Update_resolves_active rc hrc s
      { s with queuedActorIds := (s.queuedActorIds.Enqueue id).Enqueue id,
               queuedActorIdsToRemove := s.queuedActorIdsToRemove.Enqueue id } id actor hres
      hc habs hmem htag rfl rfl
  · intro hadd hrem htags
    have hcap : 0 < s.queuedActorIds.capacity := by
      rw [hadd] at hroom; exact hroom
    obtain ⟨k, hk⟩ := TCircularQueue.Enqueue_twice_empty s.queuedActorIds id hadd hcap
    obtain ⟨r, hr⟩ := TCircularQueue.Enqueue_empty s.queuedActorIdsToRemove id hrem
    constructor
    · exact Update_pending_add rc
        { s with queuedActorIds := (s.queuedActorIds.Enqueue id).Enqueue id } id actor k 0
        hc habs hres hid hk hrem htags
    · exact Update_pending_add rc
        { s with queuedActorIds := (s.queuedActorIds.Enqueue id).Enqueue id,
                 queuedActorIdsToRemove := s.queuedActorIdsToRemove.Enqueue id } id actor k r
        hc habs hres hid hk hr htags

/-- Witness for `add_remove_add_resolves_active`: the sample source and actor 7. -/
theorem add_remove_add_resolves_active_witness :
    sampleSource.resolvedActive
      (Update sampleSession (actorChanged (actorChanged (actorChanged sampleSource 7
        .ACTOR_TRACKING) 7 .ACTOR_STOPPED) 7 .ACTOR_TRACKING)) 7 sampleActor ∧
    sampleSource.resolvedActive
      (Update sampleSession (enqueueIntents 7 sampleSource [.add, .remove, .add])) 7
      sampleActor ∧
    (sampleSource.queuedActorIds.items = [] → sampleSource.queuedActorIdsToRemove.items = [] →
      sampleSource.queuedARTags.items = [] →
      sampleSource.activated
        (Update sampleSession (actorChanged (actorChanged (actorChanged sampleSource 7
          .ACTOR_TRACKING) 7 .ACTOR_STOPPED) 7 .ACTOR_TRACKING)) sampleActor ∧
      sampleSource.activated
        (Update sampleSession (enqueueIntents 7 sampleSource [.add, .remove, .add]))
        sampleActor) :=
  add_remove_add_resolves_active sampleSession
    (by intro x a h
        simp only [sampleSession] at h
        split at h
        · cases h; subst_vars; rfl
        · cases h)
    sampleSource 7 sampleActor .ACTOR_TRACKING .ACTOR_STOPPED .ACTOR_TRACKING
    (by decide) (by decide) (by decide) (by decide) (by decide) (by decide) (by decide)
    (by decide)

/-- C10: for an identifier that is not registered, an `Update` whose remove queue holds
that identifier one or more times and whose add and AR-tag queues are empty leaves the
registry as it was and makes no engine call, so no unregister call. -/
theorem Update_remove_unknown_is_noop (rc : RemoteCaptury α) (s : Source α) (id : Int)
    (n : Nat) (habs : TMap.Find s.haveActors id = none)
    (hrem : s.queuedActorIdsToRemove.items = List.replicate (n + 1) id)
    (hadd : s.queuedActorIds.items = []) (htag : s.queuedARTags.items = []) :
    (Update rc s).haveActors = s.haveActors ∧ (Update rc s).engine = s.engine := by
  by_cases hc : s.liveLinkClient = true
  · have h1 := Update.removePhase_absent s.lock id (n + 1) habs hrem
    rw [Update_present rc s hc, h1]
    unfold Update.addPhase Update.addLoop Update.arTagPhase
    simp [Source.lock, Source.unlock, hadd, htag]
  · have hl : s.lock.liveLinkClient = false := by
      show s.liveLinkClient = false
      simpa using hc
    unfold Update
    simp only [hl, if_true]
    exact ⟨rfl, rfl⟩

/-- Witness for `Update_remove_unknown_is_noop`: two removes buffered for the unregistered
actor 7. -/
theorem Update_remove_unknown_is_noop_witness :
    (Update sampleSession
      { sampleSource with queuedActorIdsToRemove := ⟨15, [7, 7]⟩ }).haveActors
      = sampleSource.haveActors ∧
    (Update sampleSession
      { sampleSource with queuedActorIdsToRemove := ⟨15, [7, 7]⟩ }).engine
      = sampleSource.engine :=
  Update_remove_unknown_is_noop sampleSession
    { sampleSource with queuedActorIdsToRemove := ⟨15, [7, 7]⟩ } 7 1
    (by decide) (by decide) (by decide) (by decide)

end PendingIntents

/-! ## The joint loop of `newPose` -/

section PoseFacts

variable {α : Type} [LinearOrderedField α]

/-- What a completed pass of the joint computation read and produced. -/
theorem newPose.joint_ok (A : Arith α) (actor : CapturyActor α) (once i : Nat)
    (t : CapturyTransform α) (st st' : PoseLoop α) (trafo : FTransform α)
    (h : newPose.joint A actor once i t st = .ok (trafo, st')) :
    ∃ joint poseRot placed,
      TArray.at actor.joints i = .ok joint ∧
      newPose.localRotation (st.globalPoseRotations ++ [eulerToQuat A t.rotation]) joint.parent
        (eulerToQuat A t.rotation) = .ok poseRot ∧
      newPose.place A i t joint poseRot (bindPoseOf A joint.orientation)
        (st.globalOrientations ++ [bindPoseOf A joint.orientation]) st.globalScale
        = .ok placed ∧
      trafo = ⟨flipRotation placed.1, flipTranslation placed.2.1,
        FVector.splat joint.scale.X⟩ ∧
      st' = { st with
        globalOrientations := st.globalOrientations ++ [bindPoseOf A joint.orientation],
        globalPoseRotations := st.globalPoseRotations ++ [eulerToQuat A t.rotation],
        globalScale := st.globalScale ++ [placed.2.2 * joint.scale.X] } := by
  unfold newPose.joint at h
  cases hj : TArray.at actor.joints i with
  | error e => rw [hj] at h; cases h
  | ok joint =>
    rw [hj] at h
    simp only at h
    cases hl : newPose.localRotation (st.globalPoseRotations ++ [eulerToQuat A t.rotation])
        joint.parent (eulerToQuat A t.rotation) with
    | error e => simp [hl] at h
    | ok poseRot =>
      simp only [hl] at h
      cases hb : newPose.logBindPose once i
          (st.globalOrientations ++ [bindPoseOf A joint.orientation]) joint.parent with
      | error e => simp [hb] at h
      | ok u =>
        simp only [hb] at h
        cases hp : newPose.place A i t joint poseRot (bindPoseOf A joint.orientation)
            (st.globalOrientations ++ [bindPoseOf A joint.orientation]) st.globalScale with
        | error e => simp [hp] at h
        | ok placed =>
          simp only [hp, Except.ok.injEq, Prod.mk.injEq] at h
          exact ⟨joint, poseRot, placed, rfl, hl, hp, h.1.symm, h.2.symm⟩

/-- A pass of the joint computation completes when each of its parts does. -/
theorem newPose.joint_of_parts (A : Arith α) (actor : CapturyActor α) (once i : Nat)
    (t : CapturyTransform α) (st : PoseLoop α) (joint : CapturyJoint α) (poseRot : FQuat α)
    (placed : FQuat α × FVector α × α)
    (hj : TArray.at actor.joints i = .ok joint)
    (hl : newPose.localRotation (st.globalPoseRotations ++ [eulerToQuat A t.rotation])
      joint.parent (eulerToQuat A t.rotation) = .ok poseRot)
    (hb : newPose.logBindPose once i
      (st.globalOrientations ++ [bindPoseOf A joint.orientation]) joint.parent = .ok ())
    (hp : newPose.place A i t joint poseRot (bindPoseOf A joint.orientation)
      (st.globalOrientations ++ [bindPoseOf A joint.orientation]) st.globalScale
        = .ok placed) :
    newPose.joint A actor once i t st =
      .ok (⟨flipRotation placed.1, flipTranslation placed.2.1, FVector.splat joint.scale.X⟩,
        { st with
          globalOrientations := st.globalOrientations ++ [bindPoseOf A joint.orientation],
          globalPoseRotations := st.globalPoseRotations ++ [eulerToQuat A t.rotation],
          globalScale := st.globalScale ++ [placed.2.2 * joint.scale.X] }) := by
  unfold newPose.joint
  rw [hj]
  simp only [hl, hb, hp]

/-- A multi-joint pass appends the computed transform to the bone array. -/
theorem newPose.step_multi (A : Arith α) (actor : CapturyActor α) (once i : Nat)
    (t : CapturyTransform α) (st st' : PoseLoop α) (hm : actor.numJoints > 1)
    (h : newPose.step A actor once i t st = .ok st') :
    ∃ trafo stj, newPose.joint A actor once i t st = .ok (trafo, stj) ∧
      st' = { stj with animTransforms := st.animTransforms ++ [trafo] } := by
  unfold newPose.step at h
  cases hj : newPose.joint A actor once i t st with
  | error e => rw [hj] at h; cases h
  | ok r =>
    obtain ⟨trafo, stj⟩ := r
    rw [hj] at h
    simp only [hm, if_true, Except.ok.injEq] at h
    obtain ⟨_, _, _, _, _, _, _, hst⟩ := newPose.joint_ok A actor once i t st stj trafo hj
    refine ⟨trafo, stj, rfl, ?_⟩
    rw [← h, hst]

/-- A one-joint pass stores the computed transform as the single transform. -/
theorem newPose.step_single (A : Arith α) (actor : CapturyActor α) (once i : Nat)
    (t : CapturyTransform α) (st st' : PoseLoop α) (hm : ¬ actor.numJoints > 1)
    (h : newPose.step A actor once i t st = .ok st') :
    ∃ trafo stj, newPose.joint A actor once i t st = .ok (trafo, stj) ∧
      st' = { stj with trafoTransform := trafo } ∧
      st'.animTransforms = st.animTransforms := by
  unfold newPose.step at h
  cases hj : newPose.joint A actor once i t st with
  | error e => rw [hj] at h; cases h
  | ok r =>
    obtain ⟨trafo, stj⟩ := r
    rw [hj] at h
    simp only [hm, if_false, Except.ok.injEq] at h
    obtain ⟨_, _, _, _, _, _, _, hst⟩ := newPose.joint_ok A actor once i t st stj trafo hj
    refine ⟨trafo, stj, rfl, h.symm, ?_⟩
    rw [← h, hst]

end PoseFacts

section PoseLoopFacts

variable {α : Type} [LinearOrderedField α]

/-- The method `newPose` for an Active actor, in terms of its joint loop. -/
theorem newPose_active (A : Arith α) (s : Source α) (actor : CapturyActor α)
    (pose : CapturyPose α) (key : FLiveLinkSubjectKey)
    (hc : s.liveLinkClient = true) (hk : TMap.Find s.haveActors actor.id = some key) :
    newPose A s actor pose =
      match newPose.run A actor s.once pose with
      | .error .invalidParent => some s
      | .error .outOfRange => none
      | .ok st =>
        if actor.numJoints > 1 then
          some (({ s with once := s.once + 1 } : Source α).call (.PushSubjectFrameData key
            (.animation ⟨st.animTransforms, newPose.propVals pose⟩)))
        else
          some (({ s with once := s.once + 1 } : Source α).call (.PushSubjectFrameData key
            (.transform ⟨st.trafoTransform, []⟩))) := by
  have hl : s.lock.liveLinkClient = true := hc
  have hf : TMap.Find s.lock.haveActors actor.id = some key := hk
  unfold newPose
  simp only [hl, hf, Bool.true_eq_false, if_false, Source.unlock_lock]

/-- Running the joint loop on a longer pose: first the front part, then the rest. -/
theorem newPose.loop_append (A : Arith α) (actor : CapturyActor α) (once : Nat)
    (ts1 ts2 : List (CapturyTransform α)) (i : Nat) (st : PoseLoop α) :
    newPose.loop A actor once (ts1 ++ ts2) i st =
      match newPose.loop A actor once ts1 i st with
      | .error e => .error e
      | .ok st1 => newPose.loop A actor once ts2 (i + ts1.length) st1 := by
  induction ts1 generalizing i st with
  | nil => simp [newPose.loop]
  | cons t rest ih =>
    simp only [List.cons_append, newPose.loop, List.length_cons]
    cases hs : newPose.step A actor once i t st with
    | error e => simp
    | ok st1 =>
      show newPose.loop A actor once (rest ++ ts2) (i + 1) st1 = _
      rw [ih]
      have : i + 1 + rest.length = i + (rest.length + 1) := by omega
      rw [this]

/-- The bone array a completed joint loop builds for a skeleton with several joints: one
entry per pass, entry `k` being the transform the joint computation returns in pass `k`. -/
theorem newPose.loop_bones (A : Arith α) (actor : CapturyActor α) (once : Nat)
    (hm : actor.numJoints > 1) (ts : List (CapturyTransform α)) (i : Nat)
    (st st' : PoseLoop α) (h : newPose.loop A actor once ts i st = .ok st') :
    ∃ L, st'.animTransforms = st.animTransforms ++ L ∧ L.length = ts.length ∧
      ∀ k, k < ts.length → ∃ t stk trafo stk',
        ts[k]? = some t ∧
        newPose.loop A actor once (ts.take k) i st = .ok stk ∧
        newPose.joint A actor once (i + k) t stk = .ok (trafo, stk') ∧
        L[k]? = some trafo := by
  induction ts generalizing i st with
  | nil =>
    simp only [newPose.loop, Except.ok.injEq] at h
    exact ⟨[], by simp [h], rfl, by intro k hk; simp at hk⟩
  | cons t rest ih =>
    simp only [newPose.loop] at h
    cases hs : newPose.step A actor once i t st with
    | error e => rw [hs] at h; cases h
    | ok st1 =>
      rw [hs] at h
      simp only at h
      obtain ⟨trafo, stj, hj, hst1⟩ := newPose.step_multi A actor once i t st st1 hm hs
      obtain ⟨_, _, _, _, _, _, _, hstj⟩ := newPose.joint_ok A actor once i t st stj trafo hj
      obtain ⟨L, hL, hlen, hall⟩ := ih (i + 1) st1 h
      refine ⟨trafo :: L, ?_, by simp [hlen], ?_⟩
      · rw [hL, hst1]
        simp
      · intro k hk
        cases k with
        | zero =>
          exact ⟨t, st, trafo, stj, by simp, rfl, hj, by simp⟩
        | succ k =>
          have hk' : k < rest.length := by simpa using hk
          obtain ⟨t', stk, trafo', stk', h1, h2, h3, h4⟩ := hall k hk'
          refine ⟨t', stk, trafo', stk', by simpa using h1, ?_, ?_, by simpa using h4⟩
          · simp only [List.take_succ_cons, newPose.loop, hs]
            exact h2
          · have : i + (k + 1) = i + 1 + k := by omega
            rw [this]
            exact h3

/-- A one-joint actor never gets a bone array. -/
theorem newPose.loop_single (A : Arith α) (actor : CapturyActor α) (once : Nat)
    (hm : ¬ actor.numJoints > 1) (ts : List (CapturyTransform α)) (i : Nat)
    (st st' : PoseLoop α) (h : newPose.loop A actor once ts i st = .ok st') :
    st'.animTransforms = st.animTransforms := by
  induction ts generalizing i st with
  | nil =>
    simp only [newPose.loop, Except.ok.injEq] at h
    rw [h]
  | cons t rest ih =>
    simp only [newPose.loop] at h
    cases hs : newPose.step A actor once i t st with
    | error e => rw [hs] at h; cases h
    | ok st1 =>
      rw [hs] at h
      simp only at h
      obtain ⟨_, _, _, _, h1⟩ := newPose.step_single A actor once i t st st1 hm hs
      rw [ih (i + 1) st1 h, h1]

end PoseLoopFacts

/-! ## Outcomes of `newPose` -/

section PoseClaims

variable {α : Type} [LinearOrderedField α]

/-- C1 fails on the code for a joint that is its own parent: the guard compares the parent
index with the length of `globalPoseRotations` after the joint's own rotation was added, so
`parent = i` passes it.  For `[Hips(-1), Spine(1)]` pass 1 then reads `globalScale[1]` while
`globalScale` holds one entry (the method indexes out of range); for `[Hips(0), Spine(0)]`
the pose is not discarded and one frame is pushed. -/
theorem newPose_self_parent_passes_guard (A : Arith ℚ) :
    newPose.localRotation [eulerToQuat A ⟨0, 0, 0⟩, eulerToQuat A ⟨0, 0, 0⟩] 1
      (eulerToQuat A ⟨0, 0, 0⟩) ≠ .error .invalidParent ∧
    TArray.at ([1] : List ℚ) 1 = .error .outOfRange ∧
    newPose.run A selfParentActor sampleActive.once (zeroPose 2) = .error .outOfRange ∧
    newPose A sampleActive selfParentActor (zeroPose 2) = none ∧
    (newPose A sampleActive rootSelfParentActor (zeroPose 2)).map (fun s => s.engine.length)
      = some (sampleActive.engine.length + 1) := by
  refine ⟨?_, rfl, rfl, rfl, rfl⟩
  intro h
  cases h

/-- C3: for an Active actor with more than one joint and a pose whose joint loop completes,
`newPose` pushes an animation frame whose bone array has `numTransforms + 1` entries when
joint 0 is named "Hips" (entry 0 the synthetic root, entry `k + 1` the transform computed in
pass `k`) and `numTransforms` entries otherwise (entry `k` the transform of pass `k`). -/
theorem newPose_bone_array (A : Arith α) (s : Source α) (actor : CapturyActor α)
    (pose : CapturyPose α) (key : FLiveLinkSubjectKey) (st : PoseLoop α)
    (hc : s.liveLinkClient = true) (hk : TMap.Find s.haveActors actor.id = some key)
    (hm : actor.numJoints > 1)
    (hrun : newPose.run A actor s.once pose = .ok st) :
    ∃ bones : List (FTransform α),
      newPose A s actor pose = some (({ s with once := s.once + 1 } : Source α).call
        (.PushSubjectFrameData key (.animation ⟨bones, newPose.propVals pose⟩))) ∧
      bones.length = pose.numTransforms + (if actor.rootIsHips = true then 1 else 0) ∧
      (actor.rootIsHips = true →
        bones[0]? = some ⟨⟨0, 0, 0, 1⟩, ⟨0, 0, 0⟩, ⟨1, 1, 1⟩⟩) ∧
      ∀ k, k < pose.numTransforms → ∃ t stk trafo stk',
        pose.transforms[k]? = some t ∧
        newPose.loop A actor s.once (pose.transforms.take k) 0 (newPose.start actor)
          = .ok stk ∧
        newPose.joint A actor s.once k t stk = .ok (trafo, stk') ∧
        bones[k + (if actor.rootIsHips = true then 1 else 0)]? = some trafo := by
  obtain ⟨L, hL, hlen, hall⟩ :=
    newPose.loop_bones A actor s.once hm pose.transforms 0 (newPose.start actor) st hrun
  refine ⟨st.animTransforms, ?_, ?_, ?_, ?_⟩
  · rw [newPose_active A s actor pose key hc hk, hrun]
    simp only [hm, if_true]
  · rw [hL]
    by_cases hh : actor.rootIsHips = true
    · simp [newPose.start, hm, hh, hlen, CapturyPose.numTransforms]
    · simp [newPose.start, hh, hlen, CapturyPose.numTransforms]
  · intro hh
    rw [hL]
    simp [newPose.start, hm, hh, rootTransform, FVector.ZeroVector, FVector.OneVector]
  · intro k hkn
    obtain ⟨t, stk, trafo, stk', h1, h2, h3, h4⟩ := hall k hkn
    refine ⟨t, stk, trafo, stk', h1, h2, by simpa using h3, ?_⟩
    rw [hL]
    by_cases hh : actor.rootIsHips = true
    · simp only [newPose.start, hm, hh, and_self, if_true, List.singleton_append]
      rw [List.getElem?_cons_succ]
      exact h4
    · have hf : actor.rootIsHips = false := by simpa using hh
      simp only [newPose.start, hf, Bool.false_eq_true, and_false, if_false, List.nil_append,
        Nat.add_zero]
      exact h4

/-- Witness for `newPose_bone_array`: the sample actor `[Hips, Spine]`, Active, with a pose
of two transforms. -/
theorem newPose_bone_array_witness :
    ∃ bones : List (FTransform ℚ),
      newPose sampleArith sampleActive sampleActor (zeroPose 2)
        = some (({ sampleActive with once := sampleActive.once + 1 } : Source ℚ).call
          (.PushSubjectFrameData ⟨1, "actor"⟩
            (.animation ⟨bones, newPose.propVals (zeroPose 2)⟩))) ∧
      bones.length = (zeroPose 2).numTransforms
        + (if sampleActor.rootIsHips = true then 1 else 0) ∧
      (sampleActor.rootIsHips = true →
        bones[0]? = some ⟨⟨0, 0, 0, 1⟩, ⟨0, 0, 0⟩, ⟨1, 1, 1⟩⟩) ∧
      ∀ k, k < (zeroPose 2).numTransforms → ∃ t stk trafo stk',
        (zeroPose 2).transforms[k]? = some t ∧
        newPose.loop sampleArith sampleActor sampleActive.once ((zeroPose 2).transforms.take k)
          0 (newPose.start sampleActor) = .ok stk ∧
        newPose.joint sampleArith sampleActor sampleActive.once k t stk = .ok (trafo, stk') ∧
        bones[k + (if sampleActor.rootIsHips = true then 1 else 0)]? = some trafo :=
  newPose_bone_array sampleArith sampleActive sampleActor (zeroPose 2) ⟨1, "actor"⟩
    _ (by decide) (by decide) (by decide) rfl

/-- C4, as stated, fails: for an Active one-joint actor whose joint names parent 5, the
guard on the parent index discards the pose and no frame is pushed. -/
theorem one_joint_pose_discarded :
    strayParentProp.numJoints = 1 ∧
    sampleActive.liveLinkClient = true ∧
    TMap.Find sampleActive.haveActors strayParentProp.id = some ⟨1, "actor"⟩ ∧
    newPose sampleArith sampleActive strayParentProp (zeroPose 1) = some sampleActive := by
  exact ⟨rfl, rfl, rfl, rfl⟩

/-- C4 (amended): for an Active one-joint actor and a pose of at most one transform, the
bone array stays empty, and `newPose` pushes exactly one frame, a single rigid transform
frame, unless the pose has a transform and the joint's parent index is 1 or more, in which
case the guard on the parent index discards the pose and nothing is pushed. -/
theorem newPose_one_joint (A : Arith α) (s : Source α) (actor : CapturyActor α)
    (pose : CapturyPose α) (key : FLiveLinkSubjectKey) (joint : CapturyJoint α)
    (hc : s.liveLinkClient = true) (hk : TMap.Find s.haveActors actor.id = some key)
    (h1 : actor.joints = [joint]) (hp : pose.numTransforms ≤ 1) :
    (∀ st, newPose.run A actor s.once pose = .ok st → st.animTransforms = []) ∧
    (if pose.numTransforms = 1 ∧ 1 ≤ joint.parent then
      newPose A s actor pose = some s
    else
      ∃ trafo, newPose A s actor pose
        = some (({ s with once := s.once + 1 } : Source α).call
            (.PushSubjectFrameData key (.transform ⟨trafo, []⟩)))) := by
  have hm : ¬ actor.numJoints > 1 := by simp [CapturyActor.numJoints, h1]
  constructor
  · intro st hst
    rw [newPose.loop_single A actor s.once hm pose.transforms 0 (newPose.start actor) st hst]
    simp [newPose.start, hm]
  · rw [newPose_active A s actor pose key hc hk]
    unfold newPose.run
    cases hts : pose.transforms with
    | nil =>
      have hn : pose.numTransforms = 0 := by simp [CapturyPose.numTransforms, hts]
      simp only [hn, newPose.loop, hm, if_false]
      simp only [Nat.zero_ne_one, false_and, if_false]
      exact ⟨_, rfl⟩
    | cons t rest =>
      have hrest : rest = [] := by
        simp only [CapturyPose.numTransforms, hts, List.length_cons] at hp
        exact List.length_eq_zero.mp (by omega)
      subst hrest
      have hn : pose.numTransforms = 1 := by simp [CapturyPose.numTransforms, hts]
      have hj : TArray.at actor.joints ((0 : Nat) : Int) = .ok joint := by
        rw [h1]; rfl
      by_cases hpar : 1 ≤ joint.parent
      · have hl : newPose.localRotation
            ((newPose.start actor).globalPoseRotations ++ [eulerToQuat A t.rotation])
            joint.parent (eulerToQuat A t.rotation) = .error .invalidParent := by
          have h0 : joint.parent ≥ 0 := by omega
          simp [newPose.localRotation, newPose.start, h0, hpar]
        have hjo : newPose.joint A actor s.once 0 t (newPose.start actor)
            = .error .invalidParent := by
          unfold newPose.joint
          rw [hj]
          simp only [hl]
        simp only [hn, hpar, and_self, if_true, newPose.loop, newPose.step, hjo]
      · have hl : ∃ poseRot, newPose.localRotation
            ((newPose.start actor).globalPoseRotations ++ [eulerToQuat A t.rotation])
            joint.parent (eulerToQuat A t.rotation) = .ok poseRot := by
          by_cases h0 : joint.parent ≥ 0
          · have hz : joint.parent = 0 := by omega
            refine ⟨(eulerToQuat A t.rotation).Inverse.mul (eulerToQuat A t.rotation), ?_⟩
            simp only [newPose.localRotation, newPose.start, hz, List.nil_append,
              List.length_singleton]
            rfl
          · exact ⟨eulerToQuat A t.rotation, by simp only [newPose.localRotation, h0, if_false]⟩
        obtain ⟨poseRot, hl⟩ := hl
        have hjo := newPose.joint_of_parts A actor s.once 0 t (newPose.start actor) joint
          poseRot (((layFlat A).mul poseRot).mul (bindPoseOf A joint.orientation),
            (layFlat A).rotateVector ⟨t.translation.X * scaleToUnreal,
              t.translation.Y * scaleToUnreal, t.translation.Z * scaleToUnreal⟩, 1)
          hj hl (by simp [newPose.logBindPose]) (by simp only [newPose.place, if_true])
        simp only [hn, hpar, and_false, if_false, newPose.loop, newPose.step, hjo, hm]
        exact ⟨_, rfl⟩

/-- Witness for `newPose_one_joint`: a one-joint actor, Active, with a pose of one
transform. -/
theorem newPose_one_joint_witness :
    (∀ st, newPose.run sampleArith sampleProp sampleActive.once (zeroPose 1) = .ok st →
      st.animTransforms = []) ∧
    (if (zeroPose 1).numTransforms = 1 ∧ 1 ≤ (sampleJoint "Hips" (-1) ⟨0, 0, 0⟩).parent then
      newPose sampleArith sampleActive sampleProp (zeroPose 1) = some sampleActive
    else
      ∃ trafo, newPose sampleArith sampleActive sampleProp (zeroPose 1)
        = some (({ sampleActive with once := sampleActive.once + 1 } : Source ℚ).call
            (.PushSubjectFrameData ⟨1, "actor"⟩ (.transform ⟨trafo, []⟩)))) :=
  newPose_one_joint sampleArith sampleActive sampleProp (zeroPose 1) ⟨1, "actor"⟩
    (sampleJoint "Hips" (-1) ⟨0, 0, 0⟩) (by decide) (by decide) rfl (by decide)

end PoseClaims

/-! ## Poses with zero rotations -/

section ZeroPoseFacts

variable {α : Type} [LinearOrderedField α]

theorem TArray.at_of_getElem? {β : Type} (xs : List β) (k : Nat) (x : β)
    (h : xs[k]? = some x) : TArray.at xs (k : Int) = .ok x := by
  simp [TArray.at, TArray.get, h]

theorem TArray.at_of_nonneg {β : Type} (xs : List β) (idx : Int) (x : β) (h0 : 0 ≤ idx)
    (h : xs[idx.toNat]? = some x) : TArray.at xs idx = .ok x := by
  simp [TArray.at, TArray.get, h0, h]

theorem eulerToQuat_zero (A : Arith α) (hsin : A.sin 0 = 0) (hcos : A.cos 0 = 1) :
    eulerToQuat A ⟨0, 0, 0⟩ = FQuat.Identity := by
  simp [eulerToQuat, FQuat.axisAngle, FQuat.mul, FQuat.Identity, hsin, hcos]

theorem FQuat.Identity_Inverse_mul : (FQuat.Identity : FQuat α).Inverse.mul FQuat.Identity
    = FQuat.Identity := by
  simp [FQuat.Inverse, FQuat.mul, FQuat.Identity]

theorem FQuat.mul_Identity (q : FQuat α) : q.mul FQuat.Identity = q := by
  cases q
  simp [FQuat.mul, FQuat.Identity]

/-- One pass of the joint computation over a zero rotation, from arrays in the expected
shape: it completes, emits the expected rotation and leaves the arrays in the expected
shape. -/
theorem newPose.joint_zero (A : Arith α) (hsin : A.sin 0 = 0) (hcos : A.cos 0 = 1)
    (actor : CapturyActor α) (once i : Nat) (t : CapturyTransform α) (st : PoseLoop α)
    (joint : CapturyJoint α) (hinv : ZeroPoseArrays A actor i st)
    (hj : actor.joints[i]? = some joint) (hlt : joint.parent < i)
    (hge : 0 < i → 0 ≤ joint.parent) (hz : t.rotation = ⟨0, 0, 0⟩) :
    ∃ trafo stj, newPose.joint A actor once i t st = .ok (trafo, stj) ∧
      trafo.Rotation = zeroPoseRotation A actor i ∧
      ZeroPoseArrays A actor (i + 1) stj ∧
      stj.animTransforms = st.animTransforms := by
  have he : eulerToQuat A t.rotation = FQuat.Identity := by
    rw [hz]; exact eulerToQuat_zero A hsin hcos
  have hil : i < actor.joints.length := by
    by_contra hcon
    rw [List.getElem?_eq_none (by omega)] at hj
    cases hj
  have hjat : TArray.at actor.joints (i : Int) = .ok joint :=
    TArray.at_of_getElem? _ _ _ hj
  -- the local rotation is the identity
  have hl : newPose.localRotation (st.globalPoseRotations ++ [eulerToQuat A t.rotation])
      joint.parent (eulerToQuat A t.rotation) = .ok FQuat.Identity := by
    rw [he, hinv.poseRotations]
    unfold newPose.localRotation
    by_cases h0 : joint.parent ≥ 0
    · have hnot : ¬ joint.parent ≥
          ((List.replicate i (FQuat.Identity : FQuat α) ++ [FQuat.Identity]).length : Int) := by
        simp only [List.length_append, List.length_replicate, List.length_singleton]
        omega
      simp only [h0, hnot, if_true, if_false]
      have hget : (List.replicate i (FQuat.Identity : FQuat α) ++ [FQuat.Identity])[
          joint.parent.toNat]? = some FQuat.Identity := by
        have : joint.parent.toNat < i := by omega
        rw [List.getElem?_append_left (by simpa using this)]
        simp [List.getElem?_replicate, this]
      rw [TArray.at_of_nonneg _ _ _ h0 hget]
      simp only [FQuat.Identity_Inverse_mul]
    · simp only [h0, if_false]
  -- the orientations after the joint's own bind pose was added
  have hgo : st.globalOrientations ++ [bindPoseOf A joint.orientation]
      = (actor.joints.take (i + 1)).map (fun j => bindPoseOf A j.orientation) := by
    rw [hinv.orientations, List.take_succ, hj]
    simp
  have hparent : 0 < i → (st.globalOrientations ++ [bindPoseOf A joint.orientation])[
      joint.parent.toNat]? = some (actor.bindPose A joint.parent.toNat) := by
    intro hi
    have hp0 := hge hi
    have hpl : joint.parent.toNat < i := by omega
    rw [hgo, List.getElem?_map, List.getElem?_take_of_lt (by omega)]
    unfold CapturyActor.bindPose
    have : joint.parent.toNat < actor.joints.length := by omega
    rw [List.getElem?_eq_getElem this]
    rfl
  have hb : newPose.logBindPose once i
      (st.globalOrientations ++ [bindPoseOf A joint.orientation]) joint.parent = .ok () := by
    unfold newPose.logBindPose
    by_cases hcond : once < 3 ∧ i ≠ 0
    · have hi : 0 < i := Nat.pos_of_ne_zero hcond.2
      simp only [hcond, and_self, if_true, ne_eq, not_false_eq_true]
      rw [TArray.at_of_nonneg _ _ _ (hge hi) (hparent hi)]
    · simp only [hcond, if_false]
  by_cases hi0 : i = 0
  · -- the root
    subst hi0
    have hp : newPose.place A 0 t joint FQuat.Identity (bindPoseOf A joint.orientation)
        (st.globalOrientations ++ [bindPoseOf A joint.orientation]) st.globalScale
        = .ok ((((layFlat A).mul FQuat.Identity).mul (bindPoseOf A joint.orientation)),
            (layFlat A).rotateVector ⟨t.translation.X * scaleToUnreal,
              t.translation.Y * scaleToUnreal, t.translation.Z * scaleToUnreal⟩, 1) := by
      simp only [newPose.place, if_true]
    refine ⟨_, _, newPose.joint_of_parts A actor once 0 t st joint _ _ hjat hl hb hp, ?_, ?_, ?_⟩
    · simp only [zeroPoseRotation, hj, if_true, FQuat.mul_Identity]
    · exact ⟨by rw [he, hinv.poseRotations, List.replicate_succ'], hgo,
        by simp [hinv.scales]⟩
    · rfl
  · -- any other joint
    have hi : 0 < i := Nat.pos_of_ne_zero hi0
    have hp0 := hge hi
    have hpl : joint.parent.toNat < i := by omega
    have hsc : ∃ ps, st.globalScale[joint.parent.toNat]? = some ps := by
      have : joint.parent.toNat < st.globalScale.length := by rw [hinv.scales]; exact hpl
      exact ⟨_, List.getElem?_eq_getElem this⟩
    obtain ⟨ps, hps⟩ := hsc
    have hown : (st.globalOrientations ++ [bindPoseOf A joint.orientation])[i]?
        = some (bindPoseOf A joint.orientation) := by
      have hlen : st.globalOrientations.length = i := by
        rw [hinv.orientations]; simp; omega
      rw [List.getElem?_append_right (by omega), hlen]
      simp
    have hp : newPose.place A i t joint FQuat.Identity (bindPoseOf A joint.orientation)
        (st.globalOrientations ++ [bindPoseOf A joint.orientation]) st.globalScale
        = .ok ((((((actor.bindPose A joint.parent.toNat).Inverse.mul
            (bindPoseOf A joint.orientation)).mul
              (bindPoseOf A joint.orientation).Inverse).mul FQuat.Identity).mul
                (bindPoseOf A joint.orientation)),
            (actor.bindPose A joint.parent.toNat).Inverse.rotateVector
              ⟨joint.offset.X * scaleToUnreal / ps, joint.offset.Y * scaleToUnreal / ps,
                joint.offset.Z * scaleToUnreal / ps⟩, ps) := by
      simp only [newPose.place, hi0, if_false]
      rw [TArray.at_of_nonneg _ _ _ hp0 hps]
      simp only
      rw [TArray.at_of_nonneg _ _ _ hp0 (hparent hi)]
      simp only
      rw [TArray.at_of_getElem? _ _ _ hown]
    refine ⟨_, _, newPose.joint_of_parts A actor once i t st joint _ _ hjat hl hb hp, ?_, ?_, ?_⟩
    · simp only [zeroPoseRotation, hj, hi0, if_false, FQuat.mul_Identity]
    · exact ⟨by rw [he, hinv.poseRotations, List.replicate_succ'], hgo,
        by simp [hinv.scales]⟩
    · rfl

/-- The joint loop over zero rotations, from arrays in the expected shape. -/
theorem newPose.loop_zero (A : Arith α) (hsin : A.sin 0 = 0) (hcos : A.cos 0 = 1)
    (actor : CapturyActor α) (once : Nat) (hm : actor.numJoints > 1)
    (hwf : actor.wellFormed) (ts : List (CapturyTransform α)) (i : Nat) (st : PoseLoop α)
    (hinv : ZeroPoseArrays A actor i st) (hn : i + ts.length ≤ actor.numJoints)
    (hz : ∀ t ∈ ts, t.rotation = ⟨0, 0, 0⟩) :
    ∃ st', newPose.loop A actor once ts i st = .ok st' ∧
      st'.animTransforms.map (fun b => b.Rotation)
        = st.animTransforms.map (fun b => b.Rotation)
          ++ (List.range' i ts.length).map (zeroPoseRotation A actor) := by
  induction ts generalizing i st with
  | nil => exact ⟨st, rfl, by simp⟩
  | cons t rest ih =>
    have hil : i < actor.joints.length := by
      simp only [List.length_cons, CapturyActor.numJoints] at hn; omega
    have hj : actor.joints[i]? = some actor.joints[i] := List.getElem?_eq_getElem hil
    obtain ⟨hlt, hge⟩ := hwf i _ hj
    obtain ⟨trafo, stj, hjo, hrot, hinv', hanim⟩ :=
      newPose.joint_zero A hsin hcos actor once i t st _ hinv hj hlt hge
        (hz t (List.mem_cons_self _ _))
    have hstep : newPose.step A actor once i t st
        = .ok { stj with animTransforms := stj.animTransforms ++ [trafo] } := by
      simp only [newPose.step, hjo, hm, if_true]
    have hinv1 : ZeroPoseArrays A actor (i + 1)
        { stj with animTransforms := stj.animTransforms ++ [trafo] } :=
      ⟨hinv'.poseRotations, hinv'.orientations, hinv'.scales⟩
    obtain ⟨st', hloop, hres⟩ := ih (i + 1) _ hinv1
      (by simp only [List.length_cons] at hn; omega)
      (fun t' ht' => hz t' (List.mem_cons_of_mem _ ht'))
    refine ⟨st', ?_, ?_⟩
    · simp only [newPose.loop, hstep]
      exact hloop
    · rw [hres]
      simp only [hanim, List.map_append, List.map_cons, List.map_nil, hrot, List.length_cons,
        List.range'_succ, List.append_assoc, List.singleton_append]

/-- The bone rotations `newPose` computes for a pose whose raw rotations are all zero. -/
theorem newPose.run_zero (A : Arith α) (hsin : A.sin 0 = 0) (hcos : A.cos 0 = 1)
    (actor : CapturyActor α) (once : Nat) (pose : CapturyPose α)
    (hm : actor.numJoints > 1) (hwf : actor.wellFormed)
    (hn : pose.numTransforms ≤ actor.numJoints)
    (hz : ∀ t ∈ pose.transforms, t.rotation = ⟨0, 0, 0⟩) :
    ∃ st, newPose.run A actor once pose = .ok st ∧
      ∀ k, k < pose.numTransforms →
        ∃ bone, st.animTransforms[k + (if actor.rootIsHips = true then 1 else 0)]? = some bone ∧
          bone.Rotation = zeroPoseRotation A actor k := by
  have hinv : ZeroPoseArrays A actor 0 (newPose.start actor) := ⟨rfl, by simp [newPose.start],
    rfl⟩
  obtain ⟨st, hrun, hrot⟩ := newPose.loop_zero A hsin hcos actor once hm hwf pose.transforms 0
    (newPose.start actor) hinv (by simpa [CapturyPose.numTransforms] using hn) hz
  refine ⟨st, hrun, ?_⟩
  intro k hk
  have hk' : k < pose.transforms.length := hk
  have hget : (st.animTransforms.map (fun b => b.Rotation))[
      k + (if actor.rootIsHips = true then 1 else 0)]? = some (zeroPoseRotation A actor k) := by
    rw [hrot]
    by_cases hh : actor.rootIsHips = true
    · simp only [newPose.start, hm, hh, and_self, if_true, List.map_cons, List.map_nil,
        List.singleton_append]
      rw [List.getElem?_cons_succ, List.getElem?_map, List.getElem?_range' _ _ hk']
      simp
    · have hf : actor.rootIsHips = false := by simpa using hh
      simp only [newPose.start, hf, Bool.false_eq_true, and_false, if_false, List.map_nil,
        List.nil_append, Nat.add_zero]
      rw [List.getElem?_map, List.getElem?_range' _ _ hk']
      simp
  rw [List.getElem?_map] at hget
  cases hb : st.animTransforms[k + (if actor.rootIsHips = true then 1 else 0)]? with
  | none => rw [hb] at hget; cases hget
  | some bone =>
    rw [hb] at hget
    simp only [Option.map_some', Option.some.injEq] at hget
    exact ⟨bone, rfl, hget⟩

/-- Multiplying by the inverse of a quaternion and by the quaternion again scales by its
squared norm. -/
theorem FQuat.mul_Inverse_mul (r b : FQuat α) :
    (r.mul b.Inverse).mul b
      = ⟨b.normSq * r.X, b.normSq * r.Y, b.normSq * r.Z, b.normSq * r.W⟩ := by
  simp only [FQuat.mul, FQuat.Inverse, FQuat.normSq, FQuat.mk.injEq]
  refine ⟨?_, ?_, ?_, ?_⟩ <;> ring

theorem FQuat.mul_Inverse_mul_unit (r b : FQuat α) (h : b.normSq = 1) :
    (r.mul b.Inverse).mul b = r := by
  rw [FQuat.mul_Inverse_mul, h]
  cases r
  simp

end ZeroPoseFacts

section ZeroPoseClaims

variable {α : Type} [LinearOrderedField α]

theorem scenarioActor_wellFormed : scenarioActor.wellFormed := by
  intro i joint h
  match i with
  | 0 =>
    simp only [scenarioActor, List.getElem?_cons_zero, Option.some.injEq] at h
    subst h
    exact ⟨by norm_num, by intro h0; exact absurd h0 (by norm_num)⟩
  | 1 =>
    simp only [scenarioActor, List.getElem?_cons_succ, List.getElem?_cons_zero,
      Option.some.injEq] at h
    subst h
    exact ⟨by norm_num, by intro _; norm_num⟩
  | n + 2 =>
    simp [scenarioActor] at h

/-- C2, as stated, fails: for the skeleton `[Hips(-1), Spine(0)]` with zero bind
orientations and a pose with all raw rotations zero, over the reals, the rotation `newPose`
emits for Hips has the X component `sin(45·DEG2RADf) ≠ 0`; it is neither `(0,0,0,1)` nor
`(0,0,0,-1)`. -/
theorem zero_pose_hips_rotation_not_identity :
    ∃ bones hips,
      newPose ⟨Real.sqrt, Real.sin, Real.cos⟩ scenarioSource scenarioActor scenarioPose
        = some (({ scenarioSource with once := scenarioSource.once + 1 } : Source ℝ).call
            (.PushSubjectFrameData ⟨1, "actor"⟩
              (.animation ⟨bones, newPose.propVals scenarioPose⟩))) ∧
      bones[1]? = some hips ∧
      hips.Rotation ≠ ⟨0, 0, 0, 1⟩ ∧ hips.Rotation ≠ ⟨0, 0, 0, -1⟩ := by
  obtain ⟨st, hrun, hbones⟩ := newPose.run_zero ⟨Real.sqrt, Real.sin, Real.cos⟩
    Real.sin_zero Real.cos_zero scenarioActor scenarioSource.once scenarioPose (by decide)
    scenarioActor_wellFormed (by decide) (by
      intro t ht
      simp only [scenarioPose, List.mem_cons, List.mem_singleton, List.not_mem_nil,
        or_false, or_self] at ht
      rw [ht])
  obtain ⟨hips, hget, hrot⟩ := hbones 0 (by decide)
  have hx : hips.Rotation.X
      = Real.sin (1 / 2 * (90 * (174532925199432958 / 10000000000000000000))) := by
    rw [hrot]
    simp [zeroPoseRotation, scenarioActor, flipRotation, layFlat, FQuat.axisAngle, FQuat.mul,
      bindPoseOf, DEG2RADf]
  have hpos : 0 < Real.sin (1 / 2 * (90 * (174532925199432958 / 10000000000000000000))) := by
    apply Real.sin_pos_of_pos_of_lt_pi
    · norm_num
    · have := Real.pi_gt_three
      norm_num
      linarith
  refine ⟨st.animTransforms, hips, ?_, ?_, ?_, ?_⟩
  · rw [newPose_active _ scenarioSource scenarioActor scenarioPose ⟨1, "actor"⟩ rfl rfl, hrun]
    rfl
  · exact hget
  · intro h
    rw [h] at hx
    simp only at hx
    rw [← hx] at hpos
    exact lt_irrefl _ hpos
  · intro h
    rw [h] at hx
    simp only at hx
    rw [← hx] at hpos
    exact lt_irrefl _ hpos

/-- C2 (amended): for an Active actor with a well-formed skeleton of more than one joint
(joint 0 the only root, every other joint's parent an earlier joint), a pose of at most that
many transforms whose raw rotations are all zero, and `sin 0 = 0`, `cos 0 = 1`: `newPose`
pushes an animation frame in which the rotation of joint `k` is `zeroPoseRotation`, i.e. the
handedness-corrected lay-flat rotation times the bind pose for the root, and for any other
joint the handedness-corrected bind pose relative to the parent, times the inverse of the
joint's bind pose, times the bind pose; when the bind pose has unit norm this is the
handedness-corrected bind pose relative to the parent.  It is not the identity in general. -/
theorem newPose_zero_pose_rotations (A : Arith α) (hsin : A.sin 0 = 0) (hcos : A.cos 0 = 1)
    (s : Source α) (actor : CapturyActor α) (pose : CapturyPose α)
    (key : FLiveLinkSubjectKey)
    (hc : s.liveLinkClient = true) (hk : TMap.Find s.haveActors actor.id = some key)
    (hm : actor.numJoints > 1) (hwf : actor.wellFormed)
    (hn : pose.numTransforms ≤ actor.numJoints)
    (hz : ∀ t ∈ pose.transforms, t.rotation = ⟨0, 0, 0⟩) :
    ∃ bones : List (FTransform α),
      newPose A s actor pose = some (({ s with once := s.once + 1 } : Source α).call
        (.PushSubjectFrameData key (.animation ⟨bones, newPose.propVals pose⟩))) ∧
      ∀ k, k < pose.numTransforms →
        ∃ bone, bones[k + (if actor.rootIsHips = true then 1 else 0)]? = some bone ∧
          bone.Rotation = zeroPoseRotation A actor k ∧
          ∀ joint, actor.joints[k]? = some joint → 0 < k →
            (bindPoseOf A joint.orientation).normSq = 1 →
            bone.Rotation = flipRotation
              ((actor.bindPose A joint.parent.toNat).Inverse.mul
                (bindPoseOf A joint.orientation)) := by
  obtain ⟨st, hrun, hbones⟩ := newPose.run_zero A hsin hcos actor s.once pose hm hwf hn hz
  refine ⟨st.animTransforms, ?_, ?_⟩
  · rw [newPose_active A s actor pose key hc hk, hrun]
    simp only [hm, if_true]
  · intro k hkn
    obtain ⟨bone, hget, hrot⟩ := hbones k hkn
    refine ⟨bone, hget, hrot, ?_⟩
    intro joint hj hk0 hunit
    have hne : k ≠ 0 := by omega
    rw [hrot]
    simp only [zeroPoseRotation, hj, hne, if_false]
    rw [FQuat.mul_Inverse_mul_unit _ _ hunit]

/-- Witness for `newPose_zero_pose_rotations`: the skeleton `[Hips, Spine]` over the reals
with the real square root, sine and cosine, Active, with a pose of two zero transforms. -/
theorem newPose_zero_pose_rotations_witness :
    ∃ bones : List (FTransform ℝ),
      newPose ⟨Real.sqrt, Real.sin, Real.cos⟩ scenarioSource scenarioActor scenarioPose
        = some (({ scenarioSource with once := scenarioSource.once + 1 } : Source ℝ).call
          (.PushSubjectFrameData ⟨1, "actor"⟩
            (.animation ⟨bones, newPose.propVals scenarioPose⟩))) ∧
      ∀ k, k < scenarioPose.numTransforms →
        ∃ bone, bones[k + (if scenarioActor.rootIsHips = true then 1 else 0)]? = some bone ∧
          bone.Rotation = zeroPoseRotation ⟨Real.sqrt, Real.sin, Real.cos⟩ scenarioActor k ∧
          ∀ joint, scenarioActor.joints[k]? = some joint → 0 < k →
            (bindPoseOf ⟨Real.sqrt, Real.sin, Real.cos⟩ joint.orientation).normSq = 1 →
            bone.Rotation = flipRotation
              ((scenarioActor.bindPose ⟨Real.sqrt, Real.sin, Real.cos⟩
                joint.parent.toNat).Inverse.mul
                (bindPoseOf ⟨Real.sqrt, Real.sin, Real.cos⟩ joint.orientation)) :=
  newPose_zero_pose_rotations ⟨Real.sqrt, Real.sin, Real.cos⟩ Real.sin_zero Real.cos_zero
    scenarioSource scenarioActor scenarioPose ⟨1, "actor"⟩ rfl rfl (by decide)
    scenarioActor_wellFormed (by decide)
    (by
      intro t ht
      simp only [scenarioPose, List.mem_cons, List.mem_singleton, List.not_mem_nil,
        or_false, or_self] at ht
      rw [ht])

end ZeroPoseClaims

/-! ## Notifications for unknown actors, the handedness correction, the hold depth -/

section Notifications

variable {α : Type}

/-- C11: for an actor identifier that is not in the registry, `actorChanged` with mode
stopped or deleted returns the state it was given: the registry, the add queue, the remove
queue, the AR-tag queue and the engine log are unchanged. -/
theorem actorChanged_stop_unknown_is_noop (s : Source α) (id : Int)
    (mode : CapturyActorStatus) (habs : TMap.Find s.haveActors id = none)
    (hmode : mode = .ACTOR_STOPPED ∨ mode = .ACTOR_DELETED) :
    actorChanged s id mode = s ∧ s.sameLifecycle (actorChanged s id mode) := by
  have h : actorChanged s id mode = s := by
    rw [actorChanged_unknown s id mode habs]
    simp only [hmode, if_true]
  rw [h]
  exact ⟨rfl, rfl, rfl, rfl, rfl, rfl⟩

/-- Witness for `actorChanged_stop_unknown_is_noop`: a stopped notification for actor 7 on
the sample source, where nothing is registered. -/
theorem actorChanged_stop_unknown_is_noop_witness :
    actorChanged sampleSource 7 .ACTOR_STOPPED = sampleSource ∧
    sampleSource.sameLifecycle (actorChanged sampleSource 7 .ACTOR_STOPPED) :=
  actorChanged_stop_unknown_is_noop sampleSource 7 .ACTOR_STOPPED (by decide) (by decide)

/-- C17 fails on the code: `Update` returns with the hold depth it was entered with only
when the client is present; with a null client it returns right after `mutx.Lock()`, one
level deeper. -/
theorem Update_hold_depth (rc : RemoteCaptury α) (s : Source α) :
    (Update rc s).mutxDepth
      = if s.liveLinkClient = true then s.mutxDepth else s.mutxDepth + 1 := by
  by_cases hc : s.liveLinkClient = true
  · simp only [hc, if_true]
    rw [Update_present rc s hc]
    have h1 := Update.removePhase_fixed s.lock
    have h2 := Update.addPhase_fixed rc (Update.removePhase s.lock)
    have h3 : (Update.arTagPhase (Update.addPhase rc (Update.removePhase s.lock)).unlock).mutxDepth
        = (Update.addPhase rc (Update.removePhase s.lock)).unlock.mutxDepth := by
      unfold Update.arTagPhase
      exact (Source.client_of_fixed (Update.arTagLoop_fixed _ _)).2.1
    rw [h3]
    show (Update.addPhase rc (Update.removePhase s.lock)).mutxDepth - 1 = _
    rw [(Source.client_of_fixed h2).2.1, (Source.client_of_fixed h1.1).2.1]
    rfl
  · have hl : s.lock.liveLinkClient = false := by
      show s.liveLinkClient = false
      simpa using hc
    simp only [hc, if_false]
    unfold Update
    simp only [hl, if_true]
    rfl

end Notifications

section Handedness

variable {α : Type} [LinearOrderedField α]

/-- C15: the handedness correction of `newPose` and `arTagDetected` negates the Y and W
components of the rotation and the Y component of the translation, leaves the other
components untouched, and applied twice returns the original rotation and translation;
every transform a pass of the joint loop of `newPose` returns, and every transform
`arTagDetected` pushes for a registered tag, carries the corrected rotation and
translation. -/
theorem handedness_correction_involution (A : Arith α) (rot : FQuat α) (trans : FVector α) :
    flipRotation (flipRotation rot) = rot ∧
    flipTranslation (flipTranslation trans) = trans ∧
    flipRotation rot = ⟨rot.X, -rot.Y, rot.Z, -rot.W⟩ ∧
    flipTranslation trans = ⟨trans.X, -trans.Y, trans.Z⟩ ∧
    (∀ (actor : CapturyActor α) (once i : Nat) (t : CapturyTransform α) (st st' : PoseLoop α)
        (trafo : FTransform α), newPose.joint A actor once i t st = .ok (trafo, st') →
      ∃ r v, trafo.Rotation = flipRotation r ∧ trafo.Translation = flipTranslation v) ∧
    (∀ (s : Source α) (tag : CapturyARTag α) (key : FLiveLinkSubjectKey),
      TMap.Find s.haveActors tag.id = some key →
      ∃ r v, arTagDetected.step A s tag
        = s.call (.PushSubjectFrameData key
            (.transform ⟨⟨flipRotation r, flipTranslation v, FVector.OneVector⟩, []⟩))) := by
  refine ⟨?_, ?_, rfl, rfl, ?_, ?_⟩
  · cases rot
    simp [flipRotation]
  · cases trans
    simp [flipTranslation]
  · intro actor once i t st st' trafo h
    obtain ⟨joint, poseRot, placed, _, _, _, htrafo, _⟩ :=
      newPose.joint_ok A actor once i t st st' trafo h
    exact ⟨placed.1, placed.2.1, by rw [htrafo], by rw [htrafo]⟩
  · intro s tag key hk
    have hk' : TMap.Find s.lock.haveActors tag.id = some key := hk
    refine ⟨(layFlat A).mul (eulerToQuat A tag.transform.rotation),
      (layFlat A).rotateVector ⟨tag.transform.translation.X * scaleToUnreal,
        tag.transform.translation.Y * scaleToUnreal,
        tag.transform.translation.Z * scaleToUnreal⟩, ?_⟩
    unfold arTagDetected.step
    simp only [hk', Source.unlock_lock]

end Handedness

/-! ## The frame `newPose` pushes against the static skeleton -/

theorem setupSkeletonDefinition_lengths {β : Type} (actor : CapturyActor β) :
    (setupSkeletonDefinition actor).boneNames.length
      = actor.numJoints + (if actor.rootIsHips = true then 1 else 0) ∧
    (setupSkeletonDefinition actor).boneParents.length
      = actor.numJoints + (if actor.rootIsHips = true then 1 else 0) ∧
    (setupSkeletonDefinition actor).propertyNames.length = actor.numBlendShapes := by
  unfold setupSkeletonDefinition
  by_cases hh : actor.rootIsHips = true
  · simp [FLiveLinkStaticData.boneNames, FLiveLinkStaticData.boneParents,
      FLiveLinkStaticData.propertyNames, hh, CapturyActor.numJoints,
      CapturyActor.numBlendShapes]
  · simp [FLiveLinkStaticData.boneNames, FLiveLinkStaticData.boneParents,
      FLiveLinkStaticData.propertyNames, hh, CapturyActor.numJoints,
      CapturyActor.numBlendShapes]

section FrameShape

variable {α : Type} [LinearOrderedField α]

theorem newPose.propVals_eq (pose : CapturyPose α) :
    newPose.propVals pose = pose.blendShapeActivations := by
  unfold newPose.propVals
  split
  · rfl
  · rename_i h
    have : pose.blendShapeActivations.length = 0 := by
      simpa [CapturyPose.numBlendShapes] using h
    exact (List.length_eq_zero.mp this).symm

/-- The frame `newPose` pushes for an Active actor whose joint loop completes. -/
theorem newPose_pushes (A : Arith α) (s : Source α) (actor : CapturyActor α)
    (pose : CapturyPose α) (key : FLiveLinkSubjectKey) (st : PoseLoop α)
    (hc : s.liveLinkClient = true) (hk : TMap.Find s.haveActors actor.id = some key)
    (hrun : newPose.run A actor s.once pose = .ok st) :
    newPose A s actor pose =
      if actor.numJoints > 1 then
        some (({ s with once := s.once + 1 } : Source α).call (.PushSubjectFrameData key
          (.animation ⟨st.animTransforms, pose.blendShapeActivations⟩)))
      else
        some (({ s with once := s.once + 1 } : Source α).call (.PushSubjectFrameData key
          (.transform ⟨st.trafoTransform, []⟩))) := by
  rw [newPose_active A s actor pose key hc hk, hrun, newPose.propVals_eq]

/-- C13, as stated, fails: for the sample actor `[Hips, Spine]`, which has no blend-shape
channel, and a pose of two transforms that carries one activation, `newPose` emits the
weight vector `[1]`, of length 1, while the skeleton's channel list is empty. -/
theorem blend_weights_follow_the_pose :
    blendPose.numTransforms = sampleActor.numJoints ∧
    (setupSkeletonDefinition sampleActor).propertyNames = [] ∧
    ∃ bones, newPose sampleArith sampleActive sampleActor blendPose
      = some (({ sampleActive with once := sampleActive.once + 1 } : Source ℚ).call
          (.PushSubjectFrameData ⟨1, "actor"⟩ (.animation ⟨bones, [1]⟩))) := by
  refine ⟨rfl, rfl, ?_⟩
  cases hrun : newPose.run sampleArith sampleActor sampleActive.once blendPose with
  | error e =>
    exfalso
    have : newPose.run sampleArith sampleActor sampleActive.once blendPose
        = newPose.run sampleArith sampleActor sampleActive.once (zeroPose 2) := rfl
    rw [this] at hrun
    have h2 : ∃ st, newPose.run sampleArith sampleActor sampleActive.once (zeroPose 2)
        = .ok st := ⟨_, rfl⟩
    obtain ⟨st, hst⟩ := h2
    rw [hst] at hrun
    cases hrun
  | ok st =>
    refine ⟨st.animTransforms, ?_⟩
    rw [newPose_pushes sampleArith sampleActive sampleActor blendPose ⟨1, "actor"⟩ st
      (by decide) (by decide) hrun]
    rfl

/-- C13 (amended): for an Active actor and a pose whose joint loop completes, the frame
`newPose` pushes for an actor with more than one joint carries the pose's blend-shape
activations as its weight vector, in the pose's order; the vector has the length of the
skeleton's channel list (the property names built by `setupSkeletonDefinition`, one per
blend shape of the actor) exactly when the pose's blend-shape count equals the actor's.
For an actor with one joint the pushed transform frame carries no weights. -/
theorem newPose_blend_shape_weights (A : Arith α) (s : Source α) (actor : CapturyActor α)
    (pose : CapturyPose α) (key : FLiveLinkSubjectKey) (st : PoseLoop α)
    (hc : s.liveLinkClient = true) (hk : TMap.Find s.haveActors actor.id = some key)
    (hrun : newPose.run A actor s.once pose = .ok st) :
    (newPose A s actor pose =
      if actor.numJoints > 1 then
        some (({ s with once := s.once + 1 } : Source α).call (.PushSubjectFrameData key
          (.animation ⟨st.animTransforms, pose.blendShapeActivations⟩)))
      else
        some (({ s with once := s.once + 1 } : Source α).call (.PushSubjectFrameData key
          (.transform ⟨st.trafoTransform, []⟩)))) ∧
    (setupSkeletonDefinition actor).propertyNames.length = actor.numBlendShapes ∧
    (pose.blendShapeActivations.length = (setupSkeletonDefinition actor).propertyNames.length
      ↔ pose.numBlendShapes = actor.numBlendShapes) := by
  have hlen := (setupSkeletonDefinition_lengths actor).2.2
  refine ⟨newPose_pushes A s actor pose key st hc hk hrun, hlen, ?_⟩
  rw [hlen]
  rfl

/-- Witness for `newPose_blend_shape_weights`: the sample actor, Active, with the pose that
carries one activation. -/
theorem newPose_blend_shape_weights_witness :
    ∃ st, newPose.run sampleArith sampleActor sampleActive.once blendPose = .ok st ∧
    (newPose sampleArith sampleActive sampleActor blendPose =
      if sampleActor.numJoints > 1 then
        some (({ sampleActive with once := sampleActive.once + 1 } : Source ℚ).call
          (.PushSubjectFrameData ⟨1, "actor"⟩
            (.animation ⟨st.animTransforms, blendPose.blendShapeActivations⟩)))
      else
        some (({ sampleActive with once := sampleActive.once + 1 } : Source ℚ).call
          (.PushSubjectFrameData ⟨1, "actor"⟩ (.transform ⟨st.trafoTransform, []⟩)))) ∧
    (setupSkeletonDefinition sampleActor).propertyNames.length
      = sampleActor.numBlendShapes ∧
    (blendPose.blendShapeActivations.length
        = (setupSkeletonDefinition sampleActor).propertyNames.length
      ↔ blendPose.numBlendShapes = sampleActor.numBlendShapes) :=
  ⟨_, rfl, newPose_blend_shape_weights sampleArith sampleActive sampleActor blendPose
    ⟨1, "actor"⟩ _ (by decide) (by decide) rfl⟩

/-- C18: for an Active actor with more than one joint and a pose with as many transforms as
the actor has joints whose joint loop completes, the bone array of the frame `newPose`
pushes has as many entries as the static skeleton built by `setupSkeletonDefinition` has
bone names and bone parents: the joint count plus one when joint 0 is named "Hips", the
joint count otherwise. -/
theorem newPose_bone_count_matches_skeleton (A : Arith α) (s : Source α)
    (actor : CapturyActor α) (pose : CapturyPose α) (key : FLiveLinkSubjectKey)
    (st : PoseLoop α)
    (hc : s.liveLinkClient = true) (hk : TMap.Find s.haveActors actor.id = some key)
    (hm : actor.numJoints > 1) (hn : pose.numTransforms = actor.numJoints)
    (hrun : newPose.run A actor s.once pose = .ok st) :
    ∃ bones : List (FTransform α),
      newPose A s actor pose = some (({ s with once := s.once + 1 } : Source α).call
        (.PushSubjectFrameData key (.animation ⟨bones, pose.blendShapeActivations⟩))) ∧
      bones.length = (setupSkeletonDefinition actor).boneNames.length ∧
      bones.length = (setupSkeletonDefinition actor).boneParents.length ∧
      bones.length = actor.numJoints + (if actor.rootIsHips = true then 1 else 0) := by
  obtain ⟨L, hL, hlen, _⟩ :=
    newPose.loop_bones A actor s.once hm pose.transforms 0 (newPose.start actor) st hrun
  have hcount : st.animTransforms.length
      = actor.numJoints + (if actor.rootIsHips = true then 1 else 0) := by
    rw [hL, ← hn]
    by_cases hh : actor.rootIsHips = true
    · simp [newPose.start, hm, hh, hlen, CapturyPose.numTransforms]
    · simp [newPose.start, hh, hlen, CapturyPose.numTransforms]
  have hs := setupSkeletonDefinition_lengths actor
  refine ⟨st.animTransforms, ?_, ?_, ?_, hcount⟩
  · rw [newPose_pushes A s actor pose key st hc hk hrun]
    simp only [hm, if_true]
  · rw [hcount, hs.1]
  · rw [hcount, hs.2.1]

/-- Witness for `newPose_bone_count_matches_skeleton`: the sample actor `[Hips, Spine]`,
Active, with a pose of two transforms; three bones. -/
theorem newPose_bone_count_matches_skeleton_witness :
    ∃ bones : List (FTransform ℚ),
      newPose sampleArith sampleActive sampleActor (zeroPose 2)
        = some (({ sampleActive with once := sampleActive.once + 1 } : Source ℚ).call
          (.PushSubjectFrameData ⟨1, "actor"⟩
            (.animation ⟨bones, (zeroPose 2).blendShapeActivations⟩))) ∧
      bones.length = (setupSkeletonDefinition sampleActor).boneNames.length ∧
      bones.length = (setupSkeletonDefinition sampleActor).boneParents.length ∧
      bones.length = sampleActor.numJoints + (if sampleActor.rootIsHips = true then 1 else 0) :=
  newPose_bone_count_matches_skeleton sampleArith sampleActive sampleActor (zeroPose 2)
    ⟨1, "actor"⟩ _ (by decide) (by decide) (by decide) (by decide) rfl

end FrameShape

/-! ## The root translation -/

section RootTranslationFacts

variable {α : Type} [LinearOrderedField α]

theorem rootTranslation_formula (A : Arith α) (u : FVector α) :
    rootTranslation A u =
      ⟨u.X * (1 / 10),
       -((1 - 2 * (A.sin (1 / 2 * (90 * DEG2RADf)) * A.sin (1 / 2 * (90 * DEG2RADf))))
            * (u.Y * (1 / 10))
          - 2 * (A.sin (1 / 2 * (90 * DEG2RADf)) * A.cos (1 / 2 * (90 * DEG2RADf)))
            * (u.Z * (1 / 10))),
       2 * (A.sin (1 / 2 * (90 * DEG2RADf)) * A.cos (1 / 2 * (90 * DEG2RADf)))
            * (u.Y * (1 / 10))
          + (1 - 2 * (A.sin (1 / 2 * (90 * DEG2RADf)) * A.sin (1 / 2 * (90 * DEG2RADf))))
            * (u.Z * (1 / 10))⟩ := by
  simp only [rootTranslation, flipTranslation, layFlat, FQuat.axisAngle, FQuat.rotateVector,
    FVector.cross, scaleToUnreal, FVector.mk.injEq]
  refine ⟨?_, ?_, ?_⟩ <;> ring

theorem rootTranslation_linear (A : Arith α) (a b : α) (u v : FVector α) :
    rootTranslation A (FVector.add (FVector.smul a u) (FVector.smul b v))
      = FVector.add (FVector.smul a (rootTranslation A u))
          (FVector.smul b (rootTranslation A v)) := by
  simp only [rootTranslation_formula, FVector.add, FVector.smul, FVector.mk.injEq]
  refine ⟨?_, ?_, ?_⟩ <;> ring

/-- C14: over exact arithmetic, the translation a pass of `newPose` for joint 0 returns is
`rootTranslation` of the raw translation alone, whatever the raw rotation, the bind
orientation and the arrays are; doubling the raw translation doubles it; the map is linear,
being the scaling by 1/10, the rotation about X by the fixed angle `90 * DEG2RADf` (written
with the sine `s` and cosine `c` of half the angle: `y, z ↦ (1-2s²)y - 2sc·z, 2sc·y +
(1-2s²)z`) and the negation of Y. -/
theorem root_translation_linear (A : Arith α) (actor : CapturyActor α) (once : Nat)
    (t : CapturyTransform α) (st st' : PoseLoop α) (trafo : FTransform α)
    (h : newPose.joint A actor once 0 t st = .ok (trafo, st')) :
    trafo.Translation = rootTranslation A t.translation ∧
    (∀ u, rootTranslation A (FVector.smul 2 u) = FVector.smul 2 (rootTranslation A u)) ∧
    (∀ a b u v, rootTranslation A (FVector.add (FVector.smul a u) (FVector.smul b v))
      = FVector.add (FVector.smul a (rootTranslation A u))
          (FVector.smul b (rootTranslation A v))) ∧
    (∀ u, rootTranslation A u =
      ⟨u.X * (1 / 10),
       -((1 - 2 * (A.sin (1 / 2 * (90 * DEG2RADf)) * A.sin (1 / 2 * (90 * DEG2RADf))))
            * (u.Y * (1 / 10))
          - 2 * (A.sin (1 / 2 * (90 * DEG2RADf)) * A.cos (1 / 2 * (90 * DEG2RADf)))
            * (u.Z * (1 / 10))),
       2 * (A.sin (1 / 2 * (90 * DEG2RADf)) * A.cos (1 / 2 * (90 * DEG2RADf)))
            * (u.Y * (1 / 10))
          + (1 - 2 * (A.sin (1 / 2 * (90 * DEG2RADf)) * A.sin (1 / 2 * (90 * DEG2RADf))))
            * (u.Z * (1 / 10))⟩) := by
  refine ⟨?_, ?_, rootTranslation_linear A, rootTranslation_formula A⟩
  · obtain ⟨joint, poseRot, placed, _, _, hp, htrafo, _⟩ :=
      newPose.joint_ok A actor once 0 t st st' trafo h
    simp only [newPose.place, if_true, Except.ok.injEq] at hp
    rw [htrafo, ← hp]
    rfl
  · intro u
    simp only [rootTranslation_formula, FVector.smul, FVector.mk.injEq]
    refine ⟨?_, ?_, ?_⟩ <;> ring

/-- Witness for `root_translation_linear`: pass 0 over the sample actor with the raw
translation `(1, 2, 3)`. -/
theorem root_translation_linear_witness :
    ∃ trafo st', newPose.joint sampleArith sampleActor 0 0 ⟨⟨1, 2, 3⟩, ⟨0, 0, 0⟩⟩
        (newPose.start sampleActor) = .ok (trafo, st') ∧
      trafo.Translation = rootTranslation sampleArith ⟨1, 2, 3⟩ :=
  ⟨_, _, rfl, (root_translation_linear sampleArith sampleActor 0 ⟨⟨1, 2, 3⟩, ⟨0, 0, 0⟩⟩
    (newPose.start sampleActor) _ _ rfl).1⟩

end RootTranslationFacts

/-! ## Retrying unresolved actors -/

section Requeue

variable {α : Type}

end Requeue

/-! ## The cumulative scale -/

/-- On a well-formed skeleton the path from a joint to the root does not depend on the
fuel, once there is enough of it. -/
theorem CapturyActor.pathToRoot_fuel {β : Type} (actor : CapturyActor β) (hwf : actor.wellFormed)
    (k fuel : Nat) (h : k < fuel) :
    actor.pathToRoot fuel k = actor.pathToRoot (k + 1) k := by
  induction k using Nat.strong_induction_on generalizing fuel with
  | _ k ih =>
    obtain ⟨f, rfl⟩ : ∃ f, fuel = f + 1 := ⟨fuel - 1, by omega⟩
    simp only [CapturyActor.pathToRoot]
    cases hj : actor.joints[k]? with
    | none => rfl
    | some joint =>
      simp only
      by_cases hk : k = 0
      · simp only [hk, if_true]
      · simp only [hk, if_false]
        have hw := hwf k joint hj
        have hp0 := hw.2 (Nat.pos_of_ne_zero hk)
        have hpl : joint.parent.toNat < k := by omega
        rw [ih _ hpl f (by omega), ih _ hpl k hpl]

section CumulativeScaleFacts

variable {α : Type} [LinearOrderedField α]

/-- The cumulative scale of a joint is its own scale times its parent's cumulative scale,
the root's parent counting as 1. -/
theorem CapturyActor.cumulativeScale_rec (actor : CapturyActor α) (hwf : actor.wellFormed)
    (i : Nat) (joint : CapturyJoint α) (hj : actor.joints[i]? = some joint) :
    actor.cumulativeScale i
      = joint.scale.X * (if i = 0 then 1 else actor.cumulativeScale joint.parent.toNat) := by
  have hown : actor.ownScale i = joint.scale.X := by
    simp only [CapturyActor.ownScale, hj]
  unfold CapturyActor.cumulativeScale
  by_cases hi : i = 0
  · subst hi
    have hown0 : actor.ownScale 0 = joint.scale.X := hown
    simp [CapturyActor.pathToRoot, hj, hown0]
  · have hw := hwf i joint hj
    have hp0 := hw.2 (Nat.pos_of_ne_zero hi)
    have hpl : joint.parent.toNat < i := by omega
    have hpath : actor.pathToRoot (i + 1) i = i :: actor.pathToRoot i joint.parent.toNat := by
      simp only [CapturyActor.pathToRoot, hj, hi, if_false]
    rw [hpath, CapturyActor.pathToRoot_fuel actor hwf _ i hpl]
    simp only [List.map_cons, List.prod_cons, hown, hi, if_false]

/-- One pass of the joint computation over a well-formed skeleton, from arrays in the
expected shape: it completes, records the cumulative scale and, for a joint other than the
root, returns the offset scaled to engine units, divided by the parent's cumulative scale and
turned into the parent's bind frame, with Y negated. -/
theorem newPose.joint_wf (A : Arith α) (actor : CapturyActor α) (hwf : actor.wellFormed)
    (once i : Nat) (t : CapturyTransform α) (st : PoseLoop α)
    (joint : CapturyJoint α) (hinv : SkeletonArrays A actor i st)
    (hj : actor.joints[i]? = some joint) :
    ∃ trafo stj, newPose.joint A actor once i t st = .ok (trafo, stj) ∧
      SkeletonArrays A actor (i + 1) stj ∧
      stj.animTransforms = st.animTransforms ∧
      (0 < i → trafo.Translation = flipTranslation
        ((actor.bindPose A joint.parent.toNat).Inverse.rotateVector
          ⟨joint.offset.X * scaleToUnreal / actor.cumulativeScale joint.parent.toNat,
           joint.offset.Y * scaleToUnreal / actor.cumulativeScale joint.parent.toNat,
           joint.offset.Z * scaleToUnreal / actor.cumulativeScale joint.parent.toNat⟩)) := by
  obtain ⟨hlt, hge⟩ := hwf i joint hj
  have hil : i < actor.joints.length := by
    by_contra hcon
    rw [List.getElem?_eq_none (by omega)] at hj
    cases hj
  have hjat : TArray.at actor.joints (i : Int) = .ok joint :=
    TArray.at_of_getElem? _ _ _ hj
  have hl : ∃ poseRot, newPose.localRotation
      (st.globalPoseRotations ++ [eulerToQuat A t.rotation]) joint.parent
      (eulerToQuat A t.rotation) = .ok poseRot := by
    unfold newPose.localRotation
    by_cases h0 : joint.parent ≥ 0
    · have hlen : (st.globalPoseRotations ++ [eulerToQuat A t.rotation]).length = i + 1 := by
        simp [hinv.poseRotations]
      have hnot : ¬ joint.parent ≥
          ((st.globalPoseRotations ++ [eulerToQuat A t.rotation]).length : Int) := by
        rw [hlen]; push_cast; omega
      have hidx : joint.parent.toNat
          < (st.globalPoseRotations ++ [eulerToQuat A t.rotation]).length := by
        rw [hlen]; omega
      simp only [h0, hnot, if_true, if_false]
      rw [TArray.at_of_nonneg _ _ _ h0 (List.getElem?_eq_getElem hidx)]
      exact ⟨_, rfl⟩
    · simp only [h0, if_false]
      exact ⟨_, rfl⟩
  obtain ⟨poseRot, hl⟩ := hl
  have hgo : st.globalOrientations ++ [bindPoseOf A joint.orientation]
      = (actor.joints.take (i + 1)).map (fun j => bindPoseOf A j.orientation) := by
    rw [hinv.orientations, List.take_succ, hj]
    simp
  have hparent : 0 < i → (st.globalOrientations ++ [bindPoseOf A joint.orientation])[
      joint.parent.toNat]? = some (actor.bindPose A joint.parent.toNat) := by
    intro hi
    have hp0 := hge hi
    have hpl : joint.parent.toNat < i := by omega
    rw [hgo, List.getElem?_map, List.getElem?_take_of_lt (by omega)]
    unfold CapturyActor.bindPose
    have : joint.parent.toNat < actor.joints.length := by omega
    rw [List.getElem?_eq_getElem this]
    rfl
  have hb : newPose.logBindPose once i
      (st.globalOrientations ++ [bindPoseOf A joint.orientation]) joint.parent = .ok () := by
    unfold newPose.logBindPose
    by_cases hcond : once < 3 ∧ i ≠ 0
    · have hi : 0 < i := Nat.pos_of_ne_zero hcond.2
      simp only [hcond, and_self, if_true, ne_eq, not_false_eq_true]
      rw [TArray.at_of_nonneg _ _ _ (hge hi) (hparent hi)]
    · simp only [hcond, if_false]
  have hrec := CapturyActor.cumulativeScale_rec actor hwf i joint hj
  by_cases hi0 : i = 0
  · subst hi0
    have hp : newPose.place A 0 t joint poseRot (bindPoseOf A joint.orientation)
        (st.globalOrientations ++ [bindPoseOf A joint.orientation]) st.globalScale
        = .ok ((((layFlat A).mul poseRot).mul (bindPoseOf A joint.orientation)),
            (layFlat A).rotateVector ⟨t.translation.X * scaleToUnreal,
              t.translation.Y * scaleToUnreal, t.translation.Z * scaleToUnreal⟩, 1) := by
      simp only [newPose.place, if_true]
    refine ⟨_, _, newPose.joint_of_parts A actor once 0 t st joint _ _ hjat hl hb hp,
      ?_, rfl, ?_⟩
    · refine ⟨by simp [hinv.poseRotations], hgo, ?_⟩
      show st.globalScale ++ [1 * joint.scale.X] = _
      rw [hinv.scales]
      simp [List.range_succ, hrec]
    · intro h; exact absurd h (lt_irrefl 0)
  · have hi : 0 < i := Nat.pos_of_ne_zero hi0
    have hp0 := hge hi
    have hpl : joint.parent.toNat < i := by omega
    have hps : st.globalScale[joint.parent.toNat]?
        = some (actor.cumulativeScale joint.parent.toNat) := by
      rw [hinv.scales, List.getElem?_map, List.getElem?_range hpl]
      rfl
    have hown : (st.globalOrientations ++ [bindPoseOf A joint.orientation])[i]?
        = some (bindPoseOf A joint.orientation) := by
      have hlen : st.globalOrientations.length = i := by
        rw [hinv.orientations]; simp; omega
      rw [List.getElem?_append_right (by omega), hlen]
      simp
    have hp : newPose.place A i t joint poseRot (bindPoseOf A joint.orientation)
        (st.globalOrientations ++ [bindPoseOf A joint.orientation]) st.globalScale
        = .ok ((((((actor.bindPose A joint.parent.toNat).Inverse.mul
            (bindPoseOf A joint.orientation)).mul
              (bindPoseOf A joint.orientation).Inverse).mul poseRot).mul
                (bindPoseOf A joint.orientation)),
            (actor.bindPose A joint.parent.toNat).Inverse.rotateVector
              ⟨joint.offset.X * scaleToUnreal / actor.cumulativeScale joint.parent.toNat,
               joint.offset.Y * scaleToUnreal / actor.cumulativeScale joint.parent.toNat,
               joint.offset.Z * scaleToUnreal / actor.cumulativeScale joint.parent.toNat⟩,
            actor.cumulativeScale joint.parent.toNat) := by
      simp only [newPose.place, hi0, if_false]
      rw [TArray.at_of_nonneg _ _ _ hp0 hps]
      simp only
      rw [TArray.at_of_nonneg _ _ _ hp0 (hparent hi)]
      simp only
      rw [TArray.at_of_getElem? _ _ _ hown]
    refine ⟨_, _, newPose.joint_of_parts A actor once i t st joint _ _ hjat hl hb hp,
      ?_, rfl, ?_⟩
    · refine ⟨by simp [hinv.poseRotations], hgo, ?_⟩
      show st.globalScale ++ [actor.cumulativeScale joint.parent.toNat * joint.scale.X] = _
      rw [hinv.scales]
      simp [List.range_succ, hrec, hi0, mul_comm]
    · intro _; rfl

/-- The joint loop over a well-formed skeleton completes and leaves the arrays in the
expected shape. -/
theorem newPose.loop_wf (A : Arith α) (actor : CapturyActor α) (hwf : actor.wellFormed)
    (once : Nat) (ts : List (CapturyTransform α)) (i : Nat) (st : PoseLoop α)
    (hinv : SkeletonArrays A actor i st) (hn : i + ts.length ≤ actor.numJoints) :
    ∃ st', newPose.loop A actor once ts i st = .ok st' ∧
      SkeletonArrays A actor (i + ts.length) st' := by
  induction ts generalizing i st with
  | nil => exact ⟨st, rfl, hinv⟩
  | cons t rest ih =>
    have hil : i < actor.joints.length := by
      simp only [List.length_cons, CapturyActor.numJoints] at hn; omega
    have hj : actor.joints[i]? = some actor.joints[i] := List.getElem?_eq_getElem hil
    obtain ⟨trafo, stj, hjo, hinv', _, _⟩ :=
      newPose.joint_wf A actor hwf once i t st _ hinv hj
    have hstep : ∃ st1, newPose.step A actor once i t st = .ok st1 ∧
        SkeletonArrays A actor (i + 1) st1 := by
      unfold newPose.step
      rw [hjo]
      by_cases hm : actor.numJoints > 1
      · simp only [hm, if_true]
        exact ⟨_, rfl, ⟨hinv'.poseRotations, hinv'.orientations, hinv'.scales⟩⟩
      · simp only [hm, if_false]
        exact ⟨_, rfl, ⟨hinv'.poseRotations, hinv'.orientations, hinv'.scales⟩⟩
    obtain ⟨st1, hstep, hinv1⟩ := hstep
    obtain ⟨st', hloop, hres⟩ := ih (i + 1) st1 hinv1
      (by simp only [List.length_cons] at hn; omega)
    refine ⟨st', ?_, ?_⟩
    · simp only [newPose.loop, hstep]
      exact hloop
    · have : i + (t :: rest).length = i + 1 + rest.length := by
        simp only [List.length_cons]; omega
      rw [this]
      exact hres

end CumulativeScaleFacts

theorem scaledActor_wellFormed : scaledActor.wellFormed := by
  intro i joint h
  match i with
  | 0 =>
    simp only [scaledActor, List.getElem?_cons_zero, Option.some.injEq] at h
    subst h
    exact ⟨by norm_num, by intro h0; exact absurd h0 (by norm_num)⟩
  | 1 =>
    simp only [scaledActor, List.getElem?_cons_succ, List.getElem?_cons_zero,
      Option.some.injEq] at h
    subst h
    exact ⟨by norm_num, by intro _; norm_num⟩
  | 2 =>
    simp only [scaledActor, List.getElem?_cons_succ, List.getElem?_cons_zero,
      Option.some.injEq] at h
    subst h
    exact ⟨by norm_num, by intro _; norm_num⟩
  | k + 3 =>
    simp [scaledActor] at h

section CumulativeScaleClaims

variable {α : Type} [LinearOrderedField α]

/-- Claim C16.  On a well-formed skeleton (every parent index is below the joint's own index,
and non-negative for every joint but joint 0) and for a pose with no more transforms than the
actor has joints, the joint loop of `newPose` completes, and the scale array it builds holds at
`i` the cumulative scale of joint `i`: the product of the own scales `scale[0]` of the joints
on the path from joint `i` to the root, which is the joint's own scale times the cumulative
scale of its parent, the root's parent scale being 1.  The bone of a joint `i > 0` whose
parent's cumulative scale is not zero has as translation the joint's offset times 0.1 divided
by the parent's cumulative scale, turned into the parent's bind frame, with Y negated. -/
theorem newPose_cumulative_scale (A : Arith α) (actor : CapturyActor α) (once : Nat)
    (pose : CapturyPose α) (hwf : actor.wellFormed)
    (hn : pose.numTransforms ≤ actor.numJoints) :
    ∃ st, newPose.run A actor once pose = .ok st ∧
      st.globalScale = (List.range pose.numTransforms).map actor.cumulativeScale ∧
      ∀ (i : Nat) (joint : CapturyJoint α), i < pose.numTransforms →
        actor.joints[i]? = some joint →
        st.globalScale[i]? = some (actor.cumulativeScale i) ∧
        actor.cumulativeScale i = ((actor.pathToRoot (i + 1) i).map actor.ownScale).prod ∧
        actor.cumulativeScale i
          = joint.scale.X * (if i = 0 then 1 else actor.cumulativeScale joint.parent.toNat) ∧
        (0 < i → actor.cumulativeScale joint.parent.toNat ≠ 0 →
          ∃ bone, st.animTransforms[i + (if actor.rootIsHips = true then 1 else 0)]? = some bone ∧
            bone.Translation = flipTranslation
              ((actor.bindPose A joint.parent.toNat).Inverse.rotateVector
                ⟨joint.offset.X * (1 / 10) / actor.cumulativeScale joint.parent.toNat,
                 joint.offset.Y * (1 / 10) / actor.cumulativeScale joint.parent.toNat,
                 joint.offset.Z * (1 / 10) / actor.cumulativeScale joint.parent.toNat⟩)) := by
  have hinv0 : SkeletonArrays A actor 0 (newPose.start actor) :=
    ⟨rfl, by simp [newPose.start], rfl⟩
  have hn' : 0 + pose.transforms.length ≤ actor.numJoints := by
    simpa [CapturyPose.numTransforms] using hn
  obtain ⟨st, hrun, hres⟩ := newPose.loop_wf A actor hwf once pose.transforms 0
    (newPose.start actor) hinv0 hn'
  have hscales : st.globalScale = (List.range pose.numTransforms).map actor.cumulativeScale := by
    rw [hres.scales]
    simp [CapturyPose.numTransforms]
  refine ⟨st, hrun, hscales, ?_⟩
  intro i joint hi hj
  refine ⟨?_, rfl, CapturyActor.cumulativeScale_rec actor hwf i joint hj, ?_⟩
  · rw [hscales, List.getElem?_map, List.getElem?_range hi]
    rfl
  · intro hi0 _
    have hi' : i < pose.transforms.length := hi
    have hm : actor.numJoints > 1 := by
      have : pose.transforms.length ≤ actor.numJoints := by omega
      omega
    obtain ⟨L, hL, hlen, hall⟩ :=
      newPose.loop_bones A actor once hm pose.transforms 0 (newPose.start actor) st hrun
    obtain ⟨t, stk, trafo, stk', _, hpre, hjoint, hLk⟩ := hall i hi'
    have hlt : (pose.transforms.take i).length = i := by
      rw [List.length_take]; omega
    obtain ⟨stk2, hpre2, hinvk⟩ := newPose.loop_wf A actor hwf once (pose.transforms.take i) 0
      (newPose.start actor) hinv0 (by rw [hlt]; omega)
    rw [hpre] at hpre2
    cases hpre2
    rw [hlt, Nat.zero_add] at hinvk
    obtain ⟨trafo2, stj2, hj2, _, _, htr⟩ :=
      newPose.joint_wf A actor hwf once i t stk joint hinvk hj
    rw [Nat.zero_add, hj2] at hjoint
    cases hjoint
    refine ⟨trafo, ?_, ?_⟩
    · rw [hL]
      by_cases hh : actor.rootIsHips = true
      · simp only [newPose.start, hm, hh, and_self, if_true, List.singleton_append]
        rw [List.getElem?_cons_succ]
        exact hLk
      · simpa [newPose.start, hh] using hLk
    · rw [htr hi0]
      rfl

/-- Witness for `newPose_cumulative_scale`: the skeleton `[Hips, Spine, Head]` with own
scales 2, 3 and 5 and a pose of three zero transforms. -/
theorem newPose_cumulative_scale_witness :
    scaledActor.wellFormed ∧ (zeroPose 3).numTransforms ≤ scaledActor.numJoints ∧
    scaledActor.cumulativeScale 2 = 30 ∧
    ∃ st, newPose.run sampleArith scaledActor 0 (zeroPose 3) = .ok st ∧
      st.globalScale = (List.range (zeroPose 3).numTransforms).map scaledActor.cumulativeScale ∧
      ∀ (i : Nat) (joint : CapturyJoint ℚ), i < (zeroPose 3).numTransforms →
        scaledActor.joints[i]? = some joint →
        st.globalScale[i]? = some (scaledActor.cumulativeScale i) ∧
        scaledActor.cumulativeScale i
          = ((scaledActor.pathToRoot (i + 1) i).map scaledActor.ownScale).prod ∧
        scaledActor.cumulativeScale i
          = joint.scale.X
            * (if i = 0 then 1 else scaledActor.cumulativeScale joint.parent.toNat) ∧
        (0 < i → scaledActor.cumulativeScale joint.parent.toNat ≠ 0 →
          ∃ bone, st.animTransforms[i + (if scaledActor.rootIsHips = true then 1 else 0)]?
              = some bone ∧
            bone.Translation = flipTranslation
              ((scaledActor.bindPose sampleArith joint.parent.toNat).Inverse.rotateVector
                ⟨joint.offset.X * (1 / 10) / scaledActor.cumulativeScale joint.parent.toNat,
                 joint.offset.Y * (1 / 10) / scaledActor.cumulativeScale joint.parent.toNat,
                 joint.offset.Z * (1 / 10) / scaledActor.cumulativeScale joint.parent.toNat⟩)) :=
  ⟨scaledActor_wellFormed, by decide,
    by norm_num [CapturyActor.cumulativeScale, CapturyActor.pathToRoot, CapturyActor.ownScale,
      scaledActor],
    newPose_cumulative_scale sampleArith scaledActor 0 (zeroPose 3) scaledActor_wellFormed
      (by decide)⟩

end CumulativeScaleClaims

/-! ## The session bookkeeping -/

theorem TMap.Find_Add {K V : Type} [DecidableEq K] (m : List (K × V)) (k j : K) (v : V) :
    TMap.Find (TMap.Add m k v) j = if k = j then some v else TMap.Find m j := by
  unfold TMap.Add
  rw [TMap.Find_append_single]
  by_cases h : k = j
  · subst h
    simp [TMap.Find_Remove_self]
  · have hne : j ≠ k := fun e => h e.symm
    rw [TMap.Find_Remove_ne m hne]
    cases TMap.Find m j <;> simp [h]

theorem TSet.mem_Add (xs : List Int) (x y : Int) : y ∈ TSet.Add xs x ↔ y ∈ xs ∨ y = x := by
  unfold TSet.Add
  by_cases h : x ∈ xs
  · simp only [h, if_true]
    constructor
    · intro hy; exact Or.inl hy
    · rintro (hy | hy)
      · exact hy
      · rw [hy]; exact h
  · simp [h]

theorem TSet.mem_Remove (xs : List Int) (x y : Int) : y ∈ TSet.Remove xs x ↔ y ∈ xs ∧ y ≠ x := by
  simp [TSet.Remove]

/-- The search loop of the constructor stops within its fuel, on a value no smaller than
its start, having seen only members of the set. -/
theorem firstFreeIndex_bounds (indexes : List Int) (fuel : Nat) (start : Int) :
    start ≤ firstFreeIndex indexes fuel start ∧
    firstFreeIndex indexes fuel start ≤ start + fuel ∧
    (∀ j, start ≤ j → j < firstFreeIndex indexes fuel start → j ∈ indexes) ∧
    (firstFreeIndex indexes fuel start < start + fuel →
      firstFreeIndex indexes fuel start ∉ indexes) := by
  induction fuel generalizing start with
  | zero =>
    simp only [firstFreeIndex]
    refine ⟨le_refl _, by simp, ?_, ?_⟩
    · intro j h1 h2; omega
    · intro h; simp at h
  | succ fuel ih =>
    simp only [firstFreeIndex]
    by_cases hm : start ∈ indexes
    · simp only [hm, if_true]
      obtain ⟨h1, h2, h3, h4⟩ := ih (start + 1)
      refine ⟨by omega, by push_cast; omega, ?_, ?_⟩
      · intro j hj1 hj2
        by_cases hjs : j = start
        · rw [hjs]; exact hm
        · exact h3 j (by omega) hj2
      · intro h
        exact h4 (by push_cast at h; omega)
    · simp only [hm, if_false]
      refine ⟨le_refl _, by push_cast; omega, ?_, fun _ => not_false⟩
      intro j h1 h2; omega

/-- The index the constructor picks on a host that has an entry: the smallest positive
index that is not in the set recorded for the host. -/
theorem firstFreeIndex_smallest (indexes : List Int) :
    1 ≤ firstFreeIndex indexes (indexes.length + 1) 1 ∧
    firstFreeIndex indexes (indexes.length + 1) 1 ∉ indexes ∧
    ∀ j, 1 ≤ j → j < firstFreeIndex indexes (indexes.length + 1) 1 → j ∈ indexes := by
  obtain ⟨h1, h2, h3, h4⟩ := firstFreeIndex_bounds indexes (indexes.length + 1) 1
  refine ⟨h1, ?_, h3⟩
  apply h4
  by_contra hcon
  have heq : firstFreeIndex indexes (indexes.length + 1) 1 = 1 + ((indexes.length + 1 : Nat) : Int) := by
    omega
  have hsub : Finset.Ico (1 : Int) (1 + ((indexes.length + 1 : Nat) : Int)) ⊆ indexes.toFinset := by
    intro j hj
    rw [Finset.mem_Ico] at hj
    rw [List.mem_toFinset]
    exact h3 j hj.1 (by rw [heq]; exact hj.2)
  have hcard := Finset.card_le_card hsub
  rw [Int.card_Ico] at hcard
  have := List.toFinset_card_le indexes
  have hval : (1 + ((indexes.length + 1 : Nat) : Int) - 1).toNat = indexes.length + 1 := by
    omega
  omega

theorem Globals.records_iff (g : Globals) (ip : String) (sourceIndex : Int) :
    g.records ip sourceIndex = true ↔
      ∃ indexes, TMap.Find g.ipAddressCounts ip = some indexes ∧ sourceIndex ∈ indexes := by
  unfold Globals.records
  cases TMap.Find g.ipAddressCounts ip with
  | none => simp
  | some indexes => simp

/-- The invariant holds before any session exists. -/
theorem bookkeepingInvariant_initial (β : Type) :
    bookkeepingInvariant Globals.initial ([] : List (Source β)) :=
  ⟨fun _ hs => absurd hs (List.not_mem_nil _), List.Pairwise.nil⟩

/-- The constructor on a host that has an entry: the picked index and the new map. -/
theorem Source.construct_known (β : Type) (capacity : Nat) (g : Globals) (ip : String)
    (indexes : List Int) (hf : TMap.Find g.ipAddressCounts ip = some indexes) :
    ((Source.construct capacity g ip).2 : Source β).ipAddress = ip ∧
    ((Source.construct capacity g ip).2 : Source β).sourceIndex
      = firstFreeIndex indexes (indexes.length + 1) 1 ∧
    (Source.construct capacity g ip : Globals × Source β).1.ipAddressCounts
      = TMap.Add g.ipAddressCounts ip
          (TSet.Add indexes (firstFreeIndex indexes (indexes.length + 1) 1)) ∧
    (Source.construct capacity g ip : Globals × Source β).1.sourceCount = g.sourceCount + 1 := by
  simp only [Source.construct, hf, and_self]

/-- The constructor on a host that has no entry: index 1 and a new entry `{1}`. -/
theorem Source.construct_unknown (β : Type) (capacity : Nat) (g : Globals) (ip : String)
    (hf : TMap.Find g.ipAddressCounts ip = none) :
    ((Source.construct capacity g ip).2 : Source β).ipAddress = ip ∧
    ((Source.construct capacity g ip).2 : Source β).sourceIndex = 1 ∧
    (Source.construct capacity g ip : Globals × Source β).1.ipAddressCounts
      = TMap.Add g.ipAddressCounts ip [1] ∧
    (Source.construct capacity g ip : Globals × Source β).1.sourceCount = g.sourceCount + 1 := by
  simp only [Source.construct, hf, and_self]

/-- The constructor gives the new session the smallest positive index that is not in the set
recorded for its host (index 1 on a host without an entry). -/
theorem Source.construct_index_smallest (β : Type) (capacity : Nat) (g : Globals)
    (ip : String) :
    1 ≤ ((Source.construct capacity g ip).2 : Source β).sourceIndex ∧
    g.records ip ((Source.construct capacity g ip).2 : Source β).sourceIndex = false ∧
    ∀ j, 1 ≤ j → j < ((Source.construct capacity g ip).2 : Source β).sourceIndex →
      g.records ip j = true := by
  cases hf : TMap.Find g.ipAddressCounts ip with
  | none =>
    obtain ⟨_, hidx, _, _⟩ := Source.construct_unknown β capacity g ip hf
    rw [hidx]
    refine ⟨le_refl _, by simp [Globals.records, hf], ?_⟩
    intro j h1 h2
    omega
  | some indexes =>
    obtain ⟨_, hidx, _, _⟩ := Source.construct_known β capacity g ip indexes hf
    obtain ⟨h1, h2, h3⟩ := firstFreeIndex_smallest indexes
    rw [hidx]
    refine ⟨h1, by simp [Globals.records, hf, h2], ?_⟩
    intro j hj1 hj2
    simp [Globals.records, hf, h3 j hj1 hj2]

/-- The constructor preserves the invariant. -/
theorem bookkeepingInvariant_construct (β : Type) (capacity : Nat) (g : Globals)
    (live : List (Source β)) (ip : String) (h : bookkeepingInvariant g live) :
    bookkeepingInvariant (Source.construct capacity g ip : Globals × Source β).1
      (live ++ [(Source.construct capacity g ip).2]) := by
  obtain ⟨hrec, hpair⟩ := h
  obtain ⟨_, hfree, _⟩ := Source.construct_index_smallest β capacity g ip
  have hip : ((Source.construct capacity g ip).2 : Source β).ipAddress = ip := by
    cases hf : TMap.Find g.ipAddressCounts ip with
    | none => exact (Source.construct_unknown β capacity g ip hf).1
    | some indexes => exact (Source.construct_known β capacity g ip indexes hf).1
  have hnew : ∀ (ip2 : String) (j : Int),
      (Source.construct capacity g ip : Globals × Source β).1.records ip2 j = true ↔
        (g.records ip2 j = true ∨
          (ip2 = ip ∧ j = ((Source.construct capacity g ip).2 : Source β).sourceIndex)) := by
    intro ip2 j
    cases hf : TMap.Find g.ipAddressCounts ip with
    | none =>
      obtain ⟨_, hidx, hmap, _⟩ := Source.construct_unknown β capacity g ip hf
      rw [Globals.records_iff, Globals.records_iff, hmap, hidx, TMap.Find_Add]
      by_cases he : ip = ip2
      · subst he
        simp [hf]
      · have he2 : ¬ ip2 = ip := fun e => he e.symm
        simp [he, he2]
    | some indexes =>
      obtain ⟨_, hidx, hmap, _⟩ := Source.construct_known β capacity g ip indexes hf
      rw [Globals.records_iff, Globals.records_iff, hmap, hidx, TMap.Find_Add]
      by_cases he : ip = ip2
      · subst he
        simp [hf, TSet.mem_Add]
      · have he2 : ¬ ip2 = ip := fun e => he e.symm
        simp [he, he2]
  refine ⟨?_, ?_⟩
  · intro s hs
    rw [List.mem_append, List.mem_singleton] at hs
    rcases hs with hs | hs
    · exact (hnew _ _).2 (Or.inl (hrec s hs))
    · rw [hs]
      exact (hnew _ _).2 (Or.inr ⟨hip, rfl⟩)
  · rw [List.pairwise_append]
    refine ⟨hpair, List.pairwise_singleton _ _, ?_⟩
    intro a ha b hb hab heq
    rw [List.mem_singleton] at hb
    rw [hb] at hab
    rw [hb] at heq
    rw [hip] at hab
    have hra := hrec a ha
    rw [hab, heq, hfree] at hra
    cases hra

/-- The destructor of a live session finds the entry of its host and preserves the
invariant for the sessions that stay. -/
theorem bookkeepingInvariant_destruct (β : Type) (g : Globals) (l1 l2 : List (Source β))
    (s : Source β) (h : bookkeepingInvariant g (l1 ++ s :: l2)) :
    ∃ g', s.destruct g = some g' ∧ bookkeepingInvariant g' (l1 ++ l2) := by
  obtain ⟨hrec, hpair⟩ := h
  obtain ⟨indexes, hf, _⟩ := (Globals.records_iff g _ _).1 (hrec s (by simp))
  refine ⟨⟨g.sourceCount - 1, TMap.Add g.ipAddressCounts s.ipAddress
    (TSet.Remove indexes s.sourceIndex)⟩, by simp only [Source.destruct, hf], ?_, ?_⟩
  · intro a ha
    have ha' : a ∈ l1 ++ s :: l2 := by
      rw [List.mem_append] at ha ⊢
      rcases ha with ha | ha
      · exact Or.inl ha
      · exact Or.inr (List.mem_cons_of_mem _ ha)
    obtain ⟨idxa, hfa, hma⟩ := (Globals.records_iff g _ _).1 (hrec a ha')
    rw [Globals.records_iff]
    show ∃ indexes', TMap.Find (TMap.Add g.ipAddressCounts s.ipAddress
        (TSet.Remove indexes s.sourceIndex)) a.ipAddress = some indexes' ∧ _
    rw [TMap.Find_Add]
    by_cases he : s.ipAddress = a.ipAddress
    · simp only [he, if_true]
      refine ⟨_, rfl, ?_⟩
      rw [TSet.mem_Remove]
      rw [← he, hf] at hfa
      cases hfa
      refine ⟨hma, ?_⟩
      rw [List.pairwise_append, List.pairwise_cons] at hpair
      rw [List.mem_append] at ha
      rcases ha with ha | ha
      · exact hpair.2.2 a ha s (by simp) he.symm
      · exact fun e => hpair.2.1.1 a ha he e.symm
    · simp only [he, if_false]
      exact ⟨idxa, hfa, hma⟩
  · exact hpair.sublist ((List.sublist_cons_self s l2).append_left l1)

/-- What `setIPAddress` does to the invariant: after the call it holds exactly when the
session's index happens to be recorded for the new host and no other live session on the
new host has the same index. -/
theorem bookkeepingInvariant_setIPAddress_iff (β : Type) (g : Globals)
    (l1 l2 : List (Source β)) (s : Source β) (ip : String)
    (h : bookkeepingInvariant g (l1 ++ s :: l2)) :
    bookkeepingInvariant g (l1 ++ s.setIPAddress ip :: l2) ↔
      (g.records ip s.sourceIndex = true ∧
        ∀ a ∈ l1 ++ l2, a.ipAddress = ip → a.sourceIndex ≠ s.sourceIndex) := by
  obtain ⟨hrec, hpair⟩ := h
  rw [List.pairwise_append, List.pairwise_cons] at hpair
  obtain ⟨hp1, ⟨_, hp2⟩, hp12⟩ := hpair
  have hip : (s.setIPAddress ip).ipAddress = ip := rfl
  have hidx : (s.setIPAddress ip).sourceIndex = s.sourceIndex := rfl
  constructor
  · rintro ⟨hrec', hpair'⟩
    rw [List.pairwise_append, List.pairwise_cons] at hpair'
    obtain ⟨_, ⟨hs2, _⟩, h12⟩ := hpair'
    refine ⟨hrec' (s.setIPAddress ip) (by simp), ?_⟩
    intro a ha hea
    rw [List.mem_append] at ha
    rcases ha with ha | ha
    · exact h12 a ha (s.setIPAddress ip) (by simp) hea
    · exact fun e => hs2 a ha hea.symm e.symm
  · rintro ⟨hr, hne⟩
    refine ⟨?_, ?_⟩
    · intro a ha
      rw [List.mem_append, List.mem_cons] at ha
      rcases ha with ha | ha | ha
      · exact hrec a (by simp [ha])
      · rw [ha]; exact hr
      · exact hrec a (by simp [ha])
    · rw [List.pairwise_append, List.pairwise_cons]
      refine ⟨hp1, ⟨?_, hp2⟩, ?_⟩
      · intro b hb heb e
        exact hne b (by simp [hb]) heb.symm e.symm
      · intro a ha b hb
        rw [List.mem_cons] at hb
        rcases hb with hb | hb
        · rw [hb]
          intro hea
          exact hne a (by simp [ha]) hea
        · exact hp12 a ha b (List.mem_cons_of_mem _ hb)

/-- Claim C19.  Two sessions are constructed, on hosts `10.0.0.1` and `10.0.0.2`; each gets
index 1 and the invariant holds.  After `setIPAddress` moves the first session to
`10.0.0.2` the invariant is broken: both live sessions are on the same host with the same
index.  The destructor of the moved session then removes index 1 from the set of
`10.0.0.2`, where the second session still lives, and leaves index 1 recorded for
`10.0.0.1`, where no session lives.  A session moved to a host without an entry is not
recorded there, and its destructor indexes the map with a key it does not hold. -/
theorem setIPAddress_breaks_bookkeeping :
    bookkeepingInvariant secondSession.1 [firstSession.2, secondSession.2] ∧
    firstSession.2.sourceIndex = 1 ∧ secondSession.2.sourceIndex = 1 ∧
    (firstSession.2.setIPAddress "10.0.0.2").ipAddress = secondSession.2.ipAddress ∧
    (firstSession.2.setIPAddress "10.0.0.2").sourceIndex = secondSession.2.sourceIndex ∧
    ¬ bookkeepingInvariant secondSession.1
        [firstSession.2.setIPAddress "10.0.0.2", secondSession.2] ∧
    (∃ g, (firstSession.2.setIPAddress "10.0.0.2").destruct secondSession.1 = some g ∧
      g.records "10.0.0.2" 1 = false ∧ g.records "10.0.0.1" 1 = true ∧
      ¬ bookkeepingInvariant g [secondSession.2]) ∧
    bookkeepingInvariant firstSession.1 [firstSession.2] ∧
    ¬ bookkeepingInvariant firstSession.1 [firstSession.2.setIPAddress "10.0.0.3"] ∧
    (firstSession.2.setIPAddress "10.0.0.3").destruct firstSession.1 = none := by
  refine ⟨by decide, by decide, by decide, by decide, by decide, by decide,
    ⟨_, rfl, by decide, by decide, by decide⟩, by decide, by decide, by decide⟩

/-! ## A full add queue -/

/-- C9, as stated, fails: actor 7 is unregistered and resolvable and the client is present,
but the add queue is full (fifteen buffered adds for actor 8).  Both adds for actor 7 are
dropped, by `actorChanged` and by a direct enqueue alike.  The poll registers actor 8 and
drains the three queues, and actor 7 is not in the registry, after this poll and after a
second one. -/
theorem full_add_queue_drops_the_add :
    fullQueueSource.liveLinkClient = true ∧
    TMap.Find fullQueueSource.haveActors 7 = none ∧
    twoActorSession.getActor 7 = some sampleActor ∧
    fullQueueSource.queuedActorIds.items.length = fullQueueSource.queuedActorIds.capacity ∧
    (actorChanged (actorChanged (actorChanged fullQueueSource 7 .ACTOR_TRACKING) 7
      .ACTOR_STOPPED) 7 .ACTOR_TRACKING).queuedActorIds = fullQueueSource.queuedActorIds ∧
    (Update twoActorSession (actorChanged (actorChanged (actorChanged fullQueueSource 7
      .ACTOR_TRACKING) 7 .ACTOR_STOPPED) 7 .ACTOR_TRACKING)).queuedActorIds.items = [] ∧
    (Update twoActorSession (actorChanged (actorChanged (actorChanged fullQueueSource 7
      .ACTOR_TRACKING) 7 .ACTOR_STOPPED) 7 .ACTOR_TRACKING)).queuedActorIdsToRemove.items
      = [] ∧
    (Update twoActorSession (actorChanged (actorChanged (actorChanged fullQueueSource 7
      .ACTOR_TRACKING) 7 .ACTOR_STOPPED) 7 .ACTOR_TRACKING)).queuedARTags.items = [] ∧
    (Update twoActorSession (actorChanged (actorChanged (actorChanged fullQueueSource 7
      .ACTOR_TRACKING) 7 .ACTOR_STOPPED) 7 .ACTOR_TRACKING)).haveActors
      = [(8, ⟨1, "other"⟩)] ∧
    TMap.Find (Update twoActorSession (Update twoActorSession (actorChanged (actorChanged
      (actorChanged fullQueueSource 7 .ACTOR_TRACKING) 7 .ACTOR_STOPPED) 7
      .ACTOR_TRACKING))).haveActors 7 = none ∧
    (Update twoActorSession
      (enqueueIntents 7 fullQueueSource [.add, .remove, .add])).queuedActorIds.items = [] ∧
    (Update twoActorSession
      (enqueueIntents 7 fullQueueSource [.add, .remove, .add])).queuedActorIdsToRemove.items
      = [] ∧
    (Update twoActorSession
      (enqueueIntents 7 fullQueueSource [.add, .remove, .add])).haveActors
      = [(8, ⟨1, "other"⟩)] ∧
    TMap.Find (Update twoActorSession (Update twoActorSession
      (enqueueIntents 7 fullQueueSource [.add, .remove, .add]))).haveActors 7 = none := by
  decide

end CapturyLiveLink
